import Mathlib

/-!
# Dreamcast DNS resolver shim: wire codec

A shallow embedding of `src/frontends/dreamcast/dns_shim.c` and theorems about it.

Conventions of the embedding.
* A byte is a `Nat`; a byte read from memory is below 256.
* A C string is the list of its bytes before the terminating NUL, so `*p != 0`
  is `p ≠ []` and the bytes of the list are nonzero.
* A buffer the code writes to is not modelled as memory: every store
  `out[i] = v` is recorded, in program order, as the pair `(i, v)` of a write
  log, and `applyWrites` replays a log on the previous content of the buffer.
* `size_t` offsets are `Nat`: the offsets of the code stay below
  `out_len + 69`, resp. `msg_len + 256`, far from the wrap-around of `size_t`.
-/

namespace DnsShim

/-! ## The embedding of the query encoder -/

/-- One store `out[idx] = val`, as the pair `(idx, val)`. -/
abbrev WriteLog := List (Nat × Nat)

/-- The stores of `memcpy(out + off, src, len)`, `src` being the `len` bytes copied. -/
def memcpyLog : Nat → List Nat → WriteLog
  | _, [] => []
  | off, b :: bs => (off, b) :: memcpyLog (off + 1) bs

/-- Replays a write log on a buffer. A store outside the buffer (undefined
behaviour in C) leaves the modelled buffer unchanged. -/
def applyWrites (buf : List Nat) (log : WriteLog) : List Nat :=
  log.foldl (fun b w => b.set w.1 w.2) buf

/-- The character `'.'`. -/
def dotChar : Nat := 46

/-- The label `p` starts with: the bytes before the first `'.'` (all of `p`
when it has none). Its length is `labellen` of the source in both cases,
`dot - p` and `strlen(p)`. -/
def labelOf (p : List Nat) : List Nat := p.takeWhile (fun c => c != dotChar)

/-- The result of `strchr(p, '.')`: the suffix of `p` that starts at its first
`'.'`, or `[]` for the null pointer when `p` has no `'.'`. -/
def strchrDot (p : List Nat) : List Nat := p.dropWhile (fun c => c != dotChar)

/-- How the `while (*p != 0)` loop of `dc_dns_build_query` is left. -/
inductive LoopExit
  /-- A `return -1` inside the loop. -/
  | failed
  /-- The loop is left, by its condition or by `break`, with this `off`. -/
  | finished (off : Nat)
  /-- The model ran out of fuel (this never happens with `strlen(host) + 1`). -/
  | outOfFuel
  deriving DecidableEq, Repr

/-- The QNAME loop of `dc_dns_build_query` (lines 136-152), started at the
string position `p` with the offset `off`; it returns how the loop is left and
the stores it made. Each iteration consumes at least one byte of `p`, the fuel
counts iterations. -/
def qnameLoop (out_len : Nat) : Nat → List Nat → Nat → LoopExit × WriteLog
  | 0, _, _ => (LoopExit.outOfFuel, [])
  | fuel + 1, p, off =>
    if p = [] then (LoopExit.finished off, [])
    else
      let dot := strchrDot p
      let labellen := (labelOf p).length
      if labellen = 0 ∨ labellen > 63 then (LoopExit.failed, [])
      else if off + 1 + labellen + 1 + 4 > out_len then (LoopExit.failed, [])
      else
        let w := (off, labellen % 256) :: memcpyLog (off + 1) (labelOf p)
        let off1 := off + 1 + labellen
        match dot with
        | [] => (LoopExit.finished off1, w)
        | _ :: p1 =>
          let r := qnameLoop out_len fuel p1 off1
          (r.1, w ++ r.2)

/-- The twelve stores of the header (lines 119-133). -/
def headerLog (id : Nat) : WriteLog :=
  [(0, (id >>> 8) % 256), (1, (id &&& 0xff) % 256), (2, 0x01), (3, 0x00),
   (4, 0x00), (5, 0x01), (6, 0x00), (7, 0x00), (8, 0x00), (9, 0x00),
   (10, 0x00), (11, 0x00)]

/-- The five stores after the loop (lines 153-159): terminator, QTYPE, QCLASS. -/
def trailerLog (off : Nat) : WriteLog :=
  [(off, 0x00), (off + 1, 0x00), (off + 2, 0x01), (off + 3, 0x00), (off + 4, 0x01)]

/-- The function `dc_dns_build_query(out, out_len, id, host)`: the returned
`int` and the stores made to `out`, in program order. The result is `none`
only if the model of the loop runs out of fuel. -/
def dc_dns_build_query (out_len id : Nat) (host : List Nat) : Option (Int × WriteLog) :=
  if out_len < 12 then some (-1, [])
  else
    match qnameLoop out_len (host.length + 1) host 12 with
    | (LoopExit.failed, w) => some (-1, headerLog id ++ w)
    | (LoopExit.finished off, w) =>
      some (((off + 5 : Nat) : Int), headerLog id ++ w ++ trailerLog off)
    | (LoopExit.outOfFuel, _) => none

/-- DC_DNS_MAX_PACKET. -/
def DC_DNS_MAX_PACKET : Nat := 512

/-! ## Specification-side definitions for the encoder -/

/-- Splitting a host name on `'.'`, following the words of the specification:
the labels are the maximal runs of bytes between dots, so `n` dots give
`n + 1` labels, some of which may be empty. -/
def splitDot : List Nat → List (List Nat)
  | [] => [[]]
  | c :: cs =>
    if c = dotChar then [] :: splitDot cs
    else
      match splitDot cs with
      | [] => [[c]]
      | l :: ls => (c :: l) :: ls

/-- The length-prefixed form of a list of labels, without a terminator. -/
def labelBytes : List (List Nat) → List Nat
  | [] => []
  | l :: ls => l.length :: (l ++ labelBytes ls)

/-- The size of the length-prefixed form: the sum of `len_i + 1`. -/
def nameLen (labels : List (List Nat)) : Nat :=
  (labels.map (fun l => l.length + 1)).sum

/-- The encoded size of a query: header, labels, terminator, type and class. -/
def encodedSize (host : List Nat) : Nat := 12 + nameLen (splitDot host) + 1 + 4

/-- Every label has 1 to 63 bytes. -/
def LabelsOk (labels : List (List Nat)) : Prop :=
  ∀ l ∈ labels, 1 ≤ l.length ∧ l.length ≤ 63

instance (labels : List (List Nat)) : Decidable (LabelsOk labels) := by
  unfold LabelsOk; infer_instance

/-- Reads a sequence of length-prefixed labels of `msg` from `off` up to the
zero-length terminator. A length byte above 63 (a compression pointer or a
reserved form) and a label that leaves the message are refused. The fuel
bounds the number of labels. -/
def readLabels (msg : List Nat) : Nat → Nat → Option (List (List Nat))
  | 0, _ => none
  | fuel + 1, off =>
    match msg[off]? with
    | none => none
    | some len =>
      if len = 0 then some []
      else if len > 63 then none
      else if off + 1 + len > msg.length then none
      else (readLabels msg fuel (off + 1 + len)).map
        (fun ls => (msg.drop (off + 1)).take len :: ls)

/-- The question name of a message: the labels read from offset 12. -/
def decodeQName (msg : List Nat) : Option (List (List Nat)) :=
  readLabels msg msg.length 12

/-- The twelve header bytes of a query with identifier `id`. -/
def headerBytes (id : Nat) : List Nat :=
  [id >>> 8, id &&& 0xff, 0x01, 0x00, 0x00, 0x01, 0, 0, 0, 0, 0, 0]

/-- The bytes stored for the header: those of `headerLog`, in order. -/
def headerStored (id : Nat) : List Nat :=
  [(id >>> 8) % 256, (id &&& 0xff) % 256, 0x01, 0x00, 0x00, 0x01, 0, 0, 0, 0, 0, 0]

/-- The five bytes that follow the labels: terminator, QTYPE = A, QCLASS = IN. -/
def trailerBytes : List Nat := [0x00, 0x00, 0x01, 0x00, 0x01]

/-! ## The embedding of the name skipper and of the response parser -/

/-- The byte `msg[i]`. -/
def byteAt (msg : List Nat) (i : Nat) : Nat := msg.getD i 0

/-- The expression `(uint16_t)hi << 8 | lo` stored in a `uint16_t`. -/
def be16 (hi lo : Nat) : Nat := ((hi <<< 8) ||| lo) % 65536

/-- The loop of `dc_dns_skip_name` (lines 170-197) with `max_steps` steps left:
`some off` stands for `*off_io = off; return 0`, `none` for `return -1`. The
loop is left, and -1 returned, when `off < msg_len` fails or no step is left. -/
def skipNameLoop (msg : List Nat) (msg_len : Nat) : Nat → Nat → Option Nat
  | 0, _ => none
  | max_steps + 1, off =>
    if off < msg_len then
      let c := byteAt msg off
      if c = 0 then some (off + 1)
      else if c &&& 0xC0 = 0xC0 then
        if off + 1 ≥ msg_len then none else some (off + 2)
      else if c > 63 then none
      else if off + 1 + c > msg_len then none
      else skipNameLoop msg msg_len max_steps (off + 1 + c)
    else none

/-- The function `dc_dns_skip_name(msg, msg_len, off_io)`: the returned `int`
and the value of `*off_io` afterwards. -/
def dc_dns_skip_name (msg : List Nat) (msg_len off_io : Nat) : Int × Nat :=
  match skipNameLoop msg msg_len 64 off_io with
  | some off => (0, off)
  | none => (-1, off_io)

/-- The question loop of `dc_dns_query_A` (lines 291-297) with `n` iterations
left: the offset after the questions, or `none` for `return -1`. -/
def skipQuestions (pkt : List Nat) (r : Nat) : Nat → Nat → Option Nat
  | 0, off => some off
  | n + 1, off =>
    let s := dc_dns_skip_name pkt r off
    if s.1 < 0 then none
    else if s.2 + 4 > r then none
    else skipQuestions pkt r n (s.2 + 4)

/-- The answer loop of `dc_dns_query_A` (lines 299-324) with `n` iterations
left: the four bytes copied to the output address, or `none` for `return -1`. -/
def answersLoop (pkt : List Nat) (r : Nat) : Nat → Nat → Option (List Nat)
  | 0, _ => none
  | n + 1, off =>
    let s := dc_dns_skip_name pkt r off
    if s.1 < 0 then none
    else if s.2 + 10 > r then none
    else
      let type := be16 (byteAt pkt s.2) (byteAt pkt (s.2 + 1))
      let class_ := be16 (byteAt pkt (s.2 + 2)) (byteAt pkt (s.2 + 3))
      let off2 := s.2 + 8
      let rdlen := be16 (byteAt pkt off2) (byteAt pkt (off2 + 1))
      let off3 := off2 + 2
      if off3 + rdlen > r then none
      else if type = 1 ∧ class_ = 1 ∧ rdlen = 4 then
        some [byteAt pkt off3, byteAt pkt (off3 + 1), byteAt pkt (off3 + 2), byteAt pkt (off3 + 3)]
      else answersLoop pkt r n (off3 + rdlen)

/-- The response parser: the part of `dc_dns_query_A` after `recvfrom` (lines
274-324). `pkt` is the packet buffer, `r` the result of `recvfrom`, `id` the
identifier of the query, `out_addr` the four bytes of `*out_addr` before the
call. It returns the `int` returned and the bytes of `*out_addr` afterwards. -/
def dc_dns_query_A_parse (pkt : List Nat) (r : Int) (id : Nat) (out_addr : List Nat) :
    Int × List Nat :=
  if r < 12 then (-1, out_addr)
  else if ((byteAt pkt 0 <<< 8) ||| byteAt pkt 1) ≠ id then (-1, out_addr)
  else
    let flags := be16 (byteAt pkt 2) (byteAt pkt 3)
    if flags &&& 0x000F ≠ 0 then (-1, out_addr)
    else
      let qdcount := be16 (byteAt pkt 4) (byteAt pkt 5)
      let ancount := be16 (byteAt pkt 6) (byteAt pkt 7)
      match skipQuestions pkt r.toNat qdcount 12 with
      | none => (-1, out_addr)
      | some off =>
        match answersLoop pkt r.toNat ancount off with
        | none => (-1, out_addr)
        | some a => (0, a)

/-! ## Specification-side definitions for responses -/

/-- How an encoded name ends: with a zero-length label, or with a compression
pointer of two bytes. -/
inductive NameEnd
  | zero
  | pointer (b1 b2 : Nat)
  deriving DecidableEq, Repr

/-- An encoded name of a response: ordinary labels and the way it ends. -/
structure WireName where
  labels : List (List Nat)
  ending : NameEnd
  deriving DecidableEq, Repr

/-- The bytes of the end of a name. -/
def NameEnd.bytes : NameEnd → List Nat
  | NameEnd.zero => [0]
  | NameEnd.pointer b1 b2 => [b1, b2]

/-- The end of a name is well formed when it is a zero byte, or a pointer whose
first byte has its top two bits set. -/
def NameEnd.WellFormed : NameEnd → Prop
  | NameEnd.zero => True
  | NameEnd.pointer b1 _ => b1 &&& 0xC0 = 0xC0

instance : (e : NameEnd) → Decidable e.WellFormed
  | NameEnd.zero => inferInstanceAs (Decidable True)
  | NameEnd.pointer b1 _ => inferInstanceAs (Decidable (b1 &&& 0xC0 = 0xC0))

/-- The bytes of an encoded name. -/
def WireName.bytes (n : WireName) : List Nat := labelBytes n.labels ++ n.ending.bytes

/-- A name is well formed when its labels have 1 to 63 bytes and the first
byte of its pointer, if it ends with one, has its top two bits set. -/
def WireName.WellFormed (n : WireName) : Prop :=
  LabelsOk n.labels ∧ n.ending.WellFormed

instance (n : WireName) : Decidable n.WellFormed :=
  inferInstanceAs (Decidable (LabelsOk n.labels ∧ n.ending.WellFormed))

/-- The two bytes of a 16-bit field, most significant first. -/
def u16Bytes (v : Nat) : List Nat := [v / 256, v % 256]

/-- A question: a name, a type and a class. -/
structure Question where
  name : WireName
  qtype : Nat
  qclass : Nat
  deriving DecidableEq, Repr

/-- The bytes of a question. -/
def Question.bytes (q : Question) : List Nat :=
  q.name.bytes ++ (u16Bytes q.qtype ++ u16Bytes q.qclass)

/-- A question is well formed when its name is. -/
def Question.WellFormed (q : Question) : Prop := q.name.WellFormed

instance (q : Question) : Decidable q.WellFormed :=
  inferInstanceAs (Decidable q.name.WellFormed)

/-- An answer record: name, type, class, the four bytes of the TTL, the
declared resource-data length and the resource data present in the message. -/
structure Record where
  name : WireName
  type : Nat
  class_ : Nat
  ttl : List Nat
  rdlen : Nat
  rdata : List Nat
  deriving DecidableEq, Repr

/-- The bytes of an answer record. -/
def Record.bytes (a : Record) : List Nat :=
  a.name.bytes ++ (u16Bytes a.type ++ (u16Bytes a.class_ ++ (a.ttl ++
    (u16Bytes a.rdlen ++ a.rdata))))

/-- A record is well formed when its name is, its fields are 16-bit values,
its TTL has four bytes and its declared length is that of its data. -/
def Record.WellFormed (a : Record) : Prop :=
  a.name.WellFormed ∧ a.type < 65536 ∧ a.class_ < 65536 ∧ a.ttl.length = 4 ∧
    a.rdlen < 65536 ∧ a.rdata.length = a.rdlen

instance (a : Record) : Decidable a.WellFormed :=
  inferInstanceAs (Decidable (a.name.WellFormed ∧ a.type < 65536 ∧ a.class_ < 65536 ∧
    a.ttl.length = 4 ∧ a.rdlen < 65536 ∧ a.rdata.length = a.rdlen))

/-- A record the parser accepts as a result: type A, class IN, four bytes. -/
def Record.IsA (a : Record) : Prop := a.type = 1 ∧ a.class_ = 1 ∧ a.rdlen = 4

instance (a : Record) : Decidable a.IsA :=
  inferInstanceAs (Decidable (a.type = 1 ∧ a.class_ = 1 ∧ a.rdlen = 4))

/-- The bytes of a list of questions. -/
def questionsBytes : List Question → List Nat
  | [] => []
  | q :: qs => q.bytes ++ questionsBytes qs

/-- The bytes of a list of records. -/
def recordsBytes : List Record → List Nat
  | [] => []
  | a :: as => a.bytes ++ recordsBytes as

/-- A response: the header fields, the questions, the answer records, and the
bytes that follow them (authority and additional sections). -/
structure Response where
  id : Nat
  flags : Nat
  nscount : Nat
  arcount : Nat
  questions : List Question
  answers : List Record
  rest : List Nat
  deriving DecidableEq, Repr

/-- The twelve bytes of the header of a response; the counts of questions and
answers are those of its sections. -/
def Response.header (m : Response) : List Nat :=
  [m.id / 256, m.id % 256, m.flags / 256, m.flags % 256,
   m.questions.length / 256, m.questions.length % 256,
   m.answers.length / 256, m.answers.length % 256,
   m.nscount / 256, m.nscount % 256, m.arcount / 256, m.arcount % 256]

/-- The bytes of a response. -/
def Response.bytes (m : Response) : List Nat :=
  m.header ++ (questionsBytes m.questions ++ (recordsBytes m.answers ++ m.rest))

/-- A response is well formed when its header fields are 16-bit values, its
error code (the low four bits of the flags) is zero, and its questions and
answer records are well formed. -/
def Response.WellFormed (m : Response) : Prop :=
  m.id < 65536 ∧ m.flags < 65536 ∧ m.flags % 16 = 0 ∧
    m.questions.length < 65536 ∧ m.answers.length < 65536 ∧
    (∀ q ∈ m.questions, q.WellFormed) ∧ (∀ a ∈ m.answers, a.WellFormed)

instance (m : Response) : Decidable m.WellFormed :=
  inferInstanceAs (Decidable (m.id < 65536 ∧ m.flags < 65536 ∧ m.flags % 16 = 0 ∧
    m.questions.length < 65536 ∧ m.answers.length < 65536 ∧
    (∀ q ∈ m.questions, q.WellFormed) ∧ (∀ a ∈ m.answers, a.WellFormed)))

/-- A sample answer record: a pointer as name, type A, class IN, a TTL of 60
and the address 93.184.216.34. -/
def sampleA : Record :=
  { name := { labels := [], ending := NameEnd.pointer 0xC0 12 }
    type := 1
    class_ := 1
    ttl := [0, 0, 0, 60]
    rdlen := 4
    rdata := [93, 184, 216, 34] }

/-- A sample answer record of type CNAME whose data is a pointer. -/
def sampleCname : Record :=
  { name := { labels := [], ending := NameEnd.pointer 0xC0 12 }
    type := 5
    class_ := 1
    ttl := [0, 0, 0, 60]
    rdlen := 2
    rdata := [0xC0, 12] }

/-- A sample question for the name `a.bc`. -/
def sampleQuestion : Question :=
  { name := { labels := [[97], [98, 99]], ending := NameEnd.zero }
    qtype := 1
    qclass := 1 }

/-- A sample response: one question, a CNAME record and then an A record. -/
def sampleResponse : Response :=
  { id := 0x1234
    flags := 0x8180
    nscount := 0
    arcount := 0
    questions := [sampleQuestion]
    answers := [sampleCname, sampleA]
    rest := [] }

/-- The sample response with the error code 3 in its flags: it still carries
its A record. -/
def rcodeResponse : Response := { sampleResponse with flags := 0x8183 }

/-- A record cut by the end of the received bytes: it declares four bytes of
data and two are present. -/
def cutRecord : Record := { sampleA with rdata := [93, 184] }

/-- A response received in part: a complete A record, then a record whose
declared data length goes past the end of the received bytes. -/
def cutResponse : Response := { sampleResponse with answers := [sampleA, cutRecord] }

/-- A response received in part: a complete CNAME record, then a record whose
declared data length goes past the end of the received bytes. -/
def cutCnameResponse : Response :=
  { sampleResponse with answers := [sampleCname, cutRecord] }

/-- A record whose declared resource-data length goes past its data present
in the message: what a received message ends with when that length would
extend past the end of the received bytes. -/
def Record.Truncated (t : Record) : Prop :=
  t.name.WellFormed ∧ t.type < 65536 ∧ t.class_ < 65536 ∧ t.ttl.length = 4 ∧
    t.rdlen < 65536 ∧ t.rdata.length < t.rdlen

instance (t : Record) : Decidable t.Truncated :=
  inferInstanceAs (Decidable (t.name.WellFormed ∧ t.type < 65536 ∧ t.class_ < 65536 ∧
    t.ttl.length = 4 ∧ t.rdlen < 65536 ∧ t.rdata.length < t.rdlen))

/-- A response whose question name has 64 labels of one byte, followed by one
A record. -/
def longNameResponse : Response :=
  { id := 0x1234
    flags := 0x8180
    nscount := 0
    arcount := 0
    questions := [{ name := { labels := List.replicate 64 [97], ending := NameEnd.zero }
                    qtype := 1
                    qclass := 1 }]
    answers := [sampleA]
    rest := [] }

/-- The view of the answer record that starts at an offset of a buffer: its
type, class and declared length, and the offset of its data. -/
structure RecView where
  type : Nat
  class_ : Nat
  rdlen : Nat
  dataOff : Nat
  deriving DecidableEq, Repr

/-- The record that starts at `off`: its name is passed with
`dc_dns_skip_name`, its ten fixed bytes must lie below `r`. -/
def recordAt (pkt : List Nat) (r off : Nat) : Option RecView :=
  let s := dc_dns_skip_name pkt r off
  if s.1 < 0 ∨ s.2 + 10 > r then none
  else some {
    type := be16 (byteAt pkt s.2) (byteAt pkt (s.2 + 1))
    class_ := be16 (byteAt pkt (s.2 + 2)) (byteAt pkt (s.2 + 3))
    rdlen := be16 (byteAt pkt (s.2 + 8)) (byteAt pkt (s.2 + 9))
    dataOff := s.2 + 10 }

/-- The first `n` answer records in message order from `off` on: each record
starts where the data of the one before ends, at its data offset plus its
declared length. The list ends before a record that cannot be read or whose
data leaves the received bytes. -/
def recordsFrom (pkt : List Nat) (r : Nat) : Nat → Nat → List RecView
  | 0, _ => []
  | n + 1, off =>
    match recordAt pkt r off with
    | none => []
    | some v =>
      if v.dataOff + v.rdlen > r then []
      else v :: recordsFrom pkt r n (v.dataOff + v.rdlen)

/-- Type A, class IN and a declared length of four. -/
def RecView.isA (v : RecView) : Bool :=
  decide (v.type = 1 ∧ v.class_ = 1 ∧ v.rdlen = 4)

/-- The four bytes of the data of a record. -/
def RecView.addr (pkt : List Nat) (v : RecView) : List Nat :=
  [byteAt pkt v.dataOff, byteAt pkt (v.dataOff + 1), byteAt pkt (v.dataOff + 2),
    byteAt pkt (v.dataOff + 3)]

/-- The offsets at which the loop of `dc_dns_skip_name` executes
`c = msg[off]` (line 171), in order: the loop of `skipNameLoop` with the
offset of each length byte it examines recorded. -/
def skipNameReads (msg : List Nat) (msg_len : Nat) : Nat → Nat → List Nat
  | 0, _ => []
  | max_steps + 1, off =>
    if off < msg_len then
      let c := byteAt msg off
      off :: (if c = 0 then []
        else if c &&& 0xC0 = 0xC0 then []
        else if c > 63 then []
        else if off + 1 + c > msg_len then []
        else skipNameReads msg msg_len max_steps (off + 1 + c))
    else []

/-- A name of 64 labels of one byte and its terminator, 129 bytes. -/
def name64 : List Nat := labelBytes (List.replicate 64 [97]) ++ [0]

/-! ## The embedding of the resolver transport

The socket interface is not code of the repository: the calls the function
makes are recorded, in program order, in a trace, and what each call returns
is taken from an environment that is a parameter of the model. -/

/-- A call of the socket interface made by `dc_dns_query_A`. -/
inductive SockOp
  /-- The call `socket(AF_INET, SOCK_DGRAM, 0)`. -/
  | socket
  /-- The call `sendto(fd, pkt, pkt_len, 0, &sa, sizeof(sa))`, with the bytes
  sent, the four bytes of `sa.sin_addr` and the port of `sa.sin_port`. -/
  | sendto (fd : Int) (data : List Nat) (addr : List Nat) (port : Nat)
  /-- The call `select(fd + 1, &rfds, NULL, NULL, &tv)` with `tv.tv_sec`. -/
  | select (fd : Int) (seconds : Nat)
  /-- The call `recvfrom(fd, pkt, len, 0, &from, &fromlen)`. -/
  | recvfrom (fd : Int) (len : Nat)
  /-- The call `close(fd)`. -/
  | close (fd : Int)
  deriving DecidableEq, Repr

/-- What the environment answers during one call of `dc_dns_query_A`: the
content of the local array `pkt` when the function is entered, the values
returned by `socket`, `sendto` and `select`, and the datagram that `recvfrom`
delivers (`none` when `recvfrom` returns -1). -/
structure NetEnv where
  stack : List Nat
  socketRet : Int
  sendtoRet : Int
  selectRet : Int
  datagram : Option (List Nat)

/-- DC_DNS_PORT. -/
def DC_DNS_PORT : Nat := 53

/-- The value `r` returned by `recvfrom(sock, pkt, sizeof(pkt), ...)`: -1 on
error, else the number of bytes stored, at most `sizeof(pkt)`. -/
def recvfromRet (env : NetEnv) : Int :=
  match env.datagram with
  | none => -1
  | some d => ((d.take DC_DNS_MAX_PACKET).length : Nat)

/-- The array `pkt` after `recvfrom`: the bytes received are stored from index
0 on, the bytes behind them keep their value. -/
def recvfromStore (env : NetEnv) (pkt : List Nat) : List Nat :=
  match env.datagram with
  | none => pkt
  | some d => applyWrites pkt (memcpyLog 0 (d.take DC_DNS_MAX_PACKET))

/-- What one call of `dc_dns_query_A` leaves: the `int` returned, the bytes of
`*out_addr`, the value of the static counter `dc_dns_next_id`, and the calls
made to the socket interface. -/
structure QueryResult where
  ret : Int
  out_addr : List Nat
  next_id : Nat
  trace : List SockOp
  deriving DecidableEq, Repr

/-- The function `dc_dns_query_A(host, out_addr)`. `dev` is `net_default_dev`:
`none` for the null pointer, else the four bytes of its field `dns`; `next_id`
is the value of `dc_dns_next_id` at entry and `out_addr` the bytes of
`*out_addr` at entry. The result is `none` only if the model of the encoder
runs out of fuel. -/
def dc_dns_query_A (dev : Option (List Nat)) (env : NetEnv) (next_id : Nat)
    (host : List Nat) (out_addr : List Nat) : Option QueryResult :=
  match dev with
  | none => some ⟨-1, out_addr, next_id, []⟩
  | some dns =>
    if byteAt dns 0 = 0 ∧ byteAt dns 1 = 0 ∧ byteAt dns 2 = 0 ∧ byteAt dns 3 = 0 then
      some ⟨-1, out_addr, next_id, []⟩
    else
      let id := (next_id + 1) % 65536
      match dc_dns_build_query DC_DNS_MAX_PACKET id host with
      | none => none
      | some (pkt_len, log) =>
        let pkt := applyWrites env.stack log
        if pkt_len < 0 then some ⟨-1, out_addr, id, []⟩
        else
          let sock := env.socketRet
          if sock < 0 then some ⟨-1, out_addr, id, [SockOp.socket]⟩
          else
            let sent := SockOp.sendto sock (pkt.take pkt_len.toNat)
              [byteAt dns 0, byteAt dns 1, byteAt dns 2, byteAt dns 3] DC_DNS_PORT
            if env.sendtoRet < 0 then
              some ⟨-1, out_addr, id, [SockOp.socket, sent, SockOp.close sock]⟩
            else if env.selectRet ≤ 0 then
              some ⟨-1, out_addr, id,
                [SockOp.socket, sent, SockOp.select sock 2, SockOp.close sock]⟩
            else
              let r := recvfromRet env
              let pkt2 := recvfromStore env pkt
              let p := dc_dns_query_A_parse pkt2 r id out_addr
              some ⟨p.1, p.2, id,
                [SockOp.socket, sent, SockOp.select sock 2,
                  SockOp.recvfrom sock DC_DNS_MAX_PACKET, SockOp.close sock]⟩

/-! ## The embedding of the resolver interface -/

/-- EAI_NONAME, as defined in the source. -/
def EAI_NONAME : Int := 8

/-- EAI_FAIL, as defined in the source. -/
def EAI_FAIL : Int := 4

/-- EAI_FAMILY, as defined in the source. -/
def EAI_FAMILY : Int := 1

/-- EAI_SERVICE, as defined in the source. -/
def EAI_SERVICE : Int := 9

/-- AF_UNSPEC, as defined in the source. -/
def AF_UNSPEC : Int := 0

/-- Modelled from the spec: the address family IPv4, the constant `AF_INET` of
the system header `<sys/socket.h>`, which is not among the sources; its value
there is 2. -/
def AF_INET : Int := 2

/-- Modelled from the spec: `sizeof(struct sockaddr_in)`, a type of the system
headers, 16 bytes. -/
def SIZEOF_SOCKADDR_IN : Nat := 16

/-- Modelled from the spec: `LONG_MAX` of the C library, for the 32-bit `long`
of the target. -/
def LONG_MAX : Int := 2147483647

/-- The function `is_digit_str(s)`; `none` is the null pointer. -/
def is_digit_str (s : Option (List Nat)) : Bool :=
  match s with
  | none => false
  | some [] => false
  | some cs => cs.all (fun c => !(decide (c < 48) || decide (c > 57)))

/-- Modelled from the spec: the C library call `strtol(s, NULL, 10)` on a
string of decimal digits, which is how the source calls it: the value of the
digits, or `LONG_MAX` when that value is above `LONG_MAX`. -/
def strtol10 (s : List Nat) : Int :=
  let v : Int := s.foldl (fun (acc : Int) (c : Nat) => acc * 10 + ((c : Int) - 48)) 0
  if v > LONG_MAX then LONG_MAX else v

/-- Modelled from the spec: the C library `tolower` on a byte, in the C locale. -/
def toLowerC (c : Nat) : Nat := if 65 ≤ c ∧ c ≤ 90 then c + 32 else c

/-- Modelled from the spec: the test `strcasecmp(a, b) == 0` of the C library. -/
def strcasecmpEq (a b : List Nat) : Bool := a.map toLowerC == b.map toLowerC

/-- The string `"http"`. -/
def strHttp : List Nat := [104, 116, 116, 112]

/-- The string `"https"`. -/
def strHttps : List Nat := [104, 116, 116, 112, 115]

/-- The function `service_to_port(service)`; `none` is the null pointer. -/
def service_to_port (service : Option (List Nat)) : Nat :=
  match service with
  | none => 0
  | some s =>
    if s = [] then 0
    else if is_digit_str (some s) = true then
      let v := strtol10 s
      if v < 0 ∨ v > 65535 then 0 else v.toNat % 65536
    else if strcasecmpEq s strHttp = true then 80
    else if strcasecmpEq s strHttps = true then 443
    else 0

/-- The fields of `struct addrinfo` that the code reads from `hints`. -/
structure Hints where
  ai_family : Int
  ai_socktype : Int
  ai_protocol : Int
  deriving DecidableEq, Repr

/-- A `struct sockaddr_in`: the family, the two bytes of `sin_port` and the
four bytes of `sin_addr` as they lie in memory (network byte order). -/
structure SockAddrIn where
  sin_family : Int
  sin_port : List Nat
  sin_addr : List Nat
  deriving DecidableEq, Repr

/-- A `struct addrinfo` of a result list; `ai_next` is the tail of the list. -/
structure AddrInfo where
  ai_flags : Int
  ai_family : Int
  ai_socktype : Int
  ai_protocol : Int
  ai_addrlen : Nat
  ai_addr : SockAddrIn
  ai_canonname : Option (List Nat)
  deriving DecidableEq, Repr

/-- The two bytes of `htons(port)` in memory. -/
def htonsBytes (port : Nat) : List Nat := [port / 256 % 256, port % 256]

/-- What the environment provides to one call of `dc_getaddrinfo_impl`:
`net_default_dev`, the answers of the socket interface, the C library call
`inet_aton` (`none` when it returns 0, else the four bytes it stores), the
content of the local variable `addr` at entry, and whether the two calls of
`calloc` succeed. -/
structure GaiEnv where
  dev : Option (List Nat)
  net : NetEnv
  inet_aton : List Nat → Option (List Nat)
  addr0 : List Nat
  calloc_ai : Bool
  calloc_sin : Bool

/-- What one call of `dc_getaddrinfo_impl` leaves: the `int` returned, the list
stored in `*res` (`none` when nothing is stored, `some []` for the null
pointer), the value of `dc_dns_next_id` and the calls made to the socket
interface. -/
structure GaiResult where
  ret : Int
  res : Option (List AddrInfo)
  next_id : Nat
  trace : List SockOp
  deriving DecidableEq, Repr

/-- The lines 355-364 of `dc_getaddrinfo_impl`: the address of `node`, as the
result of a query when the transport is used, and as a successful result
without any call when it is not. -/
def resolveNode (E : GaiEnv) (next_id : Nat) (node : Option (List Nat)) : Option QueryResult :=
  match node with
  | none => some ⟨0, [0, 0, 0, 0], next_id, []⟩
  | some n =>
    match E.inet_aton n with
    | some a => some ⟨0, a, next_id, []⟩
    | none => dc_dns_query_A E.dev E.net next_id n E.addr0

/-- The function `dc_getaddrinfo_impl(node, service, hints, res)`; `none` is
the null pointer for `node`, `service` and `hints`, and `res_given` tells
whether `res` is not null. -/
def dc_getaddrinfo_impl (E : GaiEnv) (next_id : Nat) (node service : Option (List Nat))
    (hints : Option Hints) (res_given : Bool) : Option GaiResult :=
  if res_given = false then some ⟨EAI_FAIL, none, next_id, []⟩
  else
    let family :=
      match hints with
      | some h => if h.ai_family ≠ AF_UNSPEC then h.ai_family else AF_INET
      | none => AF_INET
    if family ≠ AF_INET then some ⟨EAI_FAMILY, some [], next_id, []⟩
    else
      let port := service_to_port service
      if service.isSome = true ∧ port = 0 then some ⟨EAI_SERVICE, some [], next_id, []⟩
      else
        match resolveNode E next_id node with
        | none => none
        | some q =>
          if q.ret < 0 then some ⟨EAI_NONAME, some [], q.next_id, q.trace⟩
          else if E.calloc_ai = false ∨ E.calloc_sin = false then
            some ⟨EAI_FAIL, some [], q.next_id, q.trace⟩
          else
            let sin : SockAddrIn := ⟨AF_INET, htonsBytes port, q.out_addr⟩
            let ai : AddrInfo :=
              ⟨0, AF_INET,
                (match hints with
                  | some h => h.ai_socktype
                  | none => 0),
                (match hints with
                  | some h => h.ai_protocol
                  | none => 0),
                SIZEOF_SOCKADDR_IN, sin, none⟩
            some ⟨0, some [ai], q.next_id, q.trace⟩

/-- The hints accept IPv4: they are absent, or their family is `AF_UNSPEC` or
`AF_INET`. -/
def FamilyOk (hints : Option Hints) : Prop :=
  hints = none ∨ ∃ h, hints = some h ∧ (h.ai_family = AF_UNSPEC ∨ h.ai_family = AF_INET)

/-- A purely numeric string: one or more decimal digits. -/
def IsNumeric (s : List Nat) : Prop := s ≠ [] ∧ ∀ c ∈ s, 48 ≤ c ∧ c ≤ 57

instance (s : List Nat) : Decidable (IsNumeric s) :=
  inferInstanceAs (Decidable (s ≠ [] ∧ ∀ c ∈ s, 48 ≤ c ∧ c ≤ 57))

/-- The string `"bogus"`. -/
def strBogus : List Nat := [98, 111, 103, 117, 115]

/-- The value of a string of decimal digits. -/
def decimalValue (s : List Nat) : Nat := s.foldl (fun acc c => acc * 10 + (c - 48)) 0

/-- The string `"1.2.3.4"`. -/
def strNumericHost : List Nat := [49, 46, 50, 46, 51, 46, 52]

/-- A sample environment of the socket interface: every call succeeds and the
datagram received is `sampleResponse`. -/
def sampleNet : NetEnv :=
  { stack := List.replicate 512 0
    socketRet := 3
    sendtoRet := 22
    selectRet := 1
    datagram := some sampleResponse.bytes }

/-- A sample environment of the resolver interface: no network device,
`inet_aton` accepts `"1.2.3.4"` alone, both allocations succeed. -/
def sampleGaiEnv : GaiEnv :=
  { dev := none
    net := sampleNet
    inet_aton := fun s => if s = strNumericHost then some [1, 2, 3, 4] else none
    addr0 := [0, 0, 0, 0]
    calloc_ai := true
    calloc_sin := true }

/-- HOST_NOT_FOUND, as defined in the source. -/
def HOST_NOT_FOUND : Int := 1

/-- The `struct hostent` returned by `dc_gethostbyname_impl`, with the strings
and lists its pointers designate: `h_aliases` and `h_addr_list` are the lists
before their null terminators, an address being the bytes of a
`struct in_addr`. -/
structure HostEnt where
  h_name : List Nat
  h_aliases : List (List Nat)
  h_addrtype : Int
  h_length : Nat
  h_addr_list : List (List Nat)
  deriving DecidableEq, Repr

/-- What one call of `dc_gethostbyname_impl` leaves: the record returned
(`none` for the null pointer), the value of `h_errno`, the bytes of the static
`dc_he_addr`, the value of `dc_dns_next_id` and the calls made to the socket
interface. -/
structure GhbnResult where
  ret : Option HostEnt
  h_errno : Int
  dc_he_addr : List Nat
  next_id : Nat
  trace : List SockOp
  deriving DecidableEq, Repr

/-- The record that the lines 439-447 of `dc_gethostbyname_impl` build, for
the name of the caller and the content of `dc_he_addr`;
`sizeof(dc_he_addr)` is 4. -/
def hostEntOf (name addr : List Nat) : HostEnt :=
  { h_name := name
    h_aliases := []
    h_addrtype := AF_INET
    h_length := 4
    h_addr_list := [addr] }

/-- The function `dc_gethostbyname_impl(name)`; `none` is the null pointer,
`dc_he_addr` the bytes of the static of that name at entry. The result is
`none` only if the model of the encoder runs out of fuel. -/
def dc_gethostbyname_impl (E : GaiEnv) (next_id : Nat) (dc_he_addr : List Nat)
    (name : Option (List Nat)) : Option GhbnResult :=
  match name with
  | none => some ⟨none, HOST_NOT_FOUND, dc_he_addr, next_id, []⟩
  | some n =>
    if n = [] then some ⟨none, HOST_NOT_FOUND, dc_he_addr, next_id, []⟩
    else
      match E.inet_aton n with
      | some a => some ⟨some (hostEntOf n a), 0, a, next_id, []⟩
      | none =>
        match dc_dns_query_A E.dev E.net next_id n dc_he_addr with
        | none => none
        | some q =>
          if q.ret < 0 then some ⟨none, HOST_NOT_FOUND, q.out_addr, q.next_id, q.trace⟩
          else some ⟨some (hostEntOf n q.out_addr), 0, q.out_addr, q.next_id, q.trace⟩

/-- The string `"a.bc"`. -/
def strHostAbc : List Nat := [97, 46, 98, 99]

/-- A host name of 64 labels `a` separated by dots, 127 bytes. -/
def host64 : List Nat := (List.replicate 63 [97, 46]).flatten ++ [97]

/-- A sample environment of the resolver interface with the DNS server
8.8.8.8 and the answers of `sampleNet`. -/
def sampleGaiEnvNet : GaiEnv := { sampleGaiEnv with dev := some [8, 8, 8, 8] }

/-- The DNS server is configured: a device is present and its server address
is not 0.0.0.0. -/
def DevConfigured (dev : Option (List Nat)) : Prop :=
  ∃ dns, dev = some dns ∧
    ¬ (byteAt dns 0 = 0 ∧ byteAt dns 1 = 0 ∧ byteAt dns 2 = 0 ∧ byteAt dns 3 = 0)

/-- A transport or protocol failure of one resolution attempt for which the
server is configured and the query was built with the array `pkt` as `pkt`:
`socket` fails, `sendto` fails, `select` reports a timeout or an error,
`recvfrom` fails, the reply has fewer than 12 bytes, or the parser refuses the
reply (identifier mismatch, nonzero error code, malformed name or record, no A
record). -/
def TransportFails (env : NetEnv) (id : Nat) (pkt addr0 : List Nat) : Prop :=
  env.socketRet < 0 ∨ env.sendtoRet < 0 ∨ env.selectRet ≤ 0 ∨ env.datagram = none ∨
    (∃ d, env.datagram = some d ∧ d.length < 12) ∨
    (dc_dns_query_A_parse (recvfromStore env pkt) (recvfromRet env) id addr0).1 < 0

/-- The non-empty labels of a host name. -/
def realLabels (host : List Nat) : List (List Nat) :=
  (splitDot host).filter (fun l => !l.isEmpty)

/-- The sample response with the flags of a truncated query: the QR bit is
clear, the TC bit is set, every other flag bit and the error code are zero. -/
def truncatedQueryResponse : Response := { sampleResponse with flags := 0x0200 }

/-! ## Lemmas on the encoder -/

theorem memcpyLog_append (off : Nat) (a b : List Nat) :
    memcpyLog off (a ++ b) = memcpyLog off a ++ memcpyLog (off + a.length) b := by
  induction a generalizing off with
  | nil => simp [memcpyLog]
  | cons x xs ih =>
    have h : off + 1 + xs.length = off + (xs.length + 1) := by omega
    show (off, x) :: memcpyLog (off + 1) (xs ++ b) = _
    rw [ih, h]
    rfl

theorem memcpyLog_index_lt (off : Nat) (bs : List Nat) :
    ∀ w ∈ memcpyLog off bs, w.1 < off + bs.length := by
  induction bs generalizing off with
  | nil => simp [memcpyLog]
  | cons x xs ih =>
    intro w hw
    simp only [memcpyLog, List.mem_cons] at hw
    rcases hw with rfl | hw
    · simp
    · have := ih (off + 1) w hw
      simp only [List.length_cons]
      omega

theorem memcpyLog_index_ge (off : Nat) (bs : List Nat) :
    ∀ w ∈ memcpyLog off bs, off ≤ w.1 := by
  induction bs generalizing off with
  | nil => simp [memcpyLog]
  | cons x xs ih =>
    intro w hw
    simp only [memcpyLog, List.mem_cons] at hw
    rcases hw with rfl | hw
    · simp
    · have := ih (off + 1) w hw
      omega

theorem memcpyLog_map_fst (off : Nat) (bs : List Nat) :
    (memcpyLog off bs).map Prod.fst = List.range' off bs.length := by
  induction bs generalizing off with
  | nil => rfl
  | cons x xs ih => simp [memcpyLog, ih, List.range'_succ]

theorem memcpyLog_map_snd (off : Nat) (bs : List Nat) :
    (memcpyLog off bs).map Prod.snd = bs := by
  induction bs generalizing off with
  | nil => rfl
  | cons x xs ih => simp [memcpyLog, ih]

theorem applyWrites_append (buf : List Nat) (a b : WriteLog) :
    applyWrites buf (a ++ b) = applyWrites (applyWrites buf a) b := by
  simp [applyWrites, List.foldl_append]

theorem applyWrites_length (buf : List Nat) (log : WriteLog) :
    (applyWrites buf log).length = buf.length := by
  induction log generalizing buf with
  | nil => rfl
  | cons w ws ih => simp [applyWrites, List.foldl_cons] at ih ⊢; rw [ih]; simp

/-- Replaying a `memcpy` that stays inside the buffer. -/
theorem applyWrites_memcpyLog (pre bs post : List Nat) (old : List Nat)
    (hold : old.length = bs.length) :
    applyWrites (pre ++ old ++ post) (memcpyLog pre.length bs) = pre ++ bs ++ post := by
  induction bs generalizing pre old with
  | nil =>
    have : old = [] := List.length_eq_zero.mp (by simpa using hold)
    simp [memcpyLog, applyWrites, this]
  | cons b bs ih =>
    cases old with
    | nil => simp at hold
    | cons o os =>
      have h1 : (pre ++ o :: os ++ post).set pre.length b = (pre ++ [b]) ++ os ++ post := by
        simp [List.set_append]
      have h2 := ih (pre ++ [b]) os (by simpa using hold)
      simp only [List.length_append, List.length_singleton] at h2
      simp only [memcpyLog, applyWrites, List.foldl_cons]
      simp only [applyWrites] at h2
      rw [h1, h2]
      simp

theorem splitDot_ne_nil (p : List Nat) : splitDot p ≠ [] := by
  cases p with
  | nil => simp [splitDot]
  | cons c cs =>
    rw [splitDot]
    split
    · simp
    · split <;> simp

/-- The way `splitDot` follows the loop: the first label is the one the loop
copies, the others are those of the string after the first dot. -/
theorem splitDot_unfold (p : List Nat) :
    splitDot p = labelOf p ::
      (match strchrDot p with
       | [] => []
       | _ :: p1 => splitDot p1) := by
  induction p with
  | nil => rfl
  | cons c cs ih =>
    by_cases hc : c = dotChar
    · simp [splitDot, labelOf, strchrDot, hc]
    · have h1 : labelOf (c :: cs) = c :: labelOf cs := by simp [labelOf, hc]
      have h2 : strchrDot (c :: cs) = strchrDot cs := by simp [strchrDot, hc]
      rw [splitDot, if_neg hc, h1, h2, ih]

theorem strchrDot_tail_length (p p1 : List Nat) (d : Nat) (h : strchrDot p = d :: p1) :
    p1.length < p.length := by
  have h1 : (strchrDot p).length ≤ p.length := by
    unfold strchrDot
    exact (List.dropWhile_sublist _).length_le
  rw [h] at h1
  simp only [List.length_cons] at h1
  omega

theorem labelsOk_cons (l : List Nat) (ls : List (List Nat)) :
    LabelsOk (l :: ls) ↔ (1 ≤ l.length ∧ l.length ≤ 63) ∧ LabelsOk ls := by
  simp [LabelsOk]

theorem nameLen_cons (l : List Nat) (ls : List (List Nat)) :
    nameLen (l :: ls) = l.length + 1 + nameLen ls := by
  simp [nameLen]

theorem memcpyLog_label (off : Nat) (l rest : List Nat) :
    (off, l.length) :: memcpyLog (off + 1) l ++ memcpyLog (off + 1 + l.length) rest =
      memcpyLog off (l.length :: (l ++ rest)) := by
  show _ = (off, l.length) :: memcpyLog (off + 1) (l ++ rest)
  rw [memcpyLog_append]
  rfl

/-- The loop on a name whose labels all have 1 to 63 bytes and which fits:
it is left normally, having stored the length-prefixed labels from `off` on. -/
theorem qnameLoop_ok (out_len : Nat) : ∀ (fuel : Nat) (p : List Nat) (off : Nat),
    p.length < fuel → LabelsOk (splitDot p) → off + nameLen (splitDot p) + 5 ≤ out_len →
    qnameLoop out_len fuel p off =
      (LoopExit.finished (off + nameLen (splitDot p)),
        memcpyLog off (labelBytes (splitDot p))) := by
  intro fuel
  induction fuel with
  | zero => intro p off h; omega
  | succ fuel ih =>
    intro p off hfuel hok hfit
    have hp : p ≠ [] := by
      rintro rfl
      have := hok [] (by simp [splitDot])
      simp at this
    rw [splitDot_unfold] at hok hfit ⊢
    rw [labelsOk_cons] at hok
    rw [nameLen_cons] at hfit ⊢
    obtain ⟨⟨hl1, hl2⟩, hrest⟩ := hok
    rw [qnameLoop, if_neg hp]
    simp only []
    rw [if_neg (by omega), if_neg (by omega)]
    have hmod : (labelOf p).length % 256 = (labelOf p).length := Nat.mod_eq_of_lt (by omega)
    rw [hmod]
    cases hdot : strchrDot p with
    | nil =>
      simp only []
      have h0 : nameLen ([] : List (List Nat)) = 0 := rfl
      rw [h0]
      simp only [labelBytes, List.append_nil, Nat.add_zero]
      have e : off + 1 + (labelOf p).length = off + ((labelOf p).length + 1) := by omega
      rw [e]
      rfl
    | cons d p1 =>
      simp only [hdot] at hrest hfit ⊢
      have hlen := strchrDot_tail_length p p1 d hdot
      rw [ih p1 (off + 1 + (labelOf p).length) (by omega) hrest (by omega)]
      simp only [labelBytes]
      rw [← memcpyLog_label]
      simp only [List.cons_append]
      congr 2
      omega

/-- The loop on a name whose labels all have 1 to 63 bytes and which does not
fit: a `return -1`. -/
theorem qnameLoop_too_big (out_len : Nat) : ∀ (fuel : Nat) (p : List Nat) (off : Nat),
    p.length < fuel → LabelsOk (splitDot p) → out_len < off + nameLen (splitDot p) + 5 →
    (qnameLoop out_len fuel p off).1 = LoopExit.failed := by
  intro fuel
  induction fuel with
  | zero => intro p off h; omega
  | succ fuel ih =>
    intro p off hfuel hok hbig
    have hp : p ≠ [] := by
      rintro rfl
      have := hok [] (by simp [splitDot])
      simp at this
    rw [splitDot_unfold] at hok hbig
    rw [labelsOk_cons] at hok
    rw [nameLen_cons] at hbig
    obtain ⟨⟨hl1, hl2⟩, hrest⟩ := hok
    rw [qnameLoop, if_neg hp]
    simp only []
    rw [if_neg (by omega)]
    by_cases hfit : off + 1 + (labelOf p).length + 1 + 4 > out_len
    · rw [if_pos hfit]
    · rw [if_neg hfit]
      cases hdot : strchrDot p with
      | nil =>
        simp only [hdot] at hbig
        have h0 : nameLen ([] : List (List Nat)) = 0 := rfl
        omega
      | cons d p1 =>
        simp only [hdot] at hrest hbig ⊢
        have hlen := strchrDot_tail_length p p1 d hdot
        exact ih p1 (off + 1 + (labelOf p).length) (by omega) hrest (by omega)

/-- The loop on any string: it never runs out of fuel, its stores are
consecutive from `off` on, and unless it stored nothing it leaves room for the
five bytes that follow the name. -/
theorem qnameLoop_general (out_len : Nat) : ∀ (fuel : Nat) (p : List Nat) (off : Nat),
    p.length < fuel →
    ∃ bytes : List Nat,
      (qnameLoop out_len fuel p off).2 = memcpyLog off bytes ∧
      (bytes = [] ∨ off + bytes.length + 5 ≤ out_len) ∧
      ((qnameLoop out_len fuel p off).1 = LoopExit.failed ∨
        ((qnameLoop out_len fuel p off).1 = LoopExit.finished (off + bytes.length) ∧
          (p ≠ [] → bytes ≠ []))) := by
  intro fuel
  induction fuel with
  | zero => intro p off h; omega
  | succ fuel ih =>
    intro p off hfuel
    by_cases hp : p = []
    · exact ⟨[], by simp [qnameLoop, hp, memcpyLog], Or.inl rfl,
        Or.inr ⟨by simp [qnameLoop, hp], fun h => absurd hp h⟩⟩
    rw [qnameLoop, if_neg hp]
    simp only []
    by_cases hbad : (labelOf p).length = 0 ∨ (labelOf p).length > 63
    · rw [if_pos hbad]
      exact ⟨[], rfl, Or.inl rfl, Or.inl rfl⟩
    rw [if_neg hbad]
    by_cases hfit : off + 1 + (labelOf p).length + 1 + 4 > out_len
    · rw [if_pos hfit]
      exact ⟨[], rfl, Or.inl rfl, Or.inl rfl⟩
    rw [if_neg hfit]
    have hmod : (labelOf p).length % 256 = (labelOf p).length := Nat.mod_eq_of_lt (by omega)
    rw [hmod]
    cases hdot : strchrDot p with
    | nil =>
      refine ⟨(labelOf p).length :: labelOf p, rfl, Or.inr ?_, Or.inr ⟨?_, by simp⟩⟩
      · simp only [List.length_cons]; omega
      · simp only [List.length_cons]
        have e : off + 1 + (labelOf p).length = off + ((labelOf p).length + 1) := by omega
        rw [e]
    | cons d p1 =>
      simp only []
      have hlen := strchrDot_tail_length p p1 d hdot
      obtain ⟨bytes, hlog, hroom, hexit⟩ :=
        ih p1 (off + 1 + (labelOf p).length) (by omega)
      refine ⟨(labelOf p).length :: (labelOf p ++ bytes), ?_, Or.inr ?_, ?_⟩
      · rw [hlog, ← memcpyLog_label]
      · simp only [List.length_cons, List.length_append]
        rcases hroom with h | h
        · subst h; simp only [List.length_nil]; omega
        · omega
      · rcases hexit with h | ⟨h, _⟩
        · exact Or.inl h
        · refine Or.inr ⟨?_, by simp⟩
          rw [h]
          simp only [List.length_cons, List.length_append]
          congr 1
          omega

/-- The loop on a string with a label above 63 bytes, or with an empty label
that is not the last one: a `return -1`. -/
theorem qnameLoop_bad (out_len : Nat) : ∀ (fuel : Nat) (p : List Nat) (off : Nat),
    p.length < fuel →
    ((∃ l ∈ splitDot p, 63 < l.length) ∨ (∃ l ∈ (splitDot p).dropLast, l.length = 0)) →
    (qnameLoop out_len fuel p off).1 = LoopExit.failed := by
  intro fuel
  induction fuel with
  | zero => intro p off h; omega
  | succ fuel ih =>
    intro p off hfuel hbadl
    have hp : p ≠ [] := by
      rintro rfl
      simp [splitDot] at hbadl
    rw [qnameLoop, if_neg hp]
    simp only []
    by_cases hbad : (labelOf p).length = 0 ∨ (labelOf p).length > 63
    · rw [if_pos hbad]
    rw [if_neg hbad]
    by_cases hfit : off + 1 + (labelOf p).length + 1 + 4 > out_len
    · rw [if_pos hfit]
    rw [if_neg hfit]
    rw [splitDot_unfold] at hbadl
    cases hdot : strchrDot p with
    | nil =>
      simp only [hdot, List.mem_singleton, exists_eq_left, List.dropLast_single,
        List.not_mem_nil, false_and, exists_false, or_false] at hbadl
      omega
    | cons d p1 =>
      simp only [hdot] at hbadl ⊢
      have hlen := strchrDot_tail_length p p1 d hdot
      apply ih p1 _ (by omega)
      obtain ⟨l1, ls, hsp⟩ := List.exists_cons_of_ne_nil (splitDot_ne_nil p1)
      rw [hsp] at hbadl ⊢
      simp only [List.mem_cons, exists_eq_or_imp, List.dropLast_cons₂] at hbadl
      rcases hbadl with h | h
      · rcases h with h | h
        · omega
        · exact Or.inl (by simpa using h)
      · rcases h with h | h
        · omega
        · exact Or.inr h

theorem headerLog_eq (id : Nat) : headerLog id = memcpyLog 0 (headerStored id) := rfl

theorem trailerLog_eq (off : Nat) : trailerLog off = memcpyLog off trailerBytes := rfl

theorem headerStored_eq (id : Nat) (hid : id < 65536) : headerStored id = headerBytes id := by
  have h1 : id >>> 8 < 256 := by
    rw [Nat.shiftRight_eq_div_pow]
    omega
  have h2 : id &&& 0xff < 256 := Nat.lt_of_le_of_lt Nat.and_le_right (by decide)
  simp only [headerStored, headerBytes, Nat.mod_eq_of_lt h1, Nat.mod_eq_of_lt h2]

/-- The whole log of a run that leaves the loop normally is one run of
consecutive stores from index 0 on. -/
theorem fullLog_eq (id : Nat) (bytes : List Nat) :
    headerLog id ++ memcpyLog 12 bytes ++ trailerLog (12 + bytes.length) =
      memcpyLog 0 (headerStored id ++ bytes ++ trailerBytes) := by
  have h1 : (headerStored id).length = 12 := rfl
  rw [memcpyLog_append, memcpyLog_append, List.length_append, h1, headerLog_eq, trailerLog_eq]
  simp only [Nat.zero_add]

/-- Replaying consecutive stores from index 0 that stay inside the buffer. -/
theorem applyWrites_seq (buf bs : List Nat) (h : bs.length ≤ buf.length) :
    applyWrites buf (memcpyLog 0 bs) = bs ++ buf.drop bs.length := by
  have h1 := applyWrites_memcpyLog [] bs (buf.drop bs.length) (buf.take bs.length)
    (by simp [h])
  simpa using h1

/-- The result of the encoder on every input, through the bytes the loop stored. -/
theorem build_query_cases (out_len id : Nat) (host : List Nat) (h12 : 12 ≤ out_len) :
    ∃ bytes : List Nat,
      (bytes = [] ∨ 12 + bytes.length + 5 ≤ out_len) ∧
      (dc_dns_build_query out_len id host = some (-1, headerLog id ++ memcpyLog 12 bytes) ∨
        (dc_dns_build_query out_len id host =
            some (((12 + bytes.length + 5 : Nat) : Int),
              memcpyLog 0 (headerStored id ++ bytes ++ trailerBytes)) ∧
          (host ≠ [] → bytes ≠ []))) := by
  obtain ⟨bytes, hlog, hroom, hexit⟩ :=
    qnameLoop_general out_len (host.length + 1) host 12 (by omega)
  refine ⟨bytes, hroom, ?_⟩
  unfold dc_dns_build_query
  rw [if_neg (by omega)]
  rcases hq : qnameLoop out_len (host.length + 1) host 12 with ⟨e, w⟩
  rw [hq] at hlog hexit
  simp only at hlog hexit
  subst hlog
  rcases hexit with h | ⟨h, hne⟩
  · subst h
    exact Or.inl rfl
  · subst h
    refine Or.inr ⟨?_, hne⟩
    simp only [fullLog_eq]

/-- The encoder on a name whose labels all have 1 to 63 bytes and which fits. -/
theorem build_query_ok (out_len id : Nat) (host : List Nat)
    (hlabels : LabelsOk (splitDot host)) (hfit : encodedSize host ≤ out_len) :
    dc_dns_build_query out_len id host =
      some (((encodedSize host : Nat) : Int),
        memcpyLog 0 (headerStored id ++ labelBytes (splitDot host) ++ trailerBytes)) := by
  unfold encodedSize at hfit
  unfold dc_dns_build_query
  rw [if_neg (by omega)]
  rw [qnameLoop_ok out_len (host.length + 1) host 12 (by omega) hlabels (by omega)]
  simp only
  have hlen : (labelBytes (splitDot host)).length = nameLen (splitDot host) := by
    generalize splitDot host = ls
    induction ls with
    | nil => rfl
    | cons l ls ih => simp [labelBytes, nameLen_cons, ih]; omega
  rw [← hlen, fullLog_eq, hlen]
  rfl

theorem labelBytes_length (ls : List (List Nat)) : (labelBytes ls).length = nameLen ls := by
  induction ls with
  | nil => rfl
  | cons l ls ih => simp [labelBytes, nameLen_cons, ih]; omega

theorem length_le_nameLen (ls : List (List Nat)) : ls.length ≤ nameLen ls := by
  induction ls with
  | nil => simp
  | cons l ls ih => simp [nameLen_cons]; omega

theorem getElem?_at_length (pre rest : List Nat) (x : Nat) :
    (pre ++ x :: rest)[pre.length]? = some x := by
  rw [List.getElem?_append_right (Nat.le_refl _)]
  simp

theorem getD_at_length (pre rest : List Nat) (x : Nat) :
    (pre ++ x :: rest).getD pre.length 0 = x := by
  rw [List.getD_eq_getElem?_getD, getElem?_at_length]
  rfl

theorem getD_at_add (pre rest : List Nat) (i : Nat) :
    (pre ++ rest).getD (pre.length + i) 0 = rest.getD i 0 := by
  rw [List.getD_eq_getElem?_getD, List.getD_eq_getElem?_getD,
    List.getElem?_append_right (Nat.le_add_right _ _)]
  simp

/-- Reading back a length-prefixed name that is followed by its terminator. -/
theorem readLabels_labelBytes (labels : List (List Nat)) :
    ∀ (pre post : List Nat) (fuel : Nat), LabelsOk labels → labels.length < fuel →
      readLabels (pre ++ labelBytes labels ++ 0 :: post) fuel pre.length = some labels := by
  induction labels with
  | nil =>
    intro pre post fuel _ hfuel
    obtain ⟨f, rfl⟩ : ∃ f, fuel = f + 1 := ⟨fuel - 1, by simp at hfuel; omega⟩
    simp only [labelBytes, List.append_nil]
    rw [readLabels, getElem?_at_length]
    simp
  | cons l ls ih =>
    intro pre post fuel hok hfuel
    obtain ⟨f, rfl⟩ : ∃ f, fuel = f + 1 := ⟨fuel - 1, by simp at hfuel; omega⟩
    rw [labelsOk_cons] at hok
    obtain ⟨⟨hl1, hl2⟩, hrest⟩ := hok
    have hmsg : pre ++ labelBytes (l :: ls) ++ 0 :: post =
        (pre ++ l.length :: l) ++ labelBytes ls ++ 0 :: post := by
      simp [labelBytes]
    have hget : (pre ++ labelBytes (l :: ls) ++ 0 :: post)[pre.length]? = some l.length := by
      have := getElem?_at_length pre (l ++ labelBytes ls ++ 0 :: post) l.length
      simpa [labelBytes] using this
    have hrec := ih (pre ++ l.length :: l) post f hrest (by simpa using hfuel)
    rw [← hmsg] at hrec
    have hpos : (pre ++ l.length :: l).length = pre.length + 1 + l.length := by
      simp; omega
    rw [hpos] at hrec
    rw [readLabels, hget]
    simp only
    rw [if_neg (by omega), if_neg (by omega), if_neg (by simp [labelBytes]; omega), hrec]
    simp [labelBytes]

/-- The encoder on a name whose labels all have 1 to 63 bytes and which does
not fit: the negative result. -/
theorem build_query_too_big (out_len id : Nat) (host : List Nat)
    (hlabels : LabelsOk (splitDot host)) (hbig : out_len < encodedSize host) :
    ∃ log, dc_dns_build_query out_len id host = some (-1, log) := by
  unfold encodedSize at hbig
  unfold dc_dns_build_query
  by_cases h12 : out_len < 12
  · exact ⟨[], by rw [if_pos h12]⟩
  rw [if_neg h12]
  have h := qnameLoop_too_big out_len (host.length + 1) host 12 (by omega) hlabels (by omega)
  rcases hq : qnameLoop out_len (host.length + 1) host 12 with ⟨e, w⟩
  rw [hq] at h
  simp only at h
  subst h
  exact ⟨_, rfl⟩

/-- The encoder on a name with a label above 63 bytes or an empty label that
is not the last one: the negative result. -/
theorem build_query_bad (out_len id : Nat) (host : List Nat)
    (hbad : (∃ l ∈ splitDot host, 63 < l.length) ∨
      (∃ l ∈ (splitDot host).dropLast, l.length = 0)) :
    ∃ log, dc_dns_build_query out_len id host = some (-1, log) := by
  unfold dc_dns_build_query
  by_cases h12 : out_len < 12
  · exact ⟨[], by rw [if_pos h12]⟩
  rw [if_neg h12]
  have h := qnameLoop_bad out_len (host.length + 1) host 12 (by omega) hbad
  rcases hq : qnameLoop out_len (host.length + 1) host 12 with ⟨e, w⟩
  rw [hq] at h
  simp only at h
  subst h
  exact ⟨_, rfl⟩

/-! ## Lemmas on the name skipper and the response parser -/

theorem shl8_or (a b : Nat) (hb : b < 256) : (a <<< 8) ||| b = a * 256 + b := by
  have h := Nat.mul_add_lt_is_or (i := 8) (b := b) (by simpa using hb) a
  rw [Nat.shiftLeft_eq, Nat.mul_comm a (2 ^ 8), ← h]

theorem be16_bytes (a b : Nat) (ha : a < 256) (hb : b < 256) : be16 a b = a * 256 + b := by
  unfold be16
  rw [shl8_or a b hb]
  exact Nat.mod_eq_of_lt (by omega)

theorem be16_u16Bytes (v : Nat) (hv : v < 65536) : be16 (v / 256) (v % 256) = v := by
  rw [be16_bytes _ _ (by omega) (by omega)]
  omega

theorem and_C0_of_le (c : Nat) (hc : c ≤ 63) : c &&& 0xC0 ≠ 0xC0 := by
  have h : ∀ x : Fin 64, x.val &&& 0xC0 ≠ 0xC0 := by decide
  exact h ⟨c, by omega⟩

theorem byteAt_append_right (pre rest : List Nat) (i : Nat) :
    byteAt (pre ++ rest) (pre.length + i) = byteAt rest i :=
  getD_at_add pre rest i

theorem byteAt_append_zero (pre rest : List Nat) :
    byteAt (pre ++ rest) pre.length = byteAt rest 0 :=
  getD_at_add pre rest 0

theorem nameEnd_bytes_pos (e : NameEnd) : 1 ≤ e.bytes.length := by
  cases e <;> simp [NameEnd.bytes]

/-- The skipper on a well-formed name that lies inside the message: it stops
right behind the name when its step budget exceeds the number of labels, and
fails otherwise. -/
theorem skipNameLoop_wire (e : NameEnd) (he : e.WellFormed) :
    ∀ (labels : List (List Nat)) (pre post : List Nat) (msg_len steps : Nat),
      LabelsOk labels →
      pre.length + (labelBytes labels ++ e.bytes).length ≤ msg_len →
      skipNameLoop (pre ++ (labelBytes labels ++ e.bytes ++ post)) msg_len steps pre.length =
        if labels.length < steps then some (pre.length + (labelBytes labels ++ e.bytes).length)
        else none := by
  intro labels
  induction labels with
  | nil =>
    intro pre post msg_len steps _ hin
    cases steps with
    | zero => simp [skipNameLoop]
    | succ s =>
      have hpos := nameEnd_bytes_pos e
      simp only [labelBytes, List.nil_append, List.length_nil, Nat.zero_lt_succ, if_true] at hin ⊢
      rw [skipNameLoop, if_pos (by omega)]
      simp only [byteAt_append_zero]
      cases e with
      | zero => simp [NameEnd.bytes, byteAt]
      | pointer b1 b2 =>
        simp only [NameEnd.bytes, List.length_cons, List.length_nil] at hin ⊢
        have hb : byteAt (b1 :: b2 :: post) 0 = b1 := rfl
        simp only [List.cons_append, List.nil_append, hb]
        have he1 : b1 &&& 0xC0 = 0xC0 := he
        have hne : b1 ≠ 0 := by
          rintro rfl
          simp at he1
        rw [if_neg hne, if_pos he1, if_neg (by omega)]
  | cons l ls ih =>
    intro pre post msg_len steps hok hin
    cases steps with
    | zero => simp [skipNameLoop]
    | succ s =>
      rw [labelsOk_cons] at hok
      obtain ⟨⟨hl1, hl2⟩, hrest⟩ := hok
      have hlen : (labelBytes (l :: ls) ++ e.bytes).length =
          1 + l.length + (labelBytes ls ++ e.bytes).length := by
        simp [labelBytes]; omega
      have hmsg : pre ++ (labelBytes (l :: ls) ++ e.bytes ++ post) =
          (pre ++ l.length :: l) ++ (labelBytes ls ++ e.bytes ++ post) := by
        simp [labelBytes]
      have hc : byteAt (pre ++ (labelBytes (l :: ls) ++ e.bytes ++ post)) pre.length =
          l.length := by
        rw [byteAt_append_zero]
        rfl
      have hpos : (pre ++ l.length :: l).length = pre.length + 1 + l.length := by
        simp; omega
      rw [hlen] at hin ⊢
      have hrec := ih (pre ++ l.length :: l) post msg_len s hrest (by rw [hpos]; omega)
      rw [hpos, ← hmsg] at hrec
      rw [skipNameLoop, if_pos (by omega)]
      simp only [hc]
      rw [if_neg (by omega), if_neg (and_C0_of_le _ hl2), if_neg (by omega),
        if_neg (by omega), hrec]
      simp only [List.length_cons, Nat.add_lt_add_iff_right]
      split
      · congr 1; omega
      · rfl

/-- The function `dc_dns_skip_name` on a well-formed name that lies inside the
message. -/
theorem skip_name_wire (n : WireName) (hwf : n.WellFormed) (pre post : List Nat)
    (msg_len : Nat) (hin : pre.length + n.bytes.length ≤ msg_len) :
    dc_dns_skip_name (pre ++ (n.bytes ++ post)) msg_len pre.length =
      if n.labels.length ≤ 63 then (0, pre.length + n.bytes.length) else (-1, pre.length) := by
  unfold dc_dns_skip_name WireName.bytes
  rw [skipNameLoop_wire n.ending hwf.2 n.labels pre post msg_len 64 hwf.1 hin]
  by_cases h : n.labels.length ≤ 63
  · rw [if_pos (by omega), if_pos h]
  · rw [if_neg (by omega), if_neg h]

/-- One iteration of the answer loop, through the view of the record at `off`. -/
theorem answersLoop_succ (pkt : List Nat) (r n off : Nat) :
    answersLoop pkt r (n + 1) off =
      match recordAt pkt r off with
      | none => none
      | some v =>
        if v.dataOff + v.rdlen > r then none
        else if v.isA = true then some (v.addr pkt)
        else answersLoop pkt r n (v.dataOff + v.rdlen) := by
  rw [answersLoop]
  unfold recordAt
  simp only []
  by_cases h1 : (dc_dns_skip_name pkt r off).1 < 0
  · simp [h1]
  by_cases h2 : (dc_dns_skip_name pkt r off).2 + 10 > r
  · simp [h1, h2]
  simp only [h1, h2, if_false, or_self, RecView.isA, RecView.addr, Nat.add_assoc,
    Nat.reduceAdd, decide_eq_true_eq]

/-- The answer loop returns the data of the first accepted record of the
records in message order. -/
theorem answersLoop_eq_find (pkt : List Nat) (r : Nat) : ∀ (n off : Nat),
    answersLoop pkt r n off =
      ((recordsFrom pkt r n off).find? RecView.isA).map (RecView.addr pkt) := by
  intro n
  induction n with
  | zero => intro off; rfl
  | succ n ih =>
    intro off
    rw [answersLoop_succ, recordsFrom]
    cases hv : recordAt pkt r off with
    | none => rfl
    | some v =>
      simp only []
      by_cases hin : v.dataOff + v.rdlen > r
      · rw [if_pos hin, if_pos hin]
        rfl
      · rw [if_neg hin, if_neg hin]
        by_cases hA : v.isA = true
        · rw [if_pos hA, List.find?_cons_of_pos _ hA]
          rfl
        · rw [if_neg hA, List.find?_cons_of_neg _ hA, ih]

theorem byteAt_mid (pre mid rest : List Nat) (k : Nat) :
    byteAt (pre ++ (mid ++ rest)) (pre.length + mid.length + k) = byteAt rest k := by
  rw [← List.append_assoc, ← List.length_append]
  exact byteAt_append_right _ _ _

theorem byteAt_mid_zero (pre mid rest : List Nat) :
    byteAt (pre ++ (mid ++ rest)) (pre.length + mid.length) = byteAt rest 0 :=
  byteAt_mid pre mid rest 0

/-- The view of a record of a structured message. -/
theorem recordAt_wire (b : Record) (pre post : List Nat) (r : Nat)
    (hname : b.name.WellFormed) (htype : b.type < 65536) (hclass : b.class_ < 65536)
    (httl : b.ttl.length = 4) (hrdlen : b.rdlen < 65536)
    (hin : pre.length + b.name.bytes.length + 10 ≤ r) :
    recordAt (pre ++ (b.bytes ++ post)) r pre.length =
      if b.name.labels.length ≤ 63 then
        some { type := b.type, class_ := b.class_, rdlen := b.rdlen,
               dataOff := pre.length + b.name.bytes.length + 10 }
      else none := by
  obtain ⟨t0, t1, t2, t3, httl⟩ : ∃ t0 t1 t2 t3, b.ttl = [t0, t1, t2, t3] := by
    match h : b.ttl, httl with
    | [t0, t1, t2, t3], _ => exact ⟨t0, t1, t2, t3, rfl⟩
  have hmsg : pre ++ (b.bytes ++ post) =
      pre ++ (b.name.bytes ++ ([b.type / 256, b.type % 256, b.class_ / 256, b.class_ % 256,
        t0, t1, t2, t3, b.rdlen / 256, b.rdlen % 256] ++ (b.rdata ++ post))) := by
    simp [Record.bytes, u16Bytes, httl]
  rw [hmsg]
  unfold recordAt
  simp only []
  rw [skip_name_wire b.name hname pre _ r (by omega)]
  by_cases hl : b.name.labels.length ≤ 63
  · rw [if_pos hl, if_pos hl]
    simp only []
    rw [if_neg (by omega)]
    have e0 := byteAt_mid_zero pre b.name.bytes ([b.type / 256, b.type % 256, b.class_ / 256,
      b.class_ % 256, t0, t1, t2, t3, b.rdlen / 256, b.rdlen % 256] ++ (b.rdata ++ post))
    have ek := fun k => byteAt_mid pre b.name.bytes ([b.type / 256, b.type % 256,
      b.class_ / 256, b.class_ % 256, t0, t1, t2, t3, b.rdlen / 256, b.rdlen % 256] ++
      (b.rdata ++ post)) k
    rw [e0, ek 1, ek 2, ek 3, ek 8, ek 9]
    simp only [byteAt, List.cons_append, List.getD_cons_zero, List.getD_cons_succ]
    rw [be16_u16Bytes _ htype, be16_u16Bytes _ hclass, be16_u16Bytes _ hrdlen]
  · rw [if_neg hl, if_neg hl]
    simp

theorem question_bytes_length (q : Question) : q.bytes.length = q.name.bytes.length + 4 := by
  simp [Question.bytes, u16Bytes]

theorem record_bytes_length (b : Record) (httl : b.ttl.length = 4) :
    b.bytes.length = b.name.bytes.length + 10 + b.rdata.length := by
  simp [Record.bytes, u16Bytes, httl]
  omega

theorem recordsBytes_append (xs ys : List Record) :
    recordsBytes (xs ++ ys) = recordsBytes xs ++ recordsBytes ys := by
  induction xs with
  | nil => rfl
  | cons x xs ih => simp [recordsBytes, ih]

/-- The question loop on a structured message whose questions lie below `r`:
it stops behind the questions when every name has at most 63 labels, and
fails otherwise. -/
theorem skipQuestions_wire : ∀ (qs : List Question) (pre post : List Nat) (r : Nat),
    (∀ q ∈ qs, q.WellFormed) → pre.length + (questionsBytes qs).length ≤ r →
    skipQuestions (pre ++ (questionsBytes qs ++ post)) r qs.length pre.length =
      if ∀ q ∈ qs, q.name.labels.length ≤ 63 then
        some (pre.length + (questionsBytes qs).length)
      else none := by
  intro qs
  induction qs with
  | nil => intro pre post r _ _; simp [skipQuestions, questionsBytes]
  | cons q qs ih =>
    intro pre post r hwf hin
    have hq := hwf q (List.mem_cons_self _ _)
    have hqs : ∀ q' ∈ qs, q'.WellFormed := fun q' h => hwf q' (List.mem_cons_of_mem _ h)
    have hlen := question_bytes_length q
    simp only [questionsBytes, List.length_append] at hin
    have hmsg : pre ++ (questionsBytes (q :: qs) ++ post) =
        pre ++ (q.name.bytes ++ ((u16Bytes q.qtype ++ u16Bytes q.qclass) ++
          (questionsBytes qs ++ post))) := by
      simp [questionsBytes, Question.bytes]
    have hmsg2 : pre ++ (questionsBytes (q :: qs) ++ post) =
        (pre ++ q.bytes) ++ (questionsBytes qs ++ post) := by
      simp [questionsBytes]
    have hrec := ih (pre ++ q.bytes) post r hqs (by simp only [List.length_append]; omega)
    rw [← hmsg2] at hrec
    simp only [List.length_cons]
    rw [skipQuestions]
    have hskip := skip_name_wire q.name hq pre ((u16Bytes q.qtype ++ u16Bytes q.qclass) ++
      (questionsBytes qs ++ post)) r (by omega)
    rw [← hmsg] at hskip
    rw [hskip]
    by_cases hl : q.name.labels.length ≤ 63
    · rw [if_pos hl]
      simp only []
      rw [if_neg (by omega), if_neg (by omega)]
      have hoff : pre.length + q.name.bytes.length + 4 = (pre ++ q.bytes).length := by
        simp only [List.length_append]; omega
      rw [hoff, hrec]
      simp only [List.mem_cons, forall_eq_or_imp, hl, true_and, questionsBytes,
        List.length_append]
      split
      · congr 1; omega
      · rfl
    · have hnot : ¬ ∀ q' ∈ q :: qs, q'.name.labels.length ≤ 63 :=
        fun h => hl (h q (List.mem_cons_self _ _))
      rw [if_neg hl]
      simp only [if_neg hnot]
      simp

/-- The answer loop on structured records that are well formed, lie below `r`
and are not of the accepted kind: it passes them all when every name has at
most 63 labels and enough iterations are left, and fails otherwise. -/
theorem answersLoop_skip : ∀ (recs : List Record) (pre post : List Nat) (r n : Nat),
    (∀ b ∈ recs, b.WellFormed ∧ ¬ b.IsA) → pre.length + (recordsBytes recs).length ≤ r →
    answersLoop (pre ++ (recordsBytes recs ++ post)) r n pre.length =
      if (∀ b ∈ recs, b.name.labels.length ≤ 63) ∧ recs.length ≤ n then
        answersLoop (pre ++ (recordsBytes recs ++ post)) r (n - recs.length)
          (pre.length + (recordsBytes recs).length)
      else none := by
  intro recs
  induction recs with
  | nil => intro pre post r n _ _; simp [recordsBytes]
  | cons b bs ih =>
    intro pre post r n hwf hin
    obtain ⟨⟨hname, htype, hclass, httl, hrdlen, hdata⟩, hnotA⟩ := hwf b (List.mem_cons_self _ _)
    have hbs : ∀ b' ∈ bs, b'.WellFormed ∧ ¬ b'.IsA :=
      fun b' h => hwf b' (List.mem_cons_of_mem _ h)
    have hlen := record_bytes_length b httl
    simp only [recordsBytes, List.length_append] at hin
    cases n with
    | zero => simp [answersLoop]
    | succ m =>
      have hmsg : pre ++ (recordsBytes (b :: bs) ++ post) =
          pre ++ (b.bytes ++ (recordsBytes bs ++ post)) := by
        simp [recordsBytes]
      have hmsg2 : pre ++ (recordsBytes (b :: bs) ++ post) =
          (pre ++ b.bytes) ++ (recordsBytes bs ++ post) := by
        simp [recordsBytes]
      have hrec := ih (pre ++ b.bytes) post r m hbs (by simp only [List.length_append]; omega)
      rw [← hmsg2] at hrec
      have hview := recordAt_wire b pre (recordsBytes bs ++ post) r hname htype hclass httl
        hrdlen (by omega)
      rw [← hmsg] at hview
      rw [answersLoop_succ, hview]
      by_cases hl : b.name.labels.length ≤ 63
      · rw [if_pos hl]
        simp only []
        have hisA : RecView.isA (RecView.mk b.type b.class_ b.rdlen
            (pre.length + b.name.bytes.length + 10)) = false := by
          simp only [RecView.isA, decide_eq_false_iff_not]
          exact hnotA
        rw [if_neg (by omega), hisA]
        simp only [Bool.false_eq_true, if_false]
        have hoff : pre.length + b.name.bytes.length + 10 + b.rdlen =
            (pre ++ b.bytes).length := by
          simp only [List.length_append]; omega
        rw [hoff, hrec]
        simp only [List.mem_cons, forall_eq_or_imp, hl, true_and, List.length_cons,
          Nat.add_le_add_iff_right, recordsBytes, List.length_append, Nat.add_sub_add_right]
        split
        · congr 1; omega
        · rfl
      · rw [if_neg hl, if_neg (by
          intro h
          exact hl (h.1 b (List.mem_cons_self _ _)))]

theorem record_data_at (b : Record) (pre post : List Nat) (httl : b.ttl.length = 4) (j : Nat) :
    byteAt (pre ++ (b.bytes ++ post)) (pre.length + b.name.bytes.length + 10 + j) =
      byteAt (b.rdata ++ post) j := by
  have hmsg : pre ++ (b.bytes ++ post) =
      (pre ++ (b.name.bytes ++ (u16Bytes b.type ++ (u16Bytes b.class_ ++ (b.ttl ++
        u16Bytes b.rdlen))))) ++ (b.rdata ++ post) := by
    simp [Record.bytes]
  have hlen : (pre ++ (b.name.bytes ++ (u16Bytes b.type ++ (u16Bytes b.class_ ++ (b.ttl ++
      u16Bytes b.rdlen))))).length = pre.length + b.name.bytes.length + 10 := by
    simp [u16Bytes, httl]
    omega
  rw [hmsg, ← hlen]
  exact byteAt_append_right _ _ _

theorem header_length (m : Response) : m.header.length = 12 := rfl

/-- The parser on a well-formed structured response received in full: the
checks of the header pass, the result is that of the two loops. -/
theorem parse_wire (m : Response) (hwf : m.WellFormed) (stale out0 : List Nat) :
    dc_dns_query_A_parse (m.bytes ++ stale) (m.bytes.length : Int) m.id out0 =
      match skipQuestions (m.bytes ++ stale) m.bytes.length m.questions.length 12 with
      | none => (-1, out0)
      | some off =>
        match answersLoop (m.bytes ++ stale) m.bytes.length m.answers.length off with
        | none => (-1, out0)
        | some a => (0, a) := by
  obtain ⟨hid, hflags, hrcode, hqd, han, _, _⟩ := hwf
  have hlen : 12 ≤ m.bytes.length := by
    simp only [Response.bytes, List.length_append, header_length]
    omega
  have hb : ∀ k, k < 12 → byteAt (m.bytes ++ stale) k = byteAt m.header k := by
    intro k hk
    simp only [Response.bytes, List.append_assoc, byteAt]
    rw [List.getD_append _ _ _ _ (by rw [header_length]; exact hk)]
  unfold dc_dns_query_A_parse
  rw [if_neg (by omega)]
  simp only [hb 0 (by omega), hb 1 (by omega), hb 2 (by omega), hb 3 (by omega),
    hb 4 (by omega), hb 5 (by omega), hb 6 (by omega), hb 7 (by omega)]
  have e0 : byteAt m.header 0 = m.id / 256 := rfl
  have e1 : byteAt m.header 1 = m.id % 256 := rfl
  have e2 : byteAt m.header 2 = m.flags / 256 := rfl
  have e3 : byteAt m.header 3 = m.flags % 256 := rfl
  have e4 : byteAt m.header 4 = m.questions.length / 256 := rfl
  have e5 : byteAt m.header 5 = m.questions.length % 256 := rfl
  have e6 : byteAt m.header 6 = m.answers.length / 256 := rfl
  have e7 : byteAt m.header 7 = m.answers.length % 256 := rfl
  rw [e0, e1, e2, e3, e4, e5, e6, e7, be16_u16Bytes _ hflags, be16_u16Bytes _ hqd,
    be16_u16Bytes _ han]
  have hidv : (m.id / 256) <<< 8 ||| m.id % 256 = m.id := by
    rw [shl8_or _ _ (by omega)]
    omega
  have hrc : m.flags &&& 0x000F = 0 := by
    have := Nat.and_pow_two_sub_one_eq_mod m.flags 4
    simp only [Nat.reducePow, Nat.add_one_sub_one] at this
    omega
  rw [if_neg (by rw [hidv]; simp), if_neg (by rw [hrc]; simp), Int.toNat_ofNat]

/-- The parser on a structured message with any header fields and any
identifier: it fails, or its result is that of the two loops run with the
counts of the two sections. -/
theorem parse_counts (m : Response) (hqd : m.questions.length < 65536)
    (han : m.answers.length < 65536) (id : Nat) (stale out0 : List Nat) :
    dc_dns_query_A_parse (m.bytes ++ stale) (m.bytes.length : Int) id out0 = (-1, out0) ∨
    dc_dns_query_A_parse (m.bytes ++ stale) (m.bytes.length : Int) id out0 =
      match skipQuestions (m.bytes ++ stale) m.bytes.length m.questions.length 12 with
      | none => (-1, out0)
      | some off =>
        match answersLoop (m.bytes ++ stale) m.bytes.length m.answers.length off with
        | none => (-1, out0)
        | some a => (0, a) := by
  have hb : ∀ k, k < 12 → byteAt (m.bytes ++ stale) k = byteAt m.header k := by
    intro k hk
    simp only [Response.bytes, List.append_assoc, byteAt]
    rw [List.getD_append _ _ _ _ (by rw [header_length]; exact hk)]
  have e4 : byteAt m.header 4 = m.questions.length / 256 := rfl
  have e5 : byteAt m.header 5 = m.questions.length % 256 := rfl
  have e6 : byteAt m.header 6 = m.answers.length / 256 := rfl
  have e7 : byteAt m.header 7 = m.answers.length % 256 := rfl
  unfold dc_dns_query_A_parse
  by_cases hr : ((m.bytes.length : Nat) : Int) < 12
  · rw [if_pos hr]; exact Or.inl rfl
  rw [if_neg hr]
  by_cases hid : ((byteAt (m.bytes ++ stale) 0 <<< 8) ||| byteAt (m.bytes ++ stale) 1) ≠ id
  · rw [if_pos hid]; exact Or.inl rfl
  rw [if_neg hid]
  simp only []
  by_cases hrc : be16 (byteAt (m.bytes ++ stale) 2) (byteAt (m.bytes ++ stale) 3) &&& 0x000F ≠ 0
  · rw [if_pos hrc]; exact Or.inl rfl
  rw [if_neg hrc]
  right
  rw [hb 4 (by omega), hb 5 (by omega), hb 6 (by omega), hb 7 (by omega), e4, e5, e6, e7,
    be16_u16Bytes _ hqd, be16_u16Bytes _ han, Int.toNat_ofNat]

/-! ## Lemmas on the bytes the skipper and the parser read -/

theorem and_C0_of_le_191 (c : Nat) (hc : c ≤ 191) : c &&& 0xC0 ≠ 0xC0 := by
  have h : c &&& 0xC0 ≤ c := Nat.and_le_left
  omega

theorem skipNameReads_lt (msg : List Nat) (msg_len : Nat) : ∀ (steps off : Nat),
    ∀ p ∈ skipNameReads msg msg_len steps off, p < msg_len := by
  intro steps
  induction steps with
  | zero => intro off p hp; simp [skipNameReads] at hp
  | succ s ih =>
    intro off p hp
    rw [skipNameReads] at hp
    split at hp
    · rename_i hlt
      simp only [List.mem_cons] at hp
      rcases hp with rfl | hp
      · exact hlt
      · split at hp
        · simp at hp
        · split at hp
          · simp at hp
          · split at hp
            · simp at hp
            · split at hp
              · simp at hp
              · exact ih _ p hp
    · simp at hp

theorem skipNameReads_ge (msg : List Nat) (msg_len : Nat) : ∀ (steps off : Nat),
    ∀ p ∈ skipNameReads msg msg_len steps off, off ≤ p := by
  intro steps
  induction steps with
  | zero => intro off p hp; simp [skipNameReads] at hp
  | succ s ih =>
    intro off p hp
    rw [skipNameReads] at hp
    split at hp
    · simp only [List.mem_cons] at hp
      rcases hp with rfl | hp
      · exact Nat.le_refl _
      · split at hp
        · simp at hp
        · split at hp
          · simp at hp
          · split at hp
            · simp at hp
            · split at hp
              · simp at hp
              · have := ih _ p hp
                omega
    · simp at hp

theorem skipNameReads_length (msg : List Nat) (msg_len : Nat) : ∀ (steps off : Nat),
    (skipNameReads msg msg_len steps off).length ≤ steps := by
  intro steps
  induction steps with
  | zero => intro off; simp [skipNameReads]
  | succ s ih =>
    intro off
    rw [skipNameReads]
    split
    · simp only [List.length_cons, Nat.add_le_add_iff_right]
      split
      · simp
      · split
        · simp
        · split
          · simp
          · split
            · simp
            · exact ih _
    · simp

/-- The skipper depends on the length bytes it examines only. -/
theorem skipNameLoop_congr (msg msg2 : List Nat) (msg_len : Nat) : ∀ (steps off : Nat),
    (∀ i ∈ skipNameReads msg msg_len steps off, byteAt msg2 i = byteAt msg i) →
    skipNameLoop msg2 msg_len steps off = skipNameLoop msg msg_len steps off := by
  intro steps
  induction steps with
  | zero => intro off _; rfl
  | succ s ih =>
    intro off hagree
    rw [skipNameReads] at hagree
    rw [skipNameLoop, skipNameLoop]
    by_cases hlt : off < msg_len
    · rw [if_pos hlt] at hagree
      rw [if_pos hlt, if_pos hlt]
      have hc : byteAt msg2 off = byteAt msg off := hagree off (List.mem_cons_self _ _)
      simp only [hc]
      by_cases h0 : byteAt msg off = 0
      · rw [if_pos h0, if_pos h0]
      rw [if_neg h0, if_neg h0]
      by_cases hp : byteAt msg off &&& 0xC0 = 0xC0
      · rw [if_pos hp, if_pos hp]
      rw [if_neg hp, if_neg hp]
      by_cases h63 : byteAt msg off > 63
      · rw [if_pos h63, if_pos h63]
      rw [if_neg h63, if_neg h63]
      by_cases hout : off + 1 + byteAt msg off > msg_len
      · rw [if_pos hout, if_pos hout]
      rw [if_neg hout, if_neg hout]
      apply ih
      intro i hi
      apply hagree
      simp only [h0, hp, h63, hout, if_false, List.mem_cons]
      exact Or.inr hi
    · rw [if_neg hlt, if_neg hlt]

/-- Two buffers that agree below `msg_len` are skipped alike. -/
theorem skipNameLoop_agree (msg msg2 : List Nat) (msg_len : Nat)
    (hagree : ∀ i, i < msg_len → byteAt msg2 i = byteAt msg i) (steps off : Nat) :
    skipNameLoop msg2 msg_len steps off = skipNameLoop msg msg_len steps off :=
  skipNameLoop_congr msg msg2 msg_len steps off
    (fun i hi => hagree i (skipNameReads_lt msg msg_len steps off i hi))

theorem skip_name_agree (msg msg2 : List Nat) (msg_len : Nat)
    (hagree : ∀ i, i < msg_len → byteAt msg2 i = byteAt msg i) (off : Nat) :
    dc_dns_skip_name msg2 msg_len off = dc_dns_skip_name msg msg_len off := by
  unfold dc_dns_skip_name
  rw [skipNameLoop_agree msg msg2 msg_len hagree]

theorem skipQuestions_agree (pkt pkt2 : List Nat) (r : Nat)
    (hagree : ∀ i, i < r → byteAt pkt2 i = byteAt pkt i) : ∀ (n off : Nat),
    skipQuestions pkt2 r n off = skipQuestions pkt r n off := by
  intro n
  induction n with
  | zero => intro off; rfl
  | succ n ih =>
    intro off
    rw [skipQuestions, skipQuestions, skip_name_agree pkt pkt2 r hagree, ih]

theorem recordAt_agree (pkt pkt2 : List Nat) (r : Nat)
    (hagree : ∀ i, i < r → byteAt pkt2 i = byteAt pkt i) (off : Nat) :
    recordAt pkt2 r off = recordAt pkt r off := by
  unfold recordAt
  rw [skip_name_agree pkt pkt2 r hagree]
  simp only []
  by_cases h : (dc_dns_skip_name pkt r off).1 < 0 ∨ (dc_dns_skip_name pkt r off).2 + 10 > r
  · rw [if_pos h, if_pos h]
  · rw [if_neg h, if_neg h]
    have hlt : (dc_dns_skip_name pkt r off).2 + 10 ≤ r := by omega
    rw [hagree _ (by omega), hagree ((dc_dns_skip_name pkt r off).2 + 1) (by omega),
      hagree ((dc_dns_skip_name pkt r off).2 + 2) (by omega),
      hagree ((dc_dns_skip_name pkt r off).2 + 3) (by omega),
      hagree ((dc_dns_skip_name pkt r off).2 + 8) (by omega),
      hagree ((dc_dns_skip_name pkt r off).2 + 9) (by omega)]

theorem answersLoop_agree (pkt pkt2 : List Nat) (r : Nat)
    (hagree : ∀ i, i < r → byteAt pkt2 i = byteAt pkt i) : ∀ (n off : Nat),
    answersLoop pkt2 r n off = answersLoop pkt r n off := by
  intro n
  induction n with
  | zero => intro off; rfl
  | succ n ih =>
    intro off
    rw [answersLoop_succ, answersLoop_succ, recordAt_agree pkt pkt2 r hagree]
    cases hv : recordAt pkt r off with
    | none => rfl
    | some v =>
      simp only []
      by_cases hin : v.dataOff + v.rdlen > r
      · rw [if_pos hin, if_pos hin]
      rw [if_neg hin, if_neg hin]
      by_cases hA : v.isA = true
      · rw [if_pos hA, if_pos hA]
        have h4 : v.rdlen = 4 := by
          simp only [RecView.isA, decide_eq_true_eq] at hA
          exact hA.2.2
        simp only [RecView.addr]
        rw [hagree v.dataOff (by omega), hagree (v.dataOff + 1) (by omega),
          hagree (v.dataOff + 2) (by omega), hagree (v.dataOff + 3) (by omega)]
      · rw [if_neg hA, if_neg hA, ih]

theorem skipNameLoop_of_ge (msg : List Nat) (msg_len steps off : Nat) (h : msg_len ≤ off) :
    skipNameLoop msg msg_len steps off = none := by
  cases steps with
  | zero => rfl
  | succ s => rw [skipNameLoop, if_neg (by omega)]

/-- The skipper at a compression pointer it meets. -/
theorem skipNameLoop_pointer (msg : List Nat) (msg_len : Nat) : ∀ (steps off p : Nat),
    p ∈ skipNameReads msg msg_len steps off → byteAt msg p &&& 0xC0 = 0xC0 →
    p + 1 < msg_len → skipNameLoop msg msg_len steps off = some (p + 2) := by
  intro steps
  induction steps with
  | zero => intro off p hp; simp [skipNameReads] at hp
  | succ s ih =>
    intro off p hp hptr hin
    rw [skipNameReads] at hp
    rw [skipNameLoop]
    by_cases hlt : off < msg_len
    swap
    · rw [if_neg hlt] at hp
      simp at hp
    rw [if_pos hlt] at hp
    rw [if_pos hlt]
    simp only [List.mem_cons] at hp
    rcases hp with rfl | hp
    · have hne : byteAt msg p ≠ 0 := by
        intro h0
        rw [h0] at hptr
        simp at hptr
      simp only []
      rw [if_neg hne, if_pos hptr, if_neg (by omega)]
    · simp only [] at hp ⊢
      by_cases h0 : byteAt msg off = 0
      · rw [if_pos h0] at hp; simp at hp
      rw [if_neg h0] at hp
      rw [if_neg h0]
      by_cases hp2 : byteAt msg off &&& 0xC0 = 0xC0
      · rw [if_pos hp2] at hp; simp at hp
      rw [if_neg hp2] at hp
      rw [if_neg hp2]
      by_cases h63 : byteAt msg off > 63
      · rw [if_pos h63] at hp; simp at hp
      rw [if_neg h63] at hp
      rw [if_neg h63]
      by_cases hout : off + 1 + byteAt msg off > msg_len
      · rw [if_pos hout] at hp; simp at hp
      rw [if_neg hout] at hp
      rw [if_neg hout]
      exact ih _ p hp hptr hin

/-- A compression pointer the skipper meets is the last length byte it examines. -/
theorem skipNameReads_le_pointer (msg : List Nat) (msg_len : Nat) : ∀ (steps off p : Nat),
    p ∈ skipNameReads msg msg_len steps off → byteAt msg p &&& 0xC0 = 0xC0 →
    ∀ i ∈ skipNameReads msg msg_len steps off, i ≤ p := by
  intro steps
  induction steps with
  | zero => intro off p hp; simp [skipNameReads] at hp
  | succ s ih =>
    intro off p hp hptr i hi
    rw [skipNameReads] at hp hi
    by_cases hlt : off < msg_len
    swap
    · rw [if_neg hlt] at hp
      simp at hp
    rw [if_pos hlt] at hp hi
    simp only [List.mem_cons] at hp hi
    by_cases h0 : byteAt msg off = 0
    · simp only [h0, if_true, List.not_mem_nil, or_false] at hp hi
      omega
    by_cases hp2 : byteAt msg off &&& 0xC0 = 0xC0
    · simp only [h0, hp2, if_true, if_false, List.not_mem_nil, or_false] at hp hi
      omega
    by_cases h63 : byteAt msg off > 63
    · simp only [h0, hp2, h63, if_true, if_false, List.not_mem_nil, or_false] at hp hi
      omega
    by_cases hout : off + 1 + byteAt msg off > msg_len
    · simp only [h0, hp2, h63, hout, if_true, if_false, List.not_mem_nil, or_false] at hp hi
      omega
    simp only [h0, hp2, h63, hout, if_false] at hp hi
    rcases hp with rfl | hp
    · exact absurd hptr hp2
    · rcases hi with rfl | hi
      · have := skipNameReads_ge msg msg_len s _ p hp
        omega
      · exact ih _ p hp hptr i hi

/-- The skipper at a length byte it meets and cannot pass. -/
theorem skipNameLoop_bad (msg : List Nat) (msg_len : Nat) : ∀ (steps off p : Nat),
    p ∈ skipNameReads msg msg_len steps off →
    ((64 ≤ byteAt msg p ∧ byteAt msg p ≤ 191) ∨
      (1 ≤ byteAt msg p ∧ byteAt msg p ≤ 63 ∧ msg_len ≤ p + 1 + byteAt msg p) ∨
      (byteAt msg p &&& 0xC0 = 0xC0 ∧ msg_len ≤ p + 1)) →
    skipNameLoop msg msg_len steps off = none := by
  intro steps
  induction steps with
  | zero => intro off p hp; simp [skipNameReads] at hp
  | succ s ih =>
    intro off p hp hbad
    rw [skipNameReads] at hp
    rw [skipNameLoop]
    by_cases hlt : off < msg_len
    swap
    · rw [if_neg hlt]
    rw [if_pos hlt] at hp
    rw [if_pos hlt]
    simp only [List.mem_cons] at hp
    rcases hp with rfl | hp
    · simp only []
      rcases hbad with ⟨h1, h2⟩ | ⟨h1, h2, h3⟩ | ⟨h1, h2⟩
      · rw [if_neg (by omega), if_neg (and_C0_of_le_191 _ h2), if_pos (by omega)]
      · rw [if_neg (by omega), if_neg (and_C0_of_le _ h2), if_neg (by omega)]
        by_cases hout : p + 1 + byteAt msg p > msg_len
        · rw [if_pos hout]
        · rw [if_neg hout]
          exact skipNameLoop_of_ge msg msg_len s _ h3
      · have hne : byteAt msg p ≠ 0 := by
          intro h0
          rw [h0] at h1
          simp at h1
        rw [if_neg hne, if_pos h1, if_pos (by omega)]
    · simp only [] at hp ⊢
      by_cases h0 : byteAt msg off = 0
      · rw [if_pos h0] at hp; simp at hp
      rw [if_neg h0] at hp
      rw [if_neg h0]
      by_cases hp2 : byteAt msg off &&& 0xC0 = 0xC0
      · rw [if_pos hp2] at hp; simp at hp
      rw [if_neg hp2] at hp
      rw [if_neg hp2]
      by_cases h63 : byteAt msg off > 63
      · rw [if_pos h63]
      rw [if_neg h63] at hp
      rw [if_neg h63]
      by_cases hout : off + 1 + byteAt msg off > msg_len
      · rw [if_pos hout]
      rw [if_neg hout] at hp
      rw [if_neg hout]
      exact ih _ p hp hbad

/-! ## The claims on the query encoder -/

/-- C1: for every identifier and every host name whose labels, obtained by
splitting on `'.'`, all have 1 to 63 bytes and whose encoded size is within
`out_len`, the encoder succeeds, and reading the produced message from offset
12 as length-prefixed labels up to the zero-length terminator gives back
exactly the labels of the host name, in order. The reader refuses every
length byte above 63, so no compression pointer was produced; the bytes from
offset 12 are the labels, each behind its length, and the terminator. -/
theorem build_query_roundtrip (out_len id : Nat) (host buf : List Nat)
    (hlabels : LabelsOk (splitDot host)) (hfit : encodedSize host ≤ out_len)
    (hbuf : buf.length = out_len) :
    ∃ log, dc_dns_build_query out_len id host = some (((encodedSize host : Nat) : Int), log) ∧
      decodeQName ((applyWrites buf log).take (encodedSize host)) = some (splitDot host) ∧
      ((applyWrites buf log).drop 12).take (nameLen (splitDot host) + 1) =
        labelBytes (splitDot host) ++ [0] := by
  refine ⟨_, build_query_ok out_len id host hlabels hfit, ?_, ?_⟩
  · have hlen : (headerStored id ++ labelBytes (splitDot host) ++ trailerBytes).length =
        encodedSize host := by
      have e1 : (headerStored id).length = 12 := rfl
      have e2 : trailerBytes.length = 5 := rfl
      simp only [List.length_append, labelBytes_length, encodedSize, e1, e2]

    rw [applyWrites_seq _ _ (by omega), ← hlen, List.take_left]
    unfold decodeQName
    rw [hlen]
    have h := readLabels_labelBytes (splitDot host) (headerStored id) [0, 1, 0, 1]
      (encodedSize host) hlabels (by
        have := length_le_nameLen (splitDot host)
        unfold encodedSize
        omega)
    exact h
  · have hlen : (headerStored id ++ labelBytes (splitDot host) ++ trailerBytes).length ≤
        buf.length := by
      have e1 : (headerStored id).length = 12 := rfl
      have e2 : trailerBytes.length = 5 := rfl
      simp only [List.length_append, labelBytes_length, e1, e2]
      unfold encodedSize at hfit
      omega

    rw [applyWrites_seq _ _ hlen]
    have h12 : (headerStored id).length = 12 := rfl
    rw [List.append_assoc, List.append_assoc, ← h12, List.drop_left, ← labelBytes_length]
    simp [trailerBytes, List.take_append_eq_append_take]

theorem build_query_roundtrip_witness :
    ∃ log, dc_dns_build_query 512 0x1234 [97, 46, 98, 99] =
        some (((encodedSize [97, 46, 98, 99] : Nat) : Int), log) ∧
      decodeQName ((applyWrites (List.replicate 512 0) log).take
        (encodedSize [97, 46, 98, 99])) = some (splitDot [97, 46, 98, 99]) ∧
      ((applyWrites (List.replicate 512 0) log).drop 12).take
          (nameLen (splitDot [97, 46, 98, 99]) + 1) =
        labelBytes (splitDot [97, 46, 98, 99]) ++ [0] :=
  build_query_roundtrip 512 0x1234 [97, 46, 98, 99] (List.replicate 512 0)
    (by decide) (by decide) (List.length_replicate 512 0)

/-- C2: for every identifier and every host name whose labels all have 1 to 63
bytes, the encoder returns exactly the encoded size `12 + sum (len_i + 1) + 1 + 4`
when that size is at most `out_len`, and the negative result when it exceeds
`out_len`; and with the 512-byte buffer of the transport no result, for any
host name, is above 512. -/
theorem build_query_size (out_len id : Nat) (host : List Nat)
    (hlabels : LabelsOk (splitDot host)) :
    (encodedSize host ≤ out_len →
      ∃ log, dc_dns_build_query out_len id host = some (((encodedSize host : Nat) : Int), log)) ∧
    (out_len < encodedSize host →
      ∃ log, dc_dns_build_query out_len id host = some (-1, log)) ∧
    (∀ (h : List Nat) (n : Int) (log : WriteLog),
      dc_dns_build_query DC_DNS_MAX_PACKET id h = some (n, log) → n ≤ 512) := by
  refine ⟨fun hfit => ⟨_, build_query_ok out_len id host hlabels hfit⟩,
    fun hbig => build_query_too_big out_len id host hlabels hbig, ?_⟩
  intro h n log hres
  obtain ⟨bytes, hroom, hcase⟩ := build_query_cases DC_DNS_MAX_PACKET id h (by decide)
  rcases hcase with hc | ⟨hc, _⟩
  · rw [hc] at hres
    simp only [Option.some.injEq, Prod.mk.injEq] at hres
    omega
  · rw [hc] at hres
    simp only [Option.some.injEq, Prod.mk.injEq] at hres
    obtain ⟨hn, _⟩ := hres
    rcases hroom with hb | hb
    · subst hb
      simp at hn
      omega
    · simp only [DC_DNS_MAX_PACKET] at hb
      omega

theorem build_query_size_witness :
    (encodedSize [97, 46, 98, 99] ≤ 512 →
      ∃ log, dc_dns_build_query 512 7 [97, 46, 98, 99] =
        some (((encodedSize [97, 46, 98, 99] : Nat) : Int), log)) ∧
    (512 < encodedSize [97, 46, 98, 99] →
      ∃ log, dc_dns_build_query 512 7 [97, 46, 98, 99] = some (-1, log)) ∧
    (∀ (h : List Nat) (n : Int) (log : WriteLog),
      dc_dns_build_query DC_DNS_MAX_PACKET 7 h = some (n, log) → n ≤ 512) :=
  build_query_size 512 7 [97, 46, 98, 99] (by decide)

/-- C3, as stated, fails: the host name `"a."` split on `'.'` has the labels
`"a"` and `""`, the second of length 0, and the encoder accepts it with the
512-byte buffer (it returns 19, the encoding of the single label `"a"`). -/
theorem build_query_trailing_dot_accepted :
    ¬ (∀ (out_len id : Nat) (host : List Nat),
        (∃ l ∈ splitDot host, l.length = 0 ∨ 63 < l.length) →
        ∃ log, dc_dns_build_query out_len id host = some (-1, log)) := by
  intro h
  obtain ⟨log, hlog⟩ := h 512 1 [97, 46] ⟨[], by decide, Or.inl rfl⟩
  have h19 : dc_dns_build_query 512 1 [97, 46] =
      some (19, memcpyLog 0 (headerStored 1 ++ [1, 97] ++ trailerBytes)) := by decide
  rw [h19] at hlog
  simp at hlog

/-- C3, amended: for every host name that, split on `'.'`, has a label longer
than 63 bytes, or a label of length 0 that is not the last label, the encoder
returns the negative result, for every identifier and buffer size. -/
theorem build_query_rejects_bad_label (out_len id : Nat) (host : List Nat)
    (hbad : (∃ l ∈ splitDot host, 63 < l.length) ∨
      (∃ l ∈ (splitDot host).dropLast, l.length = 0)) :
    ∃ log, dc_dns_build_query out_len id host = some (-1, log) :=
  build_query_bad out_len id host hbad

theorem build_query_rejects_bad_label_witness :
    ∃ log, dc_dns_build_query 512 1 [97, 46, 46, 98] = some (-1, log) :=
  build_query_rejects_bad_label 512 1 [97, 46, 46, 98]
    (Or.inr ⟨[], by decide, rfl⟩)

/-- C4, the failing input: for the empty host name and a buffer of 12 bytes
the encoder returns 17 and its stores go to the indices 0 to 16, five of them
at or above `out_len = 12`. -/
theorem build_query_empty_host_overrun :
    ∃ log, dc_dns_build_query 12 0x1234 [] = some (17, log) ∧
      log.map Prod.fst = List.range 17 ∧
      (log.filter (fun w => decide (12 ≤ w.1))).map Prod.fst = [12, 13, 14, 15, 16] :=
  ⟨headerLog 0x1234 ++ trailerLog 12, by decide, by decide, by decide⟩

/-- Outside the case of C4's failing input every store of the encoder stays
inside the buffer: when the host name is not empty, or the buffer has at least
17 bytes, every index written is below `out_len`. -/
theorem build_query_writes_in_bounds (out_len id : Nat) (host : List Nat)
    (n : Int) (log : WriteLog) (hcase : host ≠ [] ∨ 17 ≤ out_len)
    (hres : dc_dns_build_query out_len id host = some (n, log)) :
    ∀ w ∈ log, w.1 < out_len := by
  by_cases h12 : out_len < 12
  · unfold dc_dns_build_query at hres
    rw [if_pos h12] at hres
    simp only [Option.some.injEq, Prod.mk.injEq] at hres
    rw [← hres.2]
    simp
  obtain ⟨bytes, hroom, hc⟩ := build_query_cases out_len id host (by omega)
  have hh : (headerStored id).length = 12 := rfl
  have ht : trailerBytes.length = 5 := rfl
  rcases hc with hc | ⟨hc, hne⟩
  · rw [hc] at hres
    simp only [Option.some.injEq, Prod.mk.injEq] at hres
    rw [← hres.2]
    intro w hw
    rw [List.mem_append] at hw
    rcases hw with hw | hw
    · have := memcpyLog_index_lt 0 (headerStored id) w (by rw [← headerLog_eq]; exact hw)
      omega
    · have := memcpyLog_index_lt 12 bytes w hw
      rcases hroom with hb | hb
      · subst hb; simp [memcpyLog] at hw
      · omega
  · rw [hc] at hres
    simp only [Option.some.injEq, Prod.mk.injEq] at hres
    rw [← hres.2]
    intro w hw
    have := memcpyLog_index_lt 0 _ w hw
    simp only [List.length_append, hh, ht] at this
    rcases hroom with hb | hb
    · subst hb
      rcases hcase with h | h
      · exact absurd rfl (hne h)
      · simp only [List.length_nil] at this
        omega
    · omega

/-- C5: for every 16-bit identifier and every host name the encoder accepts,
with the result `n`, the encoder stored exactly the `n` bytes of indices 0 to
`n - 1`, in this order; these bytes start with the 12 bytes
`[id >> 8, id & 0xff, 1, 0, 0, 1, 0, 0, 0, 0, 0, 0]` and their last five are
the zero terminator and `00 01 00 01`; and they are the first `n` bytes of any
buffer that can hold them. -/
theorem build_query_layout (out_len id : Nat) (host buf : List Nat) (n : Int) (log : WriteLog)
    (hid : id < 65536) (hres : dc_dns_build_query out_len id host = some (n, log))
    (hacc : 0 ≤ n) :
    log.map Prod.fst = List.range n.toNat ∧
      (log.map Prod.snd).take 12 =
        [id >>> 8, id &&& 0xff, 0x01, 0x00, 0x00, 0x01, 0, 0, 0, 0, 0, 0] ∧
      (log.map Prod.snd).drop (n.toNat - 5) = [0x00, 0x00, 0x01, 0x00, 0x01] ∧
      (n.toNat ≤ buf.length → (applyWrites buf log).take n.toNat = log.map Prod.snd) := by
  have h12 : 12 ≤ out_len := by
    by_contra hlt
    unfold dc_dns_build_query at hres
    rw [if_pos (by omega)] at hres
    simp only [Option.some.injEq, Prod.mk.injEq] at hres
    omega
  obtain ⟨bytes, _, hc⟩ := build_query_cases out_len id host h12
  have hh : (headerStored id).length = 12 := rfl
  have ht : trailerBytes.length = 5 := rfl
  rcases hc with hc | ⟨hc, _⟩
  · rw [hc] at hres
    simp only [Option.some.injEq, Prod.mk.injEq] at hres
    omega
  · rw [hc] at hres
    simp only [Option.some.injEq, Prod.mk.injEq] at hres
    obtain ⟨hn, hlog⟩ := hres
    subst hn hlog
    have hlen : (headerStored id ++ bytes ++ trailerBytes).length = 12 + bytes.length + 5 := by
      simp only [List.length_append, hh, ht]
    rw [Int.toNat_ofNat, memcpyLog_map_fst, memcpyLog_map_snd, hlen]
    refine ⟨by rw [List.range_eq_range'], ?_, ?_, ?_⟩
    · rw [List.append_assoc, ← hh, List.take_left, headerStored_eq id hid]
      rfl
    · have hd : 12 + bytes.length + 5 - 5 = (headerStored id ++ bytes).length := by
        simp only [List.length_append, hh]; omega
      rw [hd, List.drop_left]
      rfl
    · intro hle
      rw [applyWrites_seq _ _ (by rw [hlen]; exact hle), ← hlen, List.take_left]

theorem build_query_layout_witness :
    (headerLog 0x1234 ++ trailerLog 12).map Prod.fst = List.range (17 : Int).toNat ∧
      ((headerLog 0x1234 ++ trailerLog 12).map Prod.snd).take 12 =
        [0x1234 >>> 8, 0x1234 &&& 0xff, 0x01, 0x00, 0x00, 0x01, 0, 0, 0, 0, 0, 0] ∧
      ((headerLog 0x1234 ++ trailerLog 12).map Prod.snd).drop ((17 : Int).toNat - 5) =
        [0x00, 0x00, 0x01, 0x00, 0x01] ∧
      ((17 : Int).toNat ≤ (List.replicate 512 0).length →
        (applyWrites (List.replicate 512 0) (headerLog 0x1234 ++ trailerLog 12)).take
          (17 : Int).toNat = (headerLog 0x1234 ++ trailerLog 12).map Prod.snd) :=
  build_query_layout 512 0x1234 [] (List.replicate 512 0) 17
    (headerLog 0x1234 ++ trailerLog 12) (by decide) (by decide) (by decide)

/-! ## The claims on the response parser -/

set_option maxRecDepth 100000

/-- C6, amended: for every well-formed response (matching identifier, zero
error code, sections consistent with their counts and inside the received
length) in which every name of the question section and of the answer records
up to the A record has at most 63 labels, and which has an answer record of
type A, class IN and four bytes of data preceded only by records that are not
of that kind, the parser succeeds and outputs exactly those four bytes. -/
theorem parse_single_A (m : Response) (pre post : List Record) (a : Record)
    (stale out0 : List Nat)
    (hwf : m.WellFormed) (hans : m.answers = pre ++ a :: post) (ha : a.IsA)
    (hpre : ∀ b ∈ pre, ¬ b.IsA)
    (hq63 : ∀ q ∈ m.questions, q.name.labels.length ≤ 63)
    (ha63 : ∀ b ∈ pre ++ [a], b.name.labels.length ≤ 63) :
    dc_dns_query_A_parse (m.bytes ++ stale) (m.bytes.length : Int) m.id out0 = (0, a.rdata) := by
  rw [parse_wire m hwf stale out0]
  obtain ⟨_, _, _, _, _, hqwf, hawf⟩ := hwf
  have hawf' : ∀ b ∈ pre ++ a :: post, b.WellFormed := by rw [← hans]; exact hawf
  obtain ⟨hname, htype, hclass, httl, hrdlen, hdata⟩ := hawf' a (by simp)
  have hablen := record_bytes_length a httl
  -- the layout of the message
  have hbytes : m.bytes ++ stale = m.header ++ (questionsBytes m.questions ++
      (recordsBytes m.answers ++ m.rest ++ stale)) := by
    simp [Response.bytes]
  have hbytes2 : m.bytes ++ stale = (m.header ++ questionsBytes m.questions) ++
      (recordsBytes pre ++ (a.bytes ++ (recordsBytes post ++ m.rest ++ stale))) := by
    rw [hbytes, hans, recordsBytes_append]
    simp [recordsBytes]
  have hbytes3 : m.bytes ++ stale =
      ((m.header ++ questionsBytes m.questions) ++ recordsBytes pre) ++
        (a.bytes ++ (recordsBytes post ++ m.rest ++ stale)) := by
    rw [hbytes2]
    simp
  have hlen : m.bytes.length = 12 + (questionsBytes m.questions).length +
      ((recordsBytes pre).length + a.bytes.length + (recordsBytes post).length) +
      m.rest.length := by
    simp only [Response.bytes, hans, recordsBytes_append, recordsBytes, List.length_append,
      header_length]
    omega
  -- the question loop
  have hq := skipQuestions_wire m.questions m.header
    (recordsBytes m.answers ++ m.rest ++ stale) m.bytes.length hqwf
    (by rw [header_length]; omega)
  rw [← hbytes, if_pos hq63, header_length] at hq
  rw [hq]
  simp only []
  -- the records before the A record
  have hs := answersLoop_skip pre (m.header ++ questionsBytes m.questions)
    (a.bytes ++ (recordsBytes post ++ m.rest ++ stale)) m.bytes.length m.answers.length
    (fun b hb => ⟨hawf' b (by simp [hb]), hpre b hb⟩)
    (by simp only [List.length_append, header_length]; omega)
  rw [← hbytes2, if_pos ⟨fun b hb => ha63 b (by simp [hb]), by simp [hans]⟩] at hs
  have hP : (m.header ++ questionsBytes m.questions).length =
      12 + (questionsBytes m.questions).length := by
    simp only [List.length_append, header_length]
  rw [hP] at hs
  rw [hs]
  have hn : m.answers.length - pre.length = post.length + 1 := by
    simp [hans]
  rw [hn, answersLoop_succ]
  -- the A record
  have hview := recordAt_wire a ((m.header ++ questionsBytes m.questions) ++ recordsBytes pre)
    (recordsBytes post ++ m.rest ++ stale) m.bytes.length hname htype hclass httl hrdlen
    (by simp only [List.length_append, header_length]; omega)
  have hP3 : ((m.header ++ questionsBytes m.questions) ++ recordsBytes pre).length =
      12 + (questionsBytes m.questions).length + (recordsBytes pre).length := by
    simp only [List.length_append, header_length]
  rw [← hbytes3, hP3, if_pos (ha63 a (by simp))] at hview
  rw [hview]
  simp only []
  have hisA : RecView.isA (RecView.mk a.type a.class_ a.rdlen
      (12 + (questionsBytes m.questions).length + (recordsBytes pre).length +
        a.name.bytes.length + 10)) = true := by
    simp only [RecView.isA, decide_eq_true_eq]
    exact ha
  rw [if_neg (by omega), if_pos hisA]
  obtain ⟨a0, a1, a2, a3, hrd⟩ : ∃ a0 a1 a2 a3, a.rdata = [a0, a1, a2, a3] := by
    have h4 : a.rdata.length = 4 := by rw [hdata]; exact ha.2.2
    match h : a.rdata, h4 with
    | [a0, a1, a2, a3], _ => exact ⟨a0, a1, a2, a3, rfl⟩
  have hd := fun j => record_data_at a
    ((m.header ++ questionsBytes m.questions) ++ recordsBytes pre)
    (recordsBytes post ++ m.rest ++ stale) httl j
  rw [← hbytes3, hP3] at hd
  have hd0 := hd 0
  simp only [Nat.add_zero] at hd0
  simp only [RecView.addr, hd0, hd 1, hd 2, hd 3, hrd]
  rfl

theorem parse_single_A_witness :
    dc_dns_query_A_parse (sampleResponse.bytes ++ [7, 7]) (sampleResponse.bytes.length : Int)
      sampleResponse.id [0, 0, 0, 0] = (0, sampleA.rdata) :=
  parse_single_A sampleResponse [sampleCname] [] sampleA [7, 7] [0, 0, 0, 0]
    (by decide) rfl (by decide) (by decide) (by decide) (by decide)

/-- C6, as stated, fails: `longNameResponse` is well formed (matching
identifier, zero error code, one question and one answer as counted, all
inside the received length) and its only answer record has type A, class IN
and four bytes of data, but its question name has 64 labels and the parser
fails on it, leaving the output address as it was. -/
theorem parse_rejects_long_question_name :
    longNameResponse.WellFormed ∧ longNameResponse.answers = [] ++ sampleA :: [] ∧
      sampleA.IsA ∧ (∀ b ∈ ([] : List Record) ++ [], ¬ b.IsA) ∧
      dc_dns_query_A_parse (longNameResponse.bytes ++ [])
        (longNameResponse.bytes.length : Int) longNameResponse.id [0, 0, 0, 0] =
          (-1, [0, 0, 0, 0]) := by
  refine ⟨by decide, rfl, by decide, by simp, ?_⟩
  decide

/-- C7: for every received message whose first two bytes, read as a big-endian
16-bit value, differ from the identifier of the query, the parser fails and
the output address keeps the value it had, whatever the rest of the message
and whatever the received length. -/
theorem parse_rejects_id_mismatch (pkt : List Nat) (r : Int) (id : Nat) (out0 : List Nat)
    (hb1 : byteAt pkt 1 < 256) (hid : byteAt pkt 0 * 256 + byteAt pkt 1 ≠ id) :
    dc_dns_query_A_parse pkt r id out0 = (-1, out0) := by
  unfold dc_dns_query_A_parse
  by_cases hr : r < 12
  · rw [if_pos hr]
  · rw [if_neg hr, if_pos (by rw [shl8_or _ _ hb1]; exact hid)]

theorem parse_rejects_id_mismatch_witness :
    dc_dns_query_A_parse sampleResponse.bytes (sampleResponse.bytes.length : Int) 0x1235
      [9, 9, 9, 9] = (-1, [9, 9, 9, 9]) :=
  parse_rejects_id_mismatch sampleResponse.bytes (sampleResponse.bytes.length : Int) 0x1235
    [9, 9, 9, 9] (by decide) (by decide)

/-- C8: for every received message whose error code, the low four bits of the
16-bit flags field at bytes 2 and 3, is not zero, the parser fails and the
output address keeps the value it had, whatever answer records the message
contains. -/
theorem parse_rejects_rcode (pkt : List Nat) (r : Int) (id : Nat) (out0 : List Nat)
    (hb2 : byteAt pkt 2 < 256) (hb3 : byteAt pkt 3 < 256)
    (hrcode : (byteAt pkt 2 * 256 + byteAt pkt 3) % 16 ≠ 0) :
    dc_dns_query_A_parse pkt r id out0 = (-1, out0) := by
  unfold dc_dns_query_A_parse
  by_cases hr : r < 12
  · rw [if_pos hr]
  rw [if_neg hr]
  by_cases hid : ((byteAt pkt 0 <<< 8) ||| byteAt pkt 1) ≠ id
  · rw [if_pos hid]
  rw [if_neg hid]
  simp only []
  have hflags : be16 (byteAt pkt 2) (byteAt pkt 3) &&& 0x000F ≠ 0 := by
    rw [be16_bytes _ _ hb2 hb3]
    have := Nat.and_pow_two_sub_one_eq_mod (byteAt pkt 2 * 256 + byteAt pkt 3) 4
    simp only [Nat.reducePow, Nat.add_one_sub_one] at this
    omega
  rw [if_pos hflags]

theorem parse_rejects_rcode_witness :
    dc_dns_query_A_parse rcodeResponse.bytes (rcodeResponse.bytes.length : Int) 0x1234
      [9, 9, 9, 9] = (-1, [9, 9, 9, 9]) :=
  parse_rejects_rcode rcodeResponse.bytes (rcodeResponse.bytes.length : Int) 0x1234
    [9, 9, 9, 9] (by decide) (by decide) (by decide)

/-- C9, as stated, fails: `cutResponse` ends with an answer record that
declares four bytes of data while the received bytes end after two of them,
and the parser succeeds on it, with the address of the A record that comes
first. -/
theorem parse_accepts_before_cut_record :
    cutResponse.answers = [sampleA] ++ [cutRecord] ∧ cutResponse.rest = [] ∧
      cutRecord.Truncated ∧ (∀ q ∈ cutResponse.questions, q.WellFormed) ∧
      (∀ b ∈ [sampleA], b.WellFormed) ∧
      dc_dns_query_A_parse cutResponse.bytes (cutResponse.bytes.length : Int) cutResponse.id
        [0, 0, 0, 0] = (0, [93, 184, 216, 34]) := by
  refine ⟨rfl, rfl, by decide, by decide, by decide, ?_⟩
  decide

/-- C9, amended: for every response that has, among the answer records its
header counts, a record whose declared resource-data length would extend past
the end of the received bytes, and no record of type A, class IN and length 4
before that one, the parser fails and the output address keeps its value,
whatever the identifier and the flags. -/
theorem parse_rejects_cut_record (m : Response) (pre : List Record) (t : Record) (id : Nat)
    (stale out0 : List Nat)
    (hqd : m.questions.length < 65536) (han : m.answers.length < 65536)
    (hq : ∀ q ∈ m.questions, q.WellFormed)
    (hans : m.answers = pre ++ [t]) (hrest : m.rest = [])
    (hpre : ∀ b ∈ pre, b.WellFormed ∧ ¬ b.IsA) (ht : t.Truncated) :
    dc_dns_query_A_parse (m.bytes ++ stale) (m.bytes.length : Int) id out0 = (-1, out0) := by
  rcases parse_counts m hqd han id stale out0 with h | h
  · exact h
  rw [h]
  obtain ⟨hname, htype, hclass, httl, hrdlen, hdata⟩ := ht
  have htblen := record_bytes_length t httl
  have hbytes : m.bytes ++ stale = m.header ++ (questionsBytes m.questions ++
      (recordsBytes m.answers ++ m.rest ++ stale)) := by
    simp [Response.bytes]
  have hbytes2 : m.bytes ++ stale = (m.header ++ questionsBytes m.questions) ++
      (recordsBytes pre ++ (t.bytes ++ stale)) := by
    rw [hbytes, hans, hrest, recordsBytes_append]
    simp [recordsBytes]
  have hbytes3 : m.bytes ++ stale =
      ((m.header ++ questionsBytes m.questions) ++ recordsBytes pre) ++ (t.bytes ++ stale) := by
    rw [hbytes2]
    simp
  have hlen : m.bytes.length = 12 + (questionsBytes m.questions).length +
      ((recordsBytes pre).length + t.bytes.length) := by
    simp only [Response.bytes, hans, hrest, recordsBytes_append, recordsBytes,
      List.length_append, header_length, List.length_nil]
    omega
  have hqs := skipQuestions_wire m.questions m.header
    (recordsBytes m.answers ++ m.rest ++ stale) m.bytes.length hq
    (by rw [header_length]; omega)
  rw [← hbytes, header_length] at hqs
  rw [hqs]
  by_cases hq63 : ∀ q ∈ m.questions, q.name.labels.length ≤ 63
  swap
  · rw [if_neg hq63]
  rw [if_pos hq63]
  simp only []
  have hs := answersLoop_skip pre (m.header ++ questionsBytes m.questions)
    (t.bytes ++ stale) m.bytes.length m.answers.length hpre
    (by simp only [List.length_append, header_length]; omega)
  have hP : (m.header ++ questionsBytes m.questions).length =
      12 + (questionsBytes m.questions).length := by
    simp only [List.length_append, header_length]
  rw [← hbytes2, hP] at hs
  rw [hs]
  by_cases hp63 : (∀ b ∈ pre, b.name.labels.length ≤ 63) ∧ pre.length ≤ m.answers.length
  swap
  · rw [if_neg hp63]
  rw [if_pos hp63]
  have hn : m.answers.length - pre.length = 0 + 1 := by
    simp [hans]
  rw [hn, answersLoop_succ]
  have hview := recordAt_wire t ((m.header ++ questionsBytes m.questions) ++ recordsBytes pre)
    stale m.bytes.length hname htype hclass httl hrdlen
    (by simp only [List.length_append, header_length]; omega)
  have hP3 : ((m.header ++ questionsBytes m.questions) ++ recordsBytes pre).length =
      12 + (questionsBytes m.questions).length + (recordsBytes pre).length := by
    simp only [List.length_append, header_length]
  rw [← hbytes3, hP3] at hview
  rw [hview]
  by_cases ht63 : t.name.labels.length ≤ 63
  swap
  · rw [if_neg ht63]
  rw [if_pos ht63]
  simp only []
  rw [if_pos (by omega)]

theorem parse_rejects_cut_record_witness :
    dc_dns_query_A_parse (cutCnameResponse.bytes ++ [7, 7])
      (cutCnameResponse.bytes.length : Int) 0x1234 [9, 9, 9, 9] = (-1, [9, 9, 9, 9]) :=
  parse_rejects_cut_record cutCnameResponse [sampleCname] cutRecord 0x1234 [7, 7] [9, 9, 9, 9]
    (by decide) (by decide) (by decide) rfl rfl (by decide) (by decide)

/-- C10: whenever the parser succeeds, the address it outputs is the four-byte
data of the first record of type 1, class 1 and declared length 4 among the
first ANCOUNT answer records in message order, each record starting where the
declared length of the one before ends (`recordsFrom`); when there is no such
record among them, and in particular when ANCOUNT is 0, the parser fails and
the output address keeps its value. -/
theorem parse_first_A (pkt : List Nat) (r : Int) (id : Nat) (out0 : List Nat) :
    (∀ addr, dc_dns_query_A_parse pkt r id out0 = (0, addr) →
      ∃ q v, skipQuestions pkt r.toNat (be16 (byteAt pkt 4) (byteAt pkt 5)) 12 = some q ∧
        (recordsFrom pkt r.toNat (be16 (byteAt pkt 6) (byteAt pkt 7)) q).find? RecView.isA =
          some v ∧
        addr = v.addr pkt) ∧
    ((∀ q, skipQuestions pkt r.toNat (be16 (byteAt pkt 4) (byteAt pkt 5)) 12 = some q →
        (recordsFrom pkt r.toNat (be16 (byteAt pkt 6) (byteAt pkt 7)) q).find? RecView.isA =
          none) →
      dc_dns_query_A_parse pkt r id out0 = (-1, out0)) ∧
    (be16 (byteAt pkt 6) (byteAt pkt 7) = 0 →
      dc_dns_query_A_parse pkt r id out0 = (-1, out0)) := by
  have key : dc_dns_query_A_parse pkt r id out0 = (-1, out0) ∨
      ∃ q, skipQuestions pkt r.toNat (be16 (byteAt pkt 4) (byteAt pkt 5)) 12 = some q ∧
        dc_dns_query_A_parse pkt r id out0 =
          match ((recordsFrom pkt r.toNat (be16 (byteAt pkt 6) (byteAt pkt 7)) q).find?
              RecView.isA).map (RecView.addr pkt) with
          | none => (-1, out0)
          | some a => (0, a) := by
    unfold dc_dns_query_A_parse
    by_cases hr : r < 12
    · rw [if_pos hr]; exact Or.inl rfl
    rw [if_neg hr]
    by_cases hid : ((byteAt pkt 0 <<< 8) ||| byteAt pkt 1) ≠ id
    · rw [if_pos hid]; exact Or.inl rfl
    rw [if_neg hid]
    simp only []
    by_cases hrc : be16 (byteAt pkt 2) (byteAt pkt 3) &&& 0x000F ≠ 0
    · rw [if_pos hrc]; exact Or.inl rfl
    rw [if_neg hrc]
    cases hq : skipQuestions pkt r.toNat (be16 (byteAt pkt 4) (byteAt pkt 5)) 12 with
    | none => exact Or.inl rfl
    | some q =>
      right
      refine ⟨q, rfl, ?_⟩
      simp only []
      rw [answersLoop_eq_find]
  refine ⟨?_, ?_, ?_⟩
  · intro addr hres
    rcases key with h | ⟨q, hq, h⟩
    · rw [h] at hres
      simp at hres
    · rw [h] at hres
      cases hf : (recordsFrom pkt r.toNat (be16 (byteAt pkt 6) (byteAt pkt 7)) q).find?
          RecView.isA with
      | none =>
        rw [hf] at hres
        simp at hres
      | some v =>
        rw [hf] at hres
        simp only [Option.map_some', Prod.mk.injEq, true_and] at hres
        exact ⟨q, v, hq, hf, hres.symm⟩
  · intro hnone
    rcases key with h | ⟨q, hq, h⟩
    · exact h
    · rw [h, hnone q hq]
      rfl
  · intro han
    rcases key with h | ⟨q, hq, h⟩
    · exact h
    · rw [h, han]
      rfl

theorem parse_first_A_witness :
    ∃ q v, skipQuestions sampleResponse.bytes ((sampleResponse.bytes.length : Nat) : Int).toNat
          (be16 (byteAt sampleResponse.bytes 4) (byteAt sampleResponse.bytes 5)) 12 = some q ∧
        (recordsFrom sampleResponse.bytes ((sampleResponse.bytes.length : Nat) : Int).toNat
          (be16 (byteAt sampleResponse.bytes 6) (byteAt sampleResponse.bytes 7)) q).find?
            RecView.isA = some v ∧
        [93, 184, 216, 34] = v.addr sampleResponse.bytes :=
  (parse_first_A sampleResponse.bytes (sampleResponse.bytes.length : Int) 0x1234
    [0, 0, 0, 0]).1 [93, 184, 216, 34] (by decide)

theorem byteAt_append_left (a b : List Nat) (i : Nat) (h : i < a.length) :
    byteAt (a ++ b) i = byteAt a i := by
  unfold byteAt
  rw [List.getD_append _ _ _ _ h]

/-- C11: two packet buffers that agree on their first `r` bytes give the same
result and the same output address, for every received length `r` (so bytes
at or beyond `r`, such as the bytes of the query left in the buffer, never
influence the parser); and every length byte `dc_dns_skip_name` examines for
the parser lies at an index below `r`. -/
theorem parse_reads_below_r (pkt pkt2 : List Nat) (r : Int) (id : Nat) (out0 : List Nat)
    (hagree : ∀ i : Nat, (i : Int) < r → byteAt pkt2 i = byteAt pkt i) :
    dc_dns_query_A_parse pkt2 r id out0 = dc_dns_query_A_parse pkt r id out0 ∧
      ∀ (steps off : Nat), ∀ p ∈ skipNameReads pkt r.toNat steps off, (p : Int) < r := by
  constructor
  · unfold dc_dns_query_A_parse
    by_cases hr : r < 12
    · rw [if_pos hr, if_pos hr]
    rw [if_neg hr, if_neg hr]
    have hnat : ∀ i, i < r.toNat → byteAt pkt2 i = byteAt pkt i := by
      intro i hi
      exact hagree i (by omega)
    rw [hagree 0 (by omega), hagree 1 (by omega), hagree 2 (by omega), hagree 3 (by omega),
      hagree 4 (by omega), hagree 5 (by omega), hagree 6 (by omega), hagree 7 (by omega)]
    simp only [skipQuestions_agree pkt pkt2 r.toNat hnat, answersLoop_agree pkt pkt2 r.toNat hnat]
  · intro steps off p hp
    have := skipNameReads_lt pkt r.toNat steps off p hp
    omega

theorem parse_reads_below_r_witness :
    dc_dns_query_A_parse (sampleResponse.bytes ++ [8, 9, 10])
        (sampleResponse.bytes.length : Int) 0x1234 [0, 0, 0, 0] =
      dc_dns_query_A_parse (sampleResponse.bytes ++ [7, 7])
        (sampleResponse.bytes.length : Int) 0x1234 [0, 0, 0, 0] ∧
      ∀ (steps off : Nat), ∀ p ∈ skipNameReads (sampleResponse.bytes ++ [7, 7])
        ((sampleResponse.bytes.length : Nat) : Int).toNat steps off,
        (p : Int) < (sampleResponse.bytes.length : Int) :=
  parse_reads_below_r (sampleResponse.bytes ++ [7, 7]) (sampleResponse.bytes ++ [8, 9, 10])
    (sampleResponse.bytes.length : Int) 0x1234 [0, 0, 0, 0]
    (fun i hi => by
      have h : i < sampleResponse.bytes.length := by exact_mod_cast hi
      rw [byteAt_append_left _ _ i h, byteAt_append_left _ _ i h])

/-! ## The claims on the name skipper -/

/-- C12, as stated, fails: `name64` is an uncompressed name of 64 labels of
one byte followed by a zero-length label, it lies inside a buffer of 129
bytes, and `dc_dns_skip_name` fails on it and leaves the cursor at 0. -/
theorem skip_name_rejects_64_labels :
    LabelsOk (List.replicate 64 [97]) ∧
      name64 = [] ++ (labelBytes (List.replicate 64 [97]) ++ [0] ++ []) ∧
      ([] : List Nat).length + nameLen (List.replicate 64 [97]) + 1 ≤ 129 ∧
      dc_dns_skip_name name64 129 0 = (-1, 0) := by
  refine ⟨by decide, by decide, by decide, ?_⟩
  decide

/-- C12, amended: at every cursor at which an uncompressed name of at most 63
ordinary labels (each of 1 to 63 bytes) and a zero-length label starts and
lies inside the buffer, `dc_dns_skip_name` succeeds and advances the cursor by
exactly `sum (len_i + 1) + 1`; the new cursor is greater than the old one and
at most `msg_len`. -/
theorem skip_name_uncompressed (pre post : List Nat) (labels : List (List Nat)) (msg_len : Nat)
    (hok : LabelsOk labels) (h63 : labels.length ≤ 63)
    (hin : pre.length + nameLen labels + 1 ≤ msg_len) :
    dc_dns_skip_name (pre ++ (labelBytes labels ++ [0] ++ post)) msg_len pre.length =
        (0, pre.length + nameLen labels + 1) ∧
      pre.length < pre.length + nameLen labels + 1 ∧
      pre.length + nameLen labels + 1 ≤ msg_len := by
  refine ⟨?_, by omega, hin⟩
  have hlen : (labelBytes labels ++ NameEnd.zero.bytes).length = nameLen labels + 1 := by
    simp [NameEnd.bytes, labelBytes_length]
  have h := skipNameLoop_wire NameEnd.zero trivial labels pre post msg_len 64 hok
    (by rw [hlen]; omega)
  rw [if_pos (by omega), hlen] at h
  unfold dc_dns_skip_name
  have hb : NameEnd.zero.bytes = [0] := rfl
  rw [hb] at h
  rw [h]
  rfl

theorem skip_name_uncompressed_witness :
    dc_dns_skip_name ([7, 7] ++ (labelBytes [[97], [98, 99]] ++ [0] ++ [0, 1, 0, 1])) 8
        ([7, 7] : List Nat).length =
        (0, ([7, 7] : List Nat).length + nameLen [[97], [98, 99]] + 1) ∧
      ([7, 7] : List Nat).length < ([7, 7] : List Nat).length + nameLen [[97], [98, 99]] + 1 ∧
      ([7, 7] : List Nat).length + nameLen [[97], [98, 99]] + 1 ≤ 8 :=
  skip_name_uncompressed [7, 7] [0, 1, 0, 1] [[97], [98, 99]] 8 (by decide) (by decide)
    (by decide)

/-- C13: when `dc_dns_skip_name` meets at position `p`, possibly after some
ordinary labels, a byte whose top two bits are set, and `p + 1` is below
`msg_len`, it succeeds with the cursor `p + 2`; the length bytes it examined
lie at or before `p`, and it gives the same result on every buffer that has
the same bytes at those positions, whatever the second byte of the pointer and
the bytes at the offset the pointer designates are. -/
theorem skip_name_pointer (msg : List Nat) (msg_len off p : Nat)
    (hmeet : p ∈ skipNameReads msg msg_len 64 off)
    (hptr : byteAt msg p &&& 0xC0 = 0xC0) (hin : p + 1 < msg_len) :
    dc_dns_skip_name msg msg_len off = (0, p + 2) ∧
      (∀ msg2 : List Nat,
        (∀ i ∈ skipNameReads msg msg_len 64 off, byteAt msg2 i = byteAt msg i) →
        dc_dns_skip_name msg2 msg_len off = (0, p + 2)) ∧
      (∀ msg2 : List Nat, (∀ i, off ≤ i → i ≤ p → byteAt msg2 i = byteAt msg i) →
        dc_dns_skip_name msg2 msg_len off = (0, p + 2)) := by
  have h := skipNameLoop_pointer msg msg_len 64 off p hmeet hptr hin
  have hsame : ∀ msg2 : List Nat,
      (∀ i ∈ skipNameReads msg msg_len 64 off, byteAt msg2 i = byteAt msg i) →
      dc_dns_skip_name msg2 msg_len off = (0, p + 2) := by
    intro msg2 hagree
    unfold dc_dns_skip_name
    rw [skipNameLoop_congr msg msg2 msg_len 64 off hagree, h]
  refine ⟨?_, hsame, ?_⟩
  · unfold dc_dns_skip_name
    rw [h]
  · intro msg2 hagree
    apply hsame
    intro i hi
    apply hagree i (skipNameReads_ge msg msg_len 64 off i hi)
    exact skipNameReads_le_pointer msg msg_len 64 off p hmeet hptr i hi

theorem skip_name_pointer_witness :
    dc_dns_skip_name [1, 97, 0xC0, 12, 0, 1] 6 0 = (0, 2 + 2) ∧
      (∀ msg2 : List Nat,
        (∀ i ∈ skipNameReads [1, 97, 0xC0, 12, 0, 1] 6 64 0,
          byteAt msg2 i = byteAt [1, 97, 0xC0, 12, 0, 1] i) →
        dc_dns_skip_name msg2 6 0 = (0, 2 + 2)) ∧
      (∀ msg2 : List Nat,
        (∀ i, 0 ≤ i → i ≤ 2 → byteAt msg2 i = byteAt [1, 97, 0xC0, 12, 0, 1] i) →
        dc_dns_skip_name msg2 6 0 = (0, 2 + 2)) :=
  skip_name_pointer [1, 97, 0xC0, 12, 0, 1] 6 0 2 (by decide) (by decide) (by decide)

/-- C14: `dc_dns_skip_name` fails when the start cursor is at or past
`msg_len`, and when it meets, at a position `p`, a length byte from 64 to 191,
the length byte of a label whose bytes would extend past `msg_len`, the length
byte of a label that ends exactly at `msg_len` (the end of the buffer comes
before a terminator), or a compression pointer whose second byte lies at or
past `msg_len`; and whenever it fails the cursor of the caller keeps its
value. -/
theorem skip_name_failures (msg : List Nat) (msg_len off : Nat) :
    (msg_len ≤ off → dc_dns_skip_name msg msg_len off = (-1, off)) ∧
    (∀ p ∈ skipNameReads msg msg_len 64 off,
      ((64 ≤ byteAt msg p ∧ byteAt msg p ≤ 191) ∨
        (1 ≤ byteAt msg p ∧ byteAt msg p ≤ 63 ∧ msg_len < p + 1 + byteAt msg p) ∨
        (1 ≤ byteAt msg p ∧ byteAt msg p ≤ 63 ∧ msg_len = p + 1 + byteAt msg p) ∨
        (byteAt msg p &&& 0xC0 = 0xC0 ∧ msg_len ≤ p + 1)) →
      dc_dns_skip_name msg msg_len off = (-1, off)) ∧
    ((dc_dns_skip_name msg msg_len off).1 ≠ 0 →
      dc_dns_skip_name msg msg_len off = (-1, off)) := by
  refine ⟨?_, ?_, ?_⟩
  · intro h
    unfold dc_dns_skip_name
    rw [skipNameLoop_of_ge msg msg_len 64 off h]
  · intro p hp hbad
    unfold dc_dns_skip_name
    rw [skipNameLoop_bad msg msg_len 64 off p hp (by
      rcases hbad with h | ⟨h1, h2, h3⟩ | ⟨h1, h2, h3⟩ | h
      · exact Or.inl h
      · exact Or.inr (Or.inl ⟨h1, h2, by omega⟩)
      · exact Or.inr (Or.inl ⟨h1, h2, by omega⟩)
      · exact Or.inr (Or.inr h))]
  · unfold dc_dns_skip_name
    cases skipNameLoop msg msg_len 64 off with
    | none => intro _; rfl
    | some o => intro h; exact absurd rfl h

theorem skip_name_failures_witness :
    dc_dns_skip_name [1, 97, 70, 98, 0] 5 0 = (-1, 0) :=
  (skip_name_failures [1, 97, 70, 98, 0] 5 0).2.1 2 (by decide) (Or.inl (by decide))

/-- C15: `dc_dns_skip_name` examines at most 64 length bytes on every input;
a well-formed name that lies inside the message and ends, with a zero-length
label or a compression pointer, after at most 63 ordinary labels (within 64
steps) is accepted, with the cursor right behind it, and one with 64 or more
ordinary labels before its end is refused. -/
theorem skip_name_step_bound :
    (∀ (msg : List Nat) (msg_len off : Nat),
      (skipNameReads msg msg_len 64 off).length ≤ 64) ∧
    (∀ (n : WireName) (pre post : List Nat) (msg_len : Nat),
      n.WellFormed → pre.length + n.bytes.length ≤ msg_len →
      (n.labels.length ≤ 63 →
        dc_dns_skip_name (pre ++ (n.bytes ++ post)) msg_len pre.length =
          (0, pre.length + n.bytes.length)) ∧
      (64 ≤ n.labels.length →
        dc_dns_skip_name (pre ++ (n.bytes ++ post)) msg_len pre.length =
          (-1, pre.length))) := by
  refine ⟨fun msg msg_len off => skipNameReads_length msg msg_len 64 off, ?_⟩
  intro n pre post msg_len hwf hin
  have h := skip_name_wire n hwf pre post msg_len hin
  constructor
  · intro h63
    rw [h, if_pos h63]
  · intro h64
    rw [h, if_neg (by omega)]

theorem skip_name_step_bound_witness :
    dc_dns_skip_name ([] ++ (sampleQuestion.name.bytes ++ [0, 1, 0, 1])) 9
        ([] : List Nat).length = (0, ([] : List Nat).length + sampleQuestion.name.bytes.length) :=
  (skip_name_step_bound.2 sampleQuestion.name [] [0, 1, 0, 1] 9 (by decide) (by decide)).1
    (by decide)

/-! ## The claims on the resolver transport -/

/-- The encoder always returns: with the fuel `strlen(host) + 1` the model of
its loop never runs out of fuel. -/
theorem build_query_total (out_len id : Nat) (host : List Nat) :
    ∃ n log, dc_dns_build_query out_len id host = some (n, log) := by
  by_cases h12 : out_len < 12
  · exact ⟨-1, [], by unfold dc_dns_build_query; rw [if_pos h12]⟩
  · obtain ⟨bytes, _, hc⟩ := build_query_cases out_len id host (by omega)
    rcases hc with hc | ⟨hc, _⟩
    · exact ⟨_, _, hc⟩
    · exact ⟨_, _, hc⟩

/-- C16: when no network device is present, or the configured DNS server is
0.0.0.0, `dc_dns_query_A` fails for every host name without any call to the
socket interface (no `socket`, `sendto`, `select`, `recvfrom` or `close`), and
leaves the output address, and the identifier counter, as they were. -/
theorem query_A_unset_server (env : NetEnv) (next_id : Nat) (host out_addr : List Nat) :
    dc_dns_query_A none env next_id host out_addr = some ⟨-1, out_addr, next_id, []⟩ ∧
      dc_dns_query_A (some [0, 0, 0, 0]) env next_id host out_addr =
        some ⟨-1, out_addr, next_id, []⟩ := by
  constructor
  · rfl
  · unfold dc_dns_query_A
    simp [byteAt]

/-- C17: in every execution of `dc_dns_query_A` the function returns, and
when `socket` was called and returned a descriptor, that descriptor is closed
exactly once, by the last call made, and nothing else is closed; when
`socket` failed no other call is made; and when the server is unset or the
encoder rejects the host name no call is made at all, so no socket is opened. -/
theorem query_A_closes_socket (dev : Option (List Nat)) (env : NetEnv) (next_id : Nat)
    (host out_addr : List Nat) :
    ∃ q, dc_dns_query_A dev env next_id host out_addr = some q ∧
      (SockOp.socket ∈ q.trace → 0 ≤ env.socketRet →
        q.trace.count SockOp.socket = 1 ∧
        q.trace.count (SockOp.close env.socketRet) = 1 ∧
        q.trace.getLast? = some (SockOp.close env.socketRet) ∧
        ∀ fd, SockOp.close fd ∈ q.trace → fd = env.socketRet) ∧
      (SockOp.socket ∈ q.trace → env.socketRet < 0 → q.trace = [SockOp.socket]) ∧
      (SockOp.socket ∉ q.trace → q.trace = []) ∧
      ((dev = none ∨ dev = some [0, 0, 0, 0]) → q.trace = []) ∧
      (∀ log, dc_dns_build_query DC_DNS_MAX_PACKET ((next_id + 1) % 65536) host =
        some (-1, log) → q.trace = []) := by
  cases dev with
  | none => exact ⟨_, rfl, by simp, by simp, by simp, by simp, by simp⟩
  | some dns =>
    unfold dc_dns_query_A
    by_cases hz : byteAt dns 0 = 0 ∧ byteAt dns 1 = 0 ∧ byteAt dns 2 = 0 ∧ byteAt dns 3 = 0
    · simp only [if_pos hz]
      exact ⟨_, rfl, by simp, by simp, by simp, by simp, by simp⟩
    have hz' : dns ≠ [0, 0, 0, 0] := by
      rintro rfl
      exact hz (by simp [byteAt])
    simp only [if_neg hz]
    obtain ⟨n, log, hb⟩ := build_query_total DC_DNS_MAX_PACKET ((next_id + 1) % 65536) host
    rw [hb]
    simp only []
    by_cases hn : n < 0
    · simp only [if_pos hn]
      exact ⟨_, rfl, by simp, by simp, by simp, by simp, by simp⟩
    simp only [if_neg hn]
    have hlog : ∀ log2, ¬ (some (n, log) = some ((-1 : Int), log2)) := by
      intro log2 h
      simp only [Option.some.injEq, Prod.mk.injEq] at h
      omega
    by_cases hs : env.socketRet < 0
    · simp only [if_pos hs]
      refine ⟨_, rfl, ?_, by simp, by simp, by simp [hz'], ?_⟩
      · intro _ h0; omega
      · intro log2 h; exact absurd h (hlog log2)
    simp only [if_neg hs]
    by_cases hsend : env.sendtoRet < 0
    · simp only [if_pos hsend]
      refine ⟨_, rfl, ?_, ?_, by simp, by simp [hz'], ?_⟩
      · intro _ _; simp [List.count_cons]
      · intro _ h0; omega
      · intro log2 h; exact absurd h (hlog log2)
    simp only [if_neg hsend]
    by_cases hsel : env.selectRet ≤ 0
    · simp only [if_pos hsel]
      refine ⟨_, rfl, ?_, ?_, by simp, by simp [hz'], ?_⟩
      · intro _ _; simp [List.count_cons]
      · intro _ h0; omega
      · intro log2 h; exact absurd h (hlog log2)
    simp only [if_neg hsel]
    refine ⟨_, rfl, ?_, ?_, by simp, by simp [hz'], ?_⟩
    · intro _ _; simp [List.count_cons]
    · intro _ h0; omega
    · intro log2 h; exact absurd h (hlog log2)

theorem query_A_closes_socket_witness :
    ∃ q, dc_dns_query_A (some [8, 8, 8, 8]) sampleNet 0x1233 [97, 46, 98, 99] [0, 0, 0, 0] =
        some q ∧ q.ret = 0 ∧ q.out_addr = [93, 184, 216, 34] ∧
      q.trace.count (SockOp.close sampleNet.socketRet) = 1 := by
  obtain ⟨q, hq, h1, _⟩ := query_A_closes_socket (some [8, 8, 8, 8]) sampleNet 0x1233
    [97, 46, 98, 99] [0, 0, 0, 0]
  have hc : dc_dns_query_A (some [8, 8, 8, 8]) sampleNet 0x1233 [97, 46, 98, 99]
      [0, 0, 0, 0] = some ⟨0, [93, 184, 216, 34], 0x1234,
        [SockOp.socket,
          SockOp.sendto 3 [0x12, 0x34, 1, 0, 0, 1, 0, 0, 0, 0, 0, 0, 1, 97, 2, 98, 99, 0,
            0, 1, 0, 1] [8, 8, 8, 8] 53,
          SockOp.select 3 2, SockOp.recvfrom 3 512, SockOp.close 3]⟩ := by decide
  rw [hc] at hq
  simp only [Option.some.injEq] at hq
  subst hq
  exact ⟨_, hc, rfl, rfl, (h1 (by simp) (by decide)).2.1⟩

/-! ## The claims on the resolver interface -/

theorem is_digit_str_cons_of_not_digit (c : Nat) (cs : List Nat)
    (hc : ¬ (48 ≤ c ∧ c ≤ 57)) : is_digit_str (some (c :: cs)) = false := by
  simp only [is_digit_str, List.all_cons, Bool.and_eq_false_imp, Bool.not_eq_true',
    Bool.or_eq_false_iff, decide_eq_false_iff_not, not_lt, and_imp]
  intro h1 h2
  exact absurd ⟨h1, h2⟩ hc

theorem not_digit_of_lower (c x : Nat) (h : toLowerC c = x) (hx : 97 ≤ x) :
    ¬ (48 ≤ c ∧ c ≤ 57) := by
  unfold toLowerC at h
  split at h <;> omega

theorem service_to_port_http (s : List Nat) (h : s.map toLowerC = strHttp) :
    service_to_port (some s) = 80 := by
  match s, h with
  | c :: cs, h =>
    have hc : toLowerC c = 104 := by
      simp only [List.map_cons, strHttp, List.cons.injEq] at h
      exact h.1
    have hd := is_digit_str_cons_of_not_digit c cs (not_digit_of_lower c 104 hc (by omega))
    have he : strcasecmpEq (c :: cs) strHttp = true := by
      unfold strcasecmpEq
      rw [h]
      decide
    simp only [service_to_port, hd, he, if_true]
    simp

theorem service_to_port_https (s : List Nat) (h : s.map toLowerC = strHttps) :
    service_to_port (some s) = 443 := by
  match s, h with
  | c :: cs, h =>
    have hc : toLowerC c = 104 := by
      simp only [List.map_cons, strHttps, List.cons.injEq] at h
      exact h.1
    have hd := is_digit_str_cons_of_not_digit c cs (not_digit_of_lower c 104 hc (by omega))
    have hn : strcasecmpEq (c :: cs) strHttp = false := by
      unfold strcasecmpEq
      rw [h]
      decide
    have he : strcasecmpEq (c :: cs) strHttps = true := by
      unfold strcasecmpEq
      rw [h]
      decide
    simp only [service_to_port, hd, hn, he, if_true]
    simp

theorem service_to_port_other (s : List Nat) (hd : is_digit_str (some s) = false)
    (h1 : s.map toLowerC ≠ strHttp) (h2 : s.map toLowerC ≠ strHttps) :
    service_to_port (some s) = 0 := by
  have e1 : strcasecmpEq s strHttp = false := by
    unfold strcasecmpEq
    have : strHttp.map toLowerC = strHttp := by decide
    rw [this]
    simpa using h1
  have e2 : strcasecmpEq s strHttps = false := by
    unfold strcasecmpEq
    have : strHttps.map toLowerC = strHttps := by decide
    rw [this]
    simpa using h2
  simp only [service_to_port, hd, e1, e2]
  simp

theorem family_of_ok (hints : Option Hints) :
    FamilyOk hints →
    (match hints with
      | some h => if h.ai_family ≠ AF_UNSPEC then h.ai_family else AF_INET
      | none => AF_INET) = AF_INET := by
  intro hfam
  rcases hfam with rfl | ⟨h, rfl, hf | hf⟩
  · rfl
  · simp [hf]
  · simp only [hf]
    split <;> rfl

/-- The resolver interface when the family is accepted, the service gives a
port, the node resolves and both allocations succeed: one entry is returned. -/
theorem getaddrinfo_ok (E : GaiEnv) (next_id : Nat) (node service : Option (List Nat))
    (hints : Option Hints) (q : QueryResult) (hfam : FamilyOk hints)
    (hport : service.isSome = true → service_to_port service ≠ 0)
    (hres : resolveNode E next_id node = some q) (hq : 0 ≤ q.ret)
    (halloc : E.calloc_ai = true ∧ E.calloc_sin = true) :
    ∃ ai, dc_getaddrinfo_impl E next_id node service hints true =
        some ⟨0, some [ai], q.next_id, q.trace⟩ ∧
      ai.ai_family = AF_INET ∧ ai.ai_addr.sin_family = AF_INET ∧
      ai.ai_addr.sin_port = htonsBytes (service_to_port service) ∧
      ai.ai_addr.sin_addr = q.out_addr ∧ ai.ai_canonname = none := by
  have hp : ¬ (service.isSome = true ∧ service_to_port service = 0) :=
    fun h => hport h.1 h.2
  have hqr : ¬ q.ret < 0 := by omega
  have hal : ¬ (E.calloc_ai = false ∨ E.calloc_sin = false) := by
    rw [halloc.1, halloc.2]
    simp
  unfold dc_getaddrinfo_impl
  rw [if_neg (by simp)]
  simp only []
  rw [family_of_ok hints hfam, if_neg (by simp), if_neg hp, hres]
  simp only []
  rw [if_neg hqr, if_neg hal]
  exact ⟨_, rfl, rfl, rfl, rfl, rfl, rfl⟩

/-- The resolver interface when the family is accepted and the service is
present and gives no port. -/
theorem getaddrinfo_service_fails (E : GaiEnv) (next_id : Nat) (node : Option (List Nat))
    (s : List Nat) (hints : Option Hints) (hfam : FamilyOk hints)
    (hport : service_to_port (some s) = 0) :
    dc_getaddrinfo_impl E next_id node (some s) hints true =
      some ⟨EAI_SERVICE, some [], next_id, []⟩ := by
  unfold dc_getaddrinfo_impl
  rw [if_neg (by simp)]
  simp only []
  rw [family_of_ok hints hfam, if_neg (by simp), if_pos ⟨rfl, hport⟩]

theorem is_digit_str_iff (s : List Nat) : is_digit_str (some s) = true ↔ IsNumeric s := by
  cases s with
  | nil => simp [is_digit_str, IsNumeric]
  | cons c cs =>
    simp only [is_digit_str, IsNumeric, List.all_eq_true, Bool.not_eq_true',
      Bool.or_eq_false_iff, decide_eq_false_iff_not, not_lt, ne_eq, reduceCtorEq,
      not_false_eq_true, true_and]

/-- C18: for every host, service and environment, when hints are given with a
family that is neither `AF_UNSPEC` nor `AF_INET`, `dc_getaddrinfo_impl`
returns `EAI_FAMILY` with an empty result list, the same for every service,
without any call to the socket interface and without taking an identifier;
and when the hints are absent, or their family is `AF_UNSPEC` or `AF_INET`,
it never returns `EAI_FAMILY`. -/
theorem getaddrinfo_family (E : GaiEnv) (next_id : Nat) (node service : Option (List Nat))
    (hints : Option Hints) :
    (∀ h, hints = some h → h.ai_family ≠ AF_UNSPEC → h.ai_family ≠ AF_INET →
      dc_getaddrinfo_impl E next_id node service hints true =
        some ⟨EAI_FAMILY, some [], next_id, []⟩) ∧
    (FamilyOk hints → ∀ (res_given : Bool) (g : GaiResult),
      dc_getaddrinfo_impl E next_id node service hints res_given = some g →
      g.ret ≠ EAI_FAMILY) := by
  constructor
  · intro h hh h1 h2
    subst hh
    unfold dc_getaddrinfo_impl
    rw [if_neg (by simp)]
    simp only []
    rw [if_pos h1, if_pos h2]
  · intro hfam res_given g hg
    unfold dc_getaddrinfo_impl at hg
    by_cases hr : res_given = false
    · rw [if_pos hr] at hg
      simp only [Option.some.injEq] at hg
      rw [← hg]
      exact (by decide : EAI_FAIL ≠ EAI_FAMILY)
    rw [if_neg hr] at hg
    simp only [] at hg
    rw [family_of_ok hints hfam, if_neg (by simp)] at hg
    by_cases hs : service.isSome = true ∧ service_to_port service = 0
    · rw [if_pos hs] at hg
      simp only [Option.some.injEq] at hg
      rw [← hg]
      exact (by decide : EAI_SERVICE ≠ EAI_FAMILY)
    rw [if_neg hs] at hg
    cases hq : resolveNode E next_id node with
    | none =>
      rw [hq] at hg
      simp at hg
    | some q =>
      rw [hq] at hg
      simp only [] at hg
      by_cases hqr : q.ret < 0
      · rw [if_pos hqr] at hg
        simp only [Option.some.injEq] at hg
        rw [← hg]
        exact (by decide : EAI_NONAME ≠ EAI_FAMILY)
      rw [if_neg hqr] at hg
      by_cases hal : E.calloc_ai = false ∨ E.calloc_sin = false
      · rw [if_pos hal] at hg
        simp only [Option.some.injEq] at hg
        rw [← hg]
        exact (by decide : EAI_FAIL ≠ EAI_FAMILY)
      rw [if_neg hal] at hg
      simp only [Option.some.injEq] at hg
      rw [← hg]
      exact (by decide : (0 : Int) ≠ EAI_FAMILY)

theorem getaddrinfo_family_witness :
    dc_getaddrinfo_impl sampleGaiEnv 7 (some strNumericHost) (some strHttp)
        (some ⟨10, 1, 0⟩) true = some ⟨EAI_FAMILY, some [], 7, []⟩ :=
  (getaddrinfo_family sampleGaiEnv 7 (some strNumericHost) (some strHttp)
    (some ⟨10, 1, 0⟩)).1 ⟨10, 1, 0⟩ rfl (by decide) (by decide)

/-- C19: with hints that accept IPv4, a host that resolves and allocations
that succeed, `dc_getaddrinfo_impl` succeeds with port 80 for every service
that is `http` in any mix of upper and lower case, with port 443 for every
service that is `https` in any mix of case, and with port 80 for the service
`80`, the port being stored in network byte order; and with hints that accept
IPv4 it returns `EAI_SERVICE` with an empty result list for every service
string that is neither purely numeric nor one of these two names. -/
theorem getaddrinfo_service_ports (E : GaiEnv) (next_id : Nat) (node : Option (List Nat))
    (hints : Option Hints) (hfam : FamilyOk hints) :
    (∀ q, resolveNode E next_id node = some q → 0 ≤ q.ret →
      E.calloc_ai = true ∧ E.calloc_sin = true →
      (∀ s, s.map toLowerC = strHttp →
        ∃ ai, dc_getaddrinfo_impl E next_id node (some s) hints true =
            some ⟨0, some [ai], q.next_id, q.trace⟩ ∧
          ai.ai_addr.sin_port = [0, 80]) ∧
      (∀ s, s.map toLowerC = strHttps →
        ∃ ai, dc_getaddrinfo_impl E next_id node (some s) hints true =
            some ⟨0, some [ai], q.next_id, q.trace⟩ ∧
          ai.ai_addr.sin_port = [1, 187]) ∧
      (∃ ai, dc_getaddrinfo_impl E next_id node (some [56, 48]) hints true =
            some ⟨0, some [ai], q.next_id, q.trace⟩ ∧
          ai.ai_addr.sin_port = [0, 80])) ∧
    (∀ s, ¬ IsNumeric s → s.map toLowerC ≠ strHttp → s.map toLowerC ≠ strHttps →
      dc_getaddrinfo_impl E next_id node (some s) hints true =
        some ⟨EAI_SERVICE, some [], next_id, []⟩) := by
  constructor
  · intro q hres hq halloc
    refine ⟨?_, ?_, ?_⟩
    · intro s hs
      have hp := service_to_port_http s hs
      obtain ⟨ai, h1, _, _, h4, _⟩ := getaddrinfo_ok E next_id node (some s) hints q hfam
        (by intro _; rw [hp]; decide) hres hq halloc
      exact ⟨ai, h1, by rw [h4, hp]; rfl⟩
    · intro s hs
      have hp := service_to_port_https s hs
      obtain ⟨ai, h1, _, _, h4, _⟩ := getaddrinfo_ok E next_id node (some s) hints q hfam
        (by intro _; rw [hp]; decide) hres hq halloc
      exact ⟨ai, h1, by rw [h4, hp]; rfl⟩
    · have hp : service_to_port (some [56, 48]) = 80 := by decide
      obtain ⟨ai, h1, _, _, h4, _⟩ := getaddrinfo_ok E next_id node (some [56, 48]) hints q
        hfam (by intro _; rw [hp]; decide) hres hq halloc
      exact ⟨ai, h1, by rw [h4, hp]; rfl⟩
  · intro s hnum h1 h2
    have hd : is_digit_str (some s) = false := by
      rw [← Bool.not_eq_true, is_digit_str_iff]
      exact hnum
    exact getaddrinfo_service_fails E next_id node s hints hfam
      (service_to_port_other s hd h1 h2)

theorem getaddrinfo_service_ports_witness :
    (∃ ai, dc_getaddrinfo_impl sampleGaiEnv 7 (some strNumericHost) (some [72, 116, 84, 112, 83])
        (some ⟨2, 1, 0⟩) true = some ⟨0, some [ai], 7, []⟩ ∧
      ai.ai_addr.sin_port = [1, 187]) ∧
    dc_getaddrinfo_impl sampleGaiEnv 7 (some strNumericHost) (some strBogus) (some ⟨2, 1, 0⟩)
      true = some ⟨EAI_SERVICE, some [], 7, []⟩ :=
  ⟨((getaddrinfo_service_ports sampleGaiEnv 7 (some strNumericHost) (some ⟨2, 1, 0⟩)
      (Or.inr ⟨⟨2, 1, 0⟩, rfl, Or.inr rfl⟩)).1 ⟨0, [1, 2, 3, 4], 7, []⟩ (by decide) (by decide)
      ⟨rfl, rfl⟩).2.1 [72, 116, 84, 112, 83] (by decide),
    (getaddrinfo_service_ports sampleGaiEnv 7 (some strNumericHost) (some ⟨2, 1, 0⟩)
      (Or.inr ⟨⟨2, 1, 0⟩, rfl, Or.inr rfl⟩)).2 strBogus (by decide) (by decide) (by decide)⟩

theorem strtol_fold_cast (s : List Nat) (hnum : ∀ c ∈ s, 48 ≤ c ∧ c ≤ 57) : ∀ (n : Nat),
    s.foldl (fun (acc : Int) (c : Nat) => acc * 10 + ((c : Int) - 48)) (n : Int) =
      ((s.foldl (fun acc c => acc * 10 + (c - 48)) n : Nat) : Int) := by
  induction s with
  | nil => intro n; rfl
  | cons c cs ih =>
    intro n
    have hc := hnum c (List.mem_cons_self _ _)
    have hcs : ∀ c' ∈ cs, 48 ≤ c' ∧ c' ≤ 57 := fun c' h => hnum c' (List.mem_cons_of_mem _ h)
    simp only [List.foldl_cons]
    have e : (n : Int) * 10 + ((c : Int) - 48) = ((n * 10 + (c - 48) : Nat) : Int) := by
      omega
    rw [e, ih hcs]

/-- The port of a purely numeric service: its value when that is at most
65535, and 0 otherwise. -/
theorem service_to_port_numeric (s : List Nat) (hnum : IsNumeric s) :
    service_to_port (some s) = if decimalValue s ≤ 65535 then decimalValue s else 0 := by
  have hd : is_digit_str (some s) = true := (is_digit_str_iff s).2 hnum
  have hv : (s.foldl (fun (acc : Int) (c : Nat) => acc * 10 + ((c : Int) - 48)) 0 : Int) =
      (decimalValue s : Int) := by
    exact strtol_fold_cast s hnum.2 0
  unfold service_to_port
  simp only []
  rw [if_neg hnum.1, if_pos hd]
  unfold strtol10
  simp only [hv, LONG_MAX]
  by_cases h1 : decimalValue s ≤ 65535
  · rw [if_pos h1, if_neg (by omega), if_neg (by omega)]
    omega
  · rw [if_neg h1]
    by_cases h2 : (decimalValue s : Int) > 2147483647
    · rw [if_pos h2, if_pos (by omega)]
    · rw [if_neg h2, if_pos (by omega)]

/-- What holds of C20 on the code: with hints that accept IPv4, a purely
numeric service whose value is from 1 to 65535 gives, for a host that
resolves, one entry with that port in network byte order, and a purely
numeric service whose value is above 65535, or is 0, gives `EAI_SERVICE`. -/
theorem getaddrinfo_numeric_service (E : GaiEnv) (next_id : Nat) (node : Option (List Nat))
    (hints : Option Hints) (s : List Nat) (hfam : FamilyOk hints) (hnum : IsNumeric s) :
    (1 ≤ decimalValue s → decimalValue s ≤ 65535 →
      ∀ q, resolveNode E next_id node = some q → 0 ≤ q.ret →
        E.calloc_ai = true ∧ E.calloc_sin = true →
        ∃ ai, dc_getaddrinfo_impl E next_id node (some s) hints true =
            some ⟨0, some [ai], q.next_id, q.trace⟩ ∧
          ai.ai_addr.sin_port = [decimalValue s / 256, decimalValue s % 256]) ∧
    (65535 < decimalValue s ∨ decimalValue s = 0 →
      dc_getaddrinfo_impl E next_id node (some s) hints true =
        some ⟨EAI_SERVICE, some [], next_id, []⟩) := by
  have hp := service_to_port_numeric s hnum
  constructor
  · intro h1 h2 q hres hq halloc
    rw [if_pos h2] at hp
    obtain ⟨ai, e1, _, _, e4, _⟩ := getaddrinfo_ok E next_id node (some s) hints q hfam
      (by intro _; rw [hp]; omega) hres hq halloc
    refine ⟨ai, e1, ?_⟩
    rw [e4, hp]
    simp only [htonsBytes]
    rw [Nat.mod_eq_of_lt (by omega)]
  · intro h
    apply getaddrinfo_service_fails E next_id node s hints hfam
    rw [hp]
    rcases h with h | h
    · rw [if_neg (by omega)]
    · rw [h]
      rfl

/-- C20, the failing input: the service `"0"` is purely numeric and its value
0 is a port number, the host `"1.2.3.4"` resolves, and `dc_getaddrinfo_impl`
returns `EAI_SERVICE` with an empty result list, because `service_to_port`
returns 0 and the caller takes 0 from a present service as a failure. -/
theorem getaddrinfo_rejects_service_zero :
    IsNumeric [48] ∧ decimalValue [48] = 0 ∧ service_to_port (some [48]) = 0 ∧
      resolveNode sampleGaiEnv 7 (some strNumericHost) = some ⟨0, [1, 2, 3, 4], 7, []⟩ ∧
      dc_getaddrinfo_impl sampleGaiEnv 7 (some strNumericHost) (some [48]) none true =
        some ⟨EAI_SERVICE, some [], 7, []⟩ := by
  refine ⟨by decide, by decide, by decide, by decide, by decide⟩

/-- C21, the failing input: with the empty service string `""` and the host
`"1.2.3.4"`, `dc_getaddrinfo_impl` returns `EAI_SERVICE` with an empty result
list, while with the service absent it succeeds with port 0:
`service_to_port` returns 0 for both, and the caller takes 0 as a failure
whenever the service pointer is not null. -/
theorem getaddrinfo_rejects_empty_service :
    service_to_port (some []) = 0 ∧ service_to_port none = 0 ∧
      dc_getaddrinfo_impl sampleGaiEnv 7 (some strNumericHost) (some []) none true =
        some ⟨EAI_SERVICE, some [], 7, []⟩ ∧
      dc_getaddrinfo_impl sampleGaiEnv 7 (some strNumericHost) none none true =
        some ⟨0, some [⟨0, AF_INET, 0, 0, SIZEOF_SOCKADDR_IN, ⟨AF_INET, [0, 0], [1, 2, 3, 4]⟩,
          none⟩], 7, []⟩ := by
  refine ⟨by decide, by decide, by decide, by decide⟩

/-- The lines 355-364 for a node that `inet_aton` accepts. -/
theorem resolveNode_numeric (E : GaiEnv) (next_id : Nat) (host addr : List Nat)
    (hnum : E.inet_aton host = some addr) :
    resolveNode E next_id (some host) = some ⟨0, addr, next_id, []⟩ := by
  unfold resolveNode
  simp only [hnum]

/-- The lines 355-364 for a node that `inet_aton` refuses. -/
theorem resolveNode_query (E : GaiEnv) (next_id : Nat) (host : List Nat)
    (hnn : E.inet_aton host = none) :
    resolveNode E next_id (some host) = dc_dns_query_A E.dev E.net next_id host E.addr0 := by
  unfold resolveNode
  simp only [hnn]

/-- The resolver interface when the family is accepted, the service is absent
or gives a port, and the resolution of the node fails. -/
theorem getaddrinfo_noname (E : GaiEnv) (next_id : Nat) (node service : Option (List Nat))
    (hints : Option Hints) (q : QueryResult) (hfam : FamilyOk hints)
    (hport : service.isSome = true → service_to_port service ≠ 0)
    (hres : resolveNode E next_id node = some q) (hq : q.ret < 0) :
    dc_getaddrinfo_impl E next_id node service hints true =
      some ⟨EAI_NONAME, some [], q.next_id, q.trace⟩ := by
  have hp : ¬ (service.isSome = true ∧ service_to_port service = 0) :=
    fun h => hport h.1 h.2
  unfold dc_getaddrinfo_impl
  rw [if_neg (by simp)]
  simp only []
  rw [family_of_ok hints hfam, if_neg (by simp), if_neg hp, hres]
  simp only []
  rw [if_pos hq]

/-- C22: for every host string that `inet_aton` accepts, as it does every
string in dotted-decimal form `a.b.c.d`, with the address it gives for it,
`dc_getaddrinfo_impl` with an accepted family and service succeeds with
exactly that address in its single entry, whatever the network device, the
DNS server and the answers of the network are; it makes no call to the socket
interface and leaves the identifier counter as it was. -/
theorem getaddrinfo_numeric_host (E : GaiEnv) (next_id : Nat) (host addr : List Nat)
    (service : Option (List Nat)) (hints : Option Hints) (hfam : FamilyOk hints)
    (hport : service.isSome = true → service_to_port service ≠ 0)
    (hnum : E.inet_aton host = some addr)
    (halloc : E.calloc_ai = true ∧ E.calloc_sin = true) :
    ∀ (dev : Option (List Nat)) (net : NetEnv),
      ∃ ai, dc_getaddrinfo_impl { E with dev := dev, net := net } next_id (some host) service
          hints true = some ⟨0, some [ai], next_id, []⟩ ∧
        ai.ai_family = AF_INET ∧ ai.ai_addr.sin_family = AF_INET ∧ ai.ai_addr.sin_addr = addr := by
  intro dev net
  obtain ⟨ai, h1, h2, h3, _, h5, _⟩ := getaddrinfo_ok { E with dev := dev, net := net } next_id
    (some host) service hints ⟨0, addr, next_id, []⟩ hfam hport
    (resolveNode_numeric _ next_id host addr hnum) (by simp) halloc
  exact ⟨ai, h1, h2, h3, h5⟩

theorem getaddrinfo_numeric_host_witness :
    ∃ ai, dc_getaddrinfo_impl { sampleGaiEnv with dev := some [0, 0, 0, 0], net := sampleNet } 7
          (some strNumericHost) (some strHttp) none true = some ⟨0, some [ai], 7, []⟩ ∧
        ai.ai_family = AF_INET ∧ ai.ai_addr.sin_family = AF_INET ∧
        ai.ai_addr.sin_addr = [1, 2, 3, 4] :=
  getaddrinfo_numeric_host sampleGaiEnv 7 strNumericHost [1, 2, 3, 4] (some strHttp) none
    (Or.inl rfl) (by decide) (by decide) ⟨rfl, rfl⟩ (some [0, 0, 0, 0]) sampleNet

/-- C24, as stated, fails: with no network device, the host `"a.bc"`, which
`inet_aton` refuses, and no service and no hints, `dc_getaddrinfo_impl`
returns `EAI_NONAME`, the code of the transport and protocol errors, and not
`EAI_FAIL`. -/
theorem getaddrinfo_unset_server_noname :
    sampleGaiEnv.dev = none ∧ sampleGaiEnv.inet_aton strHostAbc = none ∧
      dc_getaddrinfo_impl sampleGaiEnv 7 (some strHostAbc) none none true =
        some ⟨EAI_NONAME, some [], 7, []⟩ ∧
      EAI_NONAME ≠ EAI_FAIL := by
  refine ⟨rfl, by decide, by decide, by decide⟩

/-- C24, amended: with a host that `inet_aton` refuses and no network device,
or the DNS server 0.0.0.0, `dc_getaddrinfo_impl` with an accepted family and
service fails with `EAI_NONAME`, the code it returns for transport and
protocol errors, with an empty result list and without any call to the socket
interface. -/
theorem getaddrinfo_unset_server (E : GaiEnv) (next_id : Nat) (host : List Nat)
    (service : Option (List Nat)) (hints : Option Hints) (hfam : FamilyOk hints)
    (hport : service.isSome = true → service_to_port service ≠ 0)
    (hnn : E.inet_aton host = none) (hdev : E.dev = none ∨ E.dev = some [0, 0, 0, 0]) :
    dc_getaddrinfo_impl E next_id (some host) service hints true =
      some ⟨EAI_NONAME, some [], next_id, []⟩ := by
  have hq : dc_dns_query_A E.dev E.net next_id host E.addr0 =
      some ⟨-1, E.addr0, next_id, []⟩ := by
    rcases hdev with h | h
    · rw [h]; rfl
    · rw [h]
      unfold dc_dns_query_A
      simp [byteAt]
  have hres := resolveNode_query E next_id host hnn
  rw [hq] at hres
  exact getaddrinfo_noname E next_id (some host) service hints _ hfam hport hres
    (show (-1 : Int) < 0 by decide)

theorem getaddrinfo_unset_server_witness :
    dc_getaddrinfo_impl sampleGaiEnv 7 (some strHostAbc) (some strHttp) none true =
      some ⟨EAI_NONAME, some [], 7, []⟩ :=
  getaddrinfo_unset_server sampleGaiEnv 7 strHostAbc (some strHttp) none (Or.inl rfl)
    (by decide) (by decide) (Or.inl rfl)

/-- The parser on a reply of fewer than 12 bytes. -/
theorem parse_short (pkt : List Nat) (r : Int) (id : Nat) (out0 : List Nat) (hr : r < 12) :
    dc_dns_query_A_parse pkt r id out0 = (-1, out0) := by
  unfold dc_dns_query_A_parse
  rw [if_pos hr]

/-- One resolution attempt with a configured server and a query that was
built fails when the transport or the protocol fails. -/
theorem query_A_fails (dev : Option (List Nat)) (env : NetEnv) (next_id : Nat)
    (host addr0 : List Nat) (n : Int) (log : WriteLog) (hdev : DevConfigured dev)
    (hbuild : dc_dns_build_query DC_DNS_MAX_PACKET ((next_id + 1) % 65536) host = some (n, log))
    (hn : 0 ≤ n)
    (hfail : TransportFails env ((next_id + 1) % 65536) (applyWrites env.stack log) addr0) :
    ∃ q, dc_dns_query_A dev env next_id host addr0 = some q ∧ q.ret < 0 := by
  obtain ⟨dns, rfl, hz⟩ := hdev
  unfold dc_dns_query_A
  simp only [if_neg hz, hbuild]
  rw [if_neg (by omega)]
  by_cases hs : env.socketRet < 0
  · rw [if_pos hs]
    exact ⟨_, rfl, (by decide : (-1 : Int) < 0)⟩
  rw [if_neg hs]
  by_cases hsend : env.sendtoRet < 0
  · rw [if_pos hsend]
    exact ⟨_, rfl, (by decide : (-1 : Int) < 0)⟩
  rw [if_neg hsend]
  by_cases hsel : env.selectRet ≤ 0
  · rw [if_pos hsel]
    exact ⟨_, rfl, (by decide : (-1 : Int) < 0)⟩
  rw [if_neg hsel]
  refine ⟨_, rfl, ?_⟩
  show (dc_dns_query_A_parse (recvfromStore env (applyWrites env.stack log)) (recvfromRet env)
    ((next_id + 1) % 65536) addr0).1 < 0
  rcases hfail with h | h | h | h | ⟨d, h, hd⟩ | h
  · exact absurd h hs
  · exact absurd h hsend
  · exact absurd h hsel
  · have hr : recvfromRet env = -1 := by
      unfold recvfromRet
      rw [h]
    rw [parse_short _ _ _ _ (by rw [hr]; decide)]
    exact (by decide : (-1 : Int) < 0)
  · have hr : recvfromRet env < 12 := by
      unfold recvfromRet
      rw [h]
      simp only [List.length_take]
      omega
    rw [parse_short _ _ _ _ hr]
    exact (by decide : (-1 : Int) < 0)
  · exact h

/-- C23: for a host that `inet_aton` refuses, with an accepted family and
service, a configured server and a query that was built, every transport or
protocol failure of the resolution attempt (failure of `socket`, of `sendto`,
timeout or error of `select`, failure of `recvfrom`, reply of fewer than 12
bytes, reply that the parser refuses) makes `dc_getaddrinfo_impl` return
`EAI_NONAME`, and no other code, with an empty result list. -/
theorem getaddrinfo_transport_failure (E : GaiEnv) (next_id : Nat) (host : List Nat)
    (service : Option (List Nat)) (hints : Option Hints) (n : Int) (log : WriteLog)
    (hfam : FamilyOk hints)
    (hport : service.isSome = true → service_to_port service ≠ 0)
    (hnn : E.inet_aton host = none) (hdev : DevConfigured E.dev)
    (hbuild : dc_dns_build_query DC_DNS_MAX_PACKET ((next_id + 1) % 65536) host = some (n, log))
    (hn : 0 ≤ n)
    (hfail : TransportFails E.net ((next_id + 1) % 65536) (applyWrites E.net.stack log)
      E.addr0) :
    ∃ g, dc_getaddrinfo_impl E next_id (some host) service hints true = some g ∧
      g.ret = EAI_NONAME ∧ g.res = some [] := by
  obtain ⟨q, hq, hneg⟩ := query_A_fails E.dev E.net next_id host E.addr0 n log hdev hbuild hn
    hfail
  have hres := resolveNode_query E next_id host hnn
  rw [hq] at hres
  exact ⟨_, getaddrinfo_noname E next_id (some host) service hints q hfam hport hres hneg,
    rfl, rfl⟩

theorem getaddrinfo_transport_failure_witness :
    ∃ g, dc_getaddrinfo_impl
        { sampleGaiEnvNet with net := { sampleNet with selectRet := 0 } } 0x1233
        (some strHostAbc) (some strHttp) none true = some g ∧
      g.ret = EAI_NONAME ∧ g.res = some [] :=
  getaddrinfo_transport_failure { sampleGaiEnvNet with net := { sampleNet with selectRet := 0 } }
    0x1233 strHostAbc (some strHttp) none 22
    (memcpyLog 0 (headerStored 0x1234 ++ [1, 97, 2, 98, 99] ++ trailerBytes))
    (Or.inl rfl) (by decide) (by decide) ⟨[8, 8, 8, 8], rfl, by decide⟩ (by decide) (by decide)
    (Or.inr (Or.inr (Or.inl (by decide))))

/-- One resolution attempt always returns. -/
theorem query_A_total (dev : Option (List Nat)) (env : NetEnv) (next_id : Nat)
    (host o : List Nat) : ∃ q, dc_dns_query_A dev env next_id host o = some q := by
  unfold dc_dns_query_A
  cases dev with
  | none => exact ⟨_, rfl⟩
  | some dns =>
    obtain ⟨n, log, hb⟩ := build_query_total DC_DNS_MAX_PACKET ((next_id + 1) % 65536) host
    simp only [hb]
    split
    · exact ⟨_, rfl⟩
    split
    · exact ⟨_, rfl⟩
    split
    · exact ⟨_, rfl⟩
    split
    · exact ⟨_, rfl⟩
    split
    · exact ⟨_, rfl⟩
    · exact ⟨_, rfl⟩

/-- The lines 355-364 always give a result. -/
theorem resolveNode_total (E : GaiEnv) (next_id : Nat) (node : Option (List Nat)) :
    ∃ q, resolveNode E next_id node = some q := by
  unfold resolveNode
  cases node with
  | none => exact ⟨_, rfl⟩
  | some n =>
    simp only []
    cases E.inet_aton n with
    | some a => exact ⟨_, rfl⟩
    | none => exact query_A_total E.dev E.net next_id n E.addr0

/-- The resolver interface always returns. -/
theorem getaddrinfo_total (E : GaiEnv) (next_id : Nat) (node service : Option (List Nat))
    (hints : Option Hints) (res_given : Bool) :
    ∃ g, dc_getaddrinfo_impl E next_id node service hints res_given = some g := by
  obtain ⟨q, hq⟩ := resolveNode_total E next_id node
  unfold dc_getaddrinfo_impl
  simp only [hq]
  split
  · exact ⟨_, rfl⟩
  split
  · exact ⟨_, rfl⟩
  split
  · exact ⟨_, rfl⟩
  split
  · exact ⟨_, rfl⟩
  split
  · exact ⟨_, rfl⟩
  · exact ⟨_, rfl⟩

/-- The address that the lines 355-364 leave on success: 0.0.0.0 for an
absent node, the address of `inet_aton` for a node it accepts, and the
address stored by a successful `dc_dns_query_A` for any other node. -/
theorem resolveNode_addr (E : GaiEnv) (next_id : Nat) (node : Option (List Nat))
    (q : QueryResult) (hq : resolveNode E next_id node = some q) (hq0 : 0 ≤ q.ret) :
    (node = none → q.out_addr = [0, 0, 0, 0]) ∧
    (∀ n a, node = some n → E.inet_aton n = some a → q.out_addr = a) ∧
    (∀ n, node = some n → E.inet_aton n = none →
      ∃ q2, dc_dns_query_A E.dev E.net next_id n E.addr0 = some q2 ∧ 0 ≤ q2.ret ∧
        q.out_addr = q2.out_addr) := by
  refine ⟨?_, ?_, ?_⟩
  · intro hnode
    subst hnode
    unfold resolveNode at hq
    simp only [Option.some.injEq] at hq
    rw [← hq]
  · intro n a hnode ha
    subst hnode
    rw [resolveNode_numeric E next_id n a ha] at hq
    simp only [Option.some.injEq] at hq
    rw [← hq]
  · intro n hnode hnone
    subst hnode
    rw [resolveNode_query E next_id n hnone] at hq
    exact ⟨q, hq, hq0, rfl⟩

/-- The results of the resolver interface, case by case. -/
theorem getaddrinfo_cases (E : GaiEnv) (next_id : Nat) (node service : Option (List Nat))
    (hints : Option Hints) (res_given : Bool) (g : GaiResult)
    (hg : dc_getaddrinfo_impl E next_id node service hints res_given = some g) :
    (res_given = false ∧ g.ret = EAI_FAIL ∧ g.res = none) ∨
    (res_given = true ∧ g.res = some [] ∧
      (g.ret = EAI_FAMILY ∨ g.ret = EAI_SERVICE ∨ g.ret = EAI_NONAME ∨ g.ret = EAI_FAIL)) ∨
    (res_given = true ∧ g.ret = 0 ∧
      ∃ q, resolveNode E next_id node = some q ∧ 0 ≤ q.ret ∧
        g.res = some [⟨0, AF_INET, (hints.map Hints.ai_socktype).getD 0,
          (hints.map Hints.ai_protocol).getD 0, SIZEOF_SOCKADDR_IN,
          ⟨AF_INET, htonsBytes (service_to_port service), q.out_addr⟩, none⟩]) := by
  unfold dc_getaddrinfo_impl at hg
  by_cases hr : res_given = false
  · rw [if_pos hr] at hg
    simp only [Option.some.injEq] at hg
    subst hg
    exact Or.inl ⟨hr, rfl, rfl⟩
  have hr' : res_given = true := by simpa using hr
  rw [if_neg hr] at hg
  simp only [] at hg
  split at hg
  · simp only [Option.some.injEq] at hg
    subst hg
    exact Or.inr (Or.inl ⟨hr', rfl, Or.inl rfl⟩)
  split at hg
  · simp only [Option.some.injEq] at hg
    subst hg
    exact Or.inr (Or.inl ⟨hr', rfl, Or.inr (Or.inl rfl)⟩)
  cases hq : resolveNode E next_id node with
  | none =>
    rw [hq] at hg
    simp at hg
  | some q =>
    rw [hq] at hg
    simp only [] at hg
    split at hg
    · simp only [Option.some.injEq] at hg
      subst hg
      exact Or.inr (Or.inl ⟨hr', rfl, Or.inr (Or.inr (Or.inl rfl))⟩)
    split at hg
    · simp only [Option.some.injEq] at hg
      subst hg
      exact Or.inr (Or.inl ⟨hr', rfl, Or.inr (Or.inr (Or.inr rfl))⟩)
    · simp only [Option.some.injEq] at hg
      subst hg
      refine Or.inr (Or.inr ⟨hr', rfl, q, rfl, by omega, ?_⟩)
      cases hints <;> rfl

/-- C25: `dc_getaddrinfo_impl` always returns, and it returns 0 exactly when it
stores a result list of one entry; on every other return the list stored is
empty (and nothing is stored when `res` is null); on success the entry has
the family `AF_INET`, the socket type and protocol of the hints (0 without
hints), no canonical name and no next entry, and its socket address holds the
family `AF_INET`, the port of the service in network byte order and the
address resolved: 0.0.0.0 for an absent host, the address that `inet_aton`
gives for a host it accepts, and for every other host the address that
`dc_dns_query_A`, which then succeeds, stores for it. -/
theorem getaddrinfo_result_shape (E : GaiEnv) (next_id : Nat)
    (node service : Option (List Nat)) (hints : Option Hints) (res_given : Bool) :
    ∃ g, dc_getaddrinfo_impl E next_id node service hints res_given = some g ∧
      (g.ret = 0 ↔ ∃ ai, g.res = some [ai]) ∧
      (g.ret ≠ 0 → g.res = if res_given = true then some [] else none) ∧
      (g.ret = 0 →
        ∃ addr,
          (node = none → addr = [0, 0, 0, 0]) ∧
          (∀ n a, node = some n → E.inet_aton n = some a → addr = a) ∧
          (∀ n, node = some n → E.inet_aton n = none →
            ∃ q, dc_dns_query_A E.dev E.net next_id n E.addr0 = some q ∧ 0 ≤ q.ret ∧
              addr = q.out_addr) ∧
          g.res = some [
            { ai_flags := 0
              ai_family := AF_INET
              ai_socktype := (hints.map Hints.ai_socktype).getD 0
              ai_protocol := (hints.map Hints.ai_protocol).getD 0
              ai_addrlen := SIZEOF_SOCKADDR_IN
              ai_addr :=
                { sin_family := AF_INET
                  sin_port :=
                    [service_to_port service / 256 % 256, service_to_port service % 256]
                  sin_addr := addr }
              ai_canonname := none }]) := by
  obtain ⟨g, hg⟩ := getaddrinfo_total E next_id node service hints res_given
  refine ⟨g, hg, ?_⟩
  have hcodes : EAI_FAMILY ≠ 0 ∧ EAI_SERVICE ≠ 0 ∧ EAI_NONAME ≠ 0 ∧ EAI_FAIL ≠ 0 := by decide
  rcases getaddrinfo_cases E next_id node service hints res_given g hg with
    ⟨hr, hret, hres⟩ | ⟨hr, hres, hret⟩ | ⟨hr, hret, q, hq, hq0, hres⟩
  · refine ⟨?_, ?_, ?_⟩
    · rw [hret, hres]
      simp [hcodes.2.2.2]
    · intro _
      rw [hres, hr]
      rfl
    · intro h0
      rw [hret] at h0
      exact absurd h0 hcodes.2.2.2
  · have hne : g.ret ≠ 0 := by
      rcases hret with h | h | h | h <;> rw [h]
      · exact hcodes.1
      · exact hcodes.2.1
      · exact hcodes.2.2.1
      · exact hcodes.2.2.2
    refine ⟨?_, ?_, ?_⟩
    · rw [hres]
      simp [hne]
    · intro _
      rw [hres, hr]
      rfl
    · intro h0
      exact absurd h0 hne
  · refine ⟨?_, ?_, ?_⟩
    · rw [hret, hres]
      simp
    · intro h
      exact absurd hret h
    · intro _
      obtain ⟨h1, h2, h3⟩ := resolveNode_addr E next_id node q hq hq0
      exact ⟨q.out_addr, h1, h2, h3, hres⟩

theorem getaddrinfo_result_shape_witness :
    ∃ g, dc_getaddrinfo_impl sampleGaiEnvNet 0x1233 (some strHostAbc) (some strHttps)
        (some ⟨0, 1, 6⟩) true = some g ∧
      g.ret = 0 ∧
      g.res = some [⟨0, AF_INET, 1, 6, SIZEOF_SOCKADDR_IN,
        ⟨AF_INET, [1, 187], [93, 184, 216, 34]⟩, none⟩] ∧
      ∃ q, dc_dns_query_A sampleGaiEnvNet.dev sampleGaiEnvNet.net 0x1233 strHostAbc
          sampleGaiEnvNet.addr0 = some q ∧ 0 ≤ q.ret ∧ q.out_addr = [93, 184, 216, 34] := by
  obtain ⟨g, hg, hiff, _, hshape⟩ := getaddrinfo_result_shape sampleGaiEnvNet 0x1233
    (some strHostAbc) (some strHttps) (some ⟨0, 1, 6⟩) true
  have hval : dc_getaddrinfo_impl sampleGaiEnvNet 0x1233 (some strHostAbc) (some strHttps)
      (some ⟨0, 1, 6⟩) true =
      some ⟨0, some [⟨0, AF_INET, 1, 6, SIZEOF_SOCKADDR_IN,
        ⟨AF_INET, [1, 187], [93, 184, 216, 34]⟩, none⟩], 0x1234,
        [SockOp.socket,
          SockOp.sendto 3 [18, 52, 1, 0, 0, 1, 0, 0, 0, 0, 0, 0, 1, 97, 2, 98, 99, 0,
            0, 1, 0, 1] [8, 8, 8, 8] 53,
          SockOp.select 3 2, SockOp.recvfrom 3 512, SockOp.close 3]⟩ := by decide
  rw [hval] at hg
  simp only [Option.some.injEq] at hg
  subst hg
  obtain ⟨addr, _, _, hquery, hres⟩ := hshape rfl
  obtain ⟨q, hq, hq0, haddr⟩ := hquery strHostAbc rfl (by decide)
  have haddr2 : addr = [93, 184, 216, 34] := by
    simp only [Option.some.injEq, List.cons.injEq, AddrInfo.mk.injEq, SockAddrIn.mk.injEq] at hres
    exact hres.1.2.2.2.2.2.1.2.2.symm
  exact ⟨_, hval, rfl, rfl, q, hq, hq0, by rw [← haddr, haddr2]⟩

/-! ## The claims on the identifier, the flags and the agreement of encoder and skipper -/

/-- The first two bytes of the datagram sent are the identifier, most
significant byte first. -/
theorem query_sent_id (id : Nat) (host stack : List Nat) (n : Int) (log : WriteLog)
    (hid : id < 65536) (hstack : stack.length = DC_DNS_MAX_PACKET)
    (hbuild : dc_dns_build_query DC_DNS_MAX_PACKET id host = some (n, log)) (hn : 0 ≤ n) :
    ((applyWrites stack log).take n.toNat).take 2 = [id >>> 8, id &&& 0xff] := by
  obtain ⟨bytes, hroom, hc⟩ := build_query_cases DC_DNS_MAX_PACKET id host (by decide)
  have hh : (headerStored id).length = 12 := rfl
  have ht : trailerBytes.length = 5 := rfl
  rcases hc with hc | ⟨hc, _⟩
  · rw [hc] at hbuild
    simp only [Option.some.injEq, Prod.mk.injEq] at hbuild
    omega
  · rw [hc] at hbuild
    simp only [Option.some.injEq, Prod.mk.injEq] at hbuild
    obtain ⟨hn', hlog⟩ := hbuild
    subst hn' hlog
    have hlen : (headerStored id ++ bytes ++ trailerBytes).length = 12 + bytes.length + 5 := by
      simp only [List.length_append, hh, ht]
    have hle : (headerStored id ++ bytes ++ trailerBytes).length ≤ stack.length := by
      rw [hlen, hstack]
      rcases hroom with hb | hb
      · subst hb
        simp [DC_DNS_MAX_PACKET]
      · exact hb
    rw [applyWrites_seq _ _ hle, Int.toNat_ofNat, ← hlen, List.take_left,
      headerStored_eq id hid]
    rfl

/-- C27, as stated, fails: when the counter holds 65535 the next call that
passes the server check uses the identifier 0, which is not greater than the
one before, and sends it in the bytes 0 and 1 of the query. -/
theorem query_id_wraps :
    dc_dns_query_A (some [8, 8, 8, 8]) sampleNet 65535 strHostAbc [0, 0, 0, 0] =
        some ⟨-1, [0, 0, 0, 0], 0,
          [SockOp.socket,
            SockOp.sendto 3 [0, 0, 1, 0, 0, 1, 0, 0, 0, 0, 0, 0, 1, 97, 2, 98, 99, 0,
              0, 1, 0, 1] [8, 8, 8, 8] 53,
            SockOp.select 3 2, SockOp.recvfrom 3 512, SockOp.close 3]⟩ ∧
      ¬ (65535 < 0) := by
  refine ⟨by decide, by decide⟩

/-- C27, amended: every call of `dc_dns_query_A` that passes the check of the
server configuration uses the identifier `(previous + 1) mod 2^16`, which is
`previous + 1`, strictly greater than the previous one, unless the previous
one is 65535 (the first is 1, the counter starting at 0), and leaves it in the
counter; the bytes 0 and 1 of the query sent carry that identifier. -/
theorem query_id_next (dev : Option (List Nat)) (env : NetEnv) (next_id : Nat)
    (host out_addr : List Nat) (hdev : DevConfigured dev)
    (hstack : env.stack.length = DC_DNS_MAX_PACKET) :
    ∃ q, dc_dns_query_A dev env next_id host out_addr = some q ∧
      q.next_id = (next_id + 1) % 65536 ∧
      (next_id < 65535 → q.next_id = next_id + 1 ∧ next_id < q.next_id) ∧
      (next_id = 0 → q.next_id = 1) ∧
      (∀ fd data addr port, SockOp.sendto fd data addr port ∈ q.trace →
        data.take 2 = [q.next_id >>> 8, q.next_id &&& 0xff]) := by
  obtain ⟨dns, rfl, hz⟩ := hdev
  have hmod : (next_id + 1) % 65536 < 65536 := Nat.mod_lt _ (by decide)
  have h1 : next_id < 65535 →
      (next_id + 1) % 65536 = next_id + 1 ∧ next_id < (next_id + 1) % 65536 := by
    intro h
    rw [Nat.mod_eq_of_lt (by omega)]
    omega
  have h0 : next_id = 0 → (next_id + 1) % 65536 = 1 := by
    intro h
    rw [h]
  obtain ⟨n, log, hb⟩ := build_query_total DC_DNS_MAX_PACKET ((next_id + 1) % 65536) host
  unfold dc_dns_query_A
  simp only [if_neg hz, hb]
  by_cases hn : n < 0
  · rw [if_pos hn]
    exact ⟨_, rfl, rfl, h1, h0, by simp⟩
  rw [if_neg hn]
  have hsent := query_sent_id ((next_id + 1) % 65536) host env.stack n log hmod hstack hb
    (by omega)
  by_cases hs : env.socketRet < 0
  · rw [if_pos hs]
    exact ⟨_, rfl, rfl, h1, h0, by simp⟩
  rw [if_neg hs]
  by_cases hsend : env.sendtoRet < 0
  · rw [if_pos hsend]
    refine ⟨_, rfl, rfl, h1, h0, ?_⟩
    intro fd data addr port hmem
    simp only [List.mem_cons, reduceCtorEq, SockOp.sendto.injEq, List.mem_singleton,
      List.not_mem_nil, or_false, false_or] at hmem
    rw [hmem.2.1]
    exact hsent
  rw [if_neg hsend]
  by_cases hsel : env.selectRet ≤ 0
  · rw [if_pos hsel]
    refine ⟨_, rfl, rfl, h1, h0, ?_⟩
    intro fd data addr port hmem
    simp only [List.mem_cons, reduceCtorEq, SockOp.sendto.injEq, List.mem_singleton,
      List.not_mem_nil, or_false, false_or] at hmem
    rw [hmem.2.1]
    exact hsent
  rw [if_neg hsel]
  refine ⟨_, rfl, rfl, h1, h0, ?_⟩
  intro fd data addr port hmem
  simp only [List.mem_cons, reduceCtorEq, SockOp.sendto.injEq, List.mem_singleton,
    List.not_mem_nil, or_false, false_or] at hmem
  rw [hmem.2.1]
  exact hsent

theorem query_id_next_witness :
    ∃ q, dc_dns_query_A (some [8, 8, 8, 8]) sampleNet 0 strHostAbc [0, 0, 0, 0] = some q ∧
      q.next_id = (0 + 1) % 65536 ∧
      (0 < 65535 → q.next_id = 0 + 1 ∧ 0 < q.next_id) ∧
      (0 = 0 → q.next_id = 1) ∧
      (∀ fd data addr port, SockOp.sendto fd data addr port ∈ q.trace →
        data.take 2 = [q.next_id >>> 8, q.next_id &&& 0xff]) :=
  query_id_next (some [8, 8, 8, 8]) sampleNet 0 strHostAbc [0, 0, 0, 0]
    ⟨[8, 8, 8, 8], rfl, by decide⟩ (by decide)

theorem labelOf_append_dot (p : List Nat) : labelOf (p ++ [dotChar]) = labelOf p := by
  induction p with
  | nil => simp [labelOf]
  | cons c cs ih =>
    unfold labelOf at ih ⊢
    by_cases hc : c = dotChar
    · simp [hc]
    · simp [hc, ih]

theorem strchrDot_append_dot (p : List Nat) :
    strchrDot (p ++ [dotChar]) = strchrDot p ++ [dotChar] := by
  induction p with
  | nil => simp [strchrDot]
  | cons c cs ih =>
    unfold strchrDot at ih ⊢
    by_cases hc : c = dotChar
    · simp [hc]
    · simp [hc, ih]

theorem strchrDot_last (p : List Nat) : ∀ (d : Nat) (p1 : List Nat),
    strchrDot p = d :: p1 → p.getLast? = (d :: p1).getLast? := by
  induction p with
  | nil => intro d p1 h; simp [strchrDot] at h
  | cons c cs ih =>
    intro d p1 h
    by_cases hc : c = dotChar
    · have : strchrDot (c :: cs) = c :: cs := by simp [strchrDot, hc]
      rw [this] at h
      rw [h]
    · have h2 : strchrDot (c :: cs) = strchrDot cs := by simp [strchrDot, hc]
      rw [h2] at h
      have hcs := ih d p1 h
      cases cs with
      | nil => simp [strchrDot] at h
      | cons x xs =>
        rw [List.getLast?_cons_cons]
        exact hcs

/-- The QNAME loop on a string that is not empty and does not end with a dot,
and on that string followed by one dot. -/
theorem qnameLoop_trailing_dot (out_len : Nat) : ∀ (fuel2 fuel1 : Nat) (p : List Nat) (off : Nat),
    p ≠ [] → p.getLast? ≠ some dotChar → p.length < fuel2 → p.length + 1 < fuel1 →
    qnameLoop out_len fuel1 (p ++ [dotChar]) off = qnameLoop out_len fuel2 p off := by
  intro fuel2
  induction fuel2 with
  | zero => intro fuel1 p off _ _ h; omega
  | succ f2 ih =>
    intro fuel1 p off hp hlast hf2 hf1
    obtain ⟨f1, rfl⟩ : ∃ f1, fuel1 = f1 + 1 := ⟨fuel1 - 1, by omega⟩
    have hp2 : p ++ [dotChar] ≠ [] := by simp
    rw [qnameLoop, qnameLoop, if_neg hp, if_neg hp2]
    simp only [labelOf_append_dot, strchrDot_append_dot]
    by_cases hbad : (labelOf p).length = 0 ∨ (labelOf p).length > 63
    · rw [if_pos hbad, if_pos hbad]
    rw [if_neg hbad, if_neg hbad]
    by_cases hfit : off + 1 + (labelOf p).length + 1 + 4 > out_len
    · rw [if_pos hfit, if_pos hfit]
    rw [if_neg hfit, if_neg hfit]
    cases hdot : strchrDot p with
    | nil =>
      obtain ⟨f0, rfl⟩ : ∃ f0, f1 = f0 + 1 := ⟨f1 - 1, by
        have := List.length_pos.mpr hp
        omega⟩
      simp only [List.nil_append, qnameLoop, if_true, List.append_nil]
    | cons d p1 =>
      have hl := strchrDot_last p d p1 hdot
      have hlen := strchrDot_tail_length p p1 d hdot
      have hp1 : p1 ≠ [] := by
        rintro rfl
        have hd : strchrDot p ≠ [] := by rw [hdot]; simp
        have hhead := List.head_dropWhile_not (fun c => c != dotChar) p hd
        simp only [strchrDot] at hdot
        simp only [hdot, List.head_cons, bne_iff_ne, ne_eq, Bool.not_eq_true,
          Bool.not_eq_eq_eq_not, Bool.not_true, bne_eq_false_iff_eq] at hhead
        rw [hl, hhead] at hlast
        simp at hlast
      have hlast1 : p1.getLast? ≠ some dotChar := by
        obtain ⟨x, xs, rfl⟩ := List.exists_cons_of_ne_nil hp1
        rw [hl, List.getLast?_cons_cons] at hlast
        exact hlast
      simp only [List.cons_append]
      rw [ih f1 p1 _ hp1 hlast1 (by omega) (by omega)]

/-- C30: for every host name that is not empty and does not end with a dot,
every identifier and every buffer size, `dc_dns_build_query` gives the same
result, the same returned value and the same stores, on the host name and on
the host name followed by one dot: both fail, or both succeed with the same
length and the same bytes. -/
theorem build_query_final_dot (out_len id : Nat) (h : List Nat)
    (hne : h ≠ []) (hlast : h.getLast? ≠ some dotChar) :
    dc_dns_build_query out_len id (h ++ [dotChar]) = dc_dns_build_query out_len id h := by
  unfold dc_dns_build_query
  rw [qnameLoop_trailing_dot out_len (h.length + 1) ((h ++ [dotChar]).length + 1) h 12 hne
    hlast (by omega) (by simp)]

theorem build_query_final_dot_witness :
    dc_dns_build_query 512 7 (strHostAbc ++ [dotChar]) = dc_dns_build_query 512 7 strHostAbc :=
  build_query_final_dot 512 7 strHostAbc (by decide) (by decide)

theorem realLabels_unfold (p : List Nat) (hl : (labelOf p).length ≠ 0) :
    realLabels p = labelOf p ::
      (match strchrDot p with
        | [] => []
        | _ :: p1 => realLabels p1) := by
  have hne : (labelOf p).isEmpty = false := by
    cases h : labelOf p with
    | nil => rw [h] at hl; simp at hl
    | cons x xs => rfl
  unfold realLabels
  rw [splitDot_unfold p, List.filter_cons_of_pos (by simp [hne])]
  cases strchrDot p <;> rfl

/-- When the QNAME loop is left normally it has stored the length-prefixed
form of labels of 1 to 63 bytes, no more of them than the host name has
non-empty labels. -/
theorem qnameLoop_labels (out_len : Nat) : ∀ (fuel : Nat) (p : List Nat) (off off2 : Nat)
    (log : WriteLog), p.length < fuel →
    qnameLoop out_len fuel p off = (LoopExit.finished off2, log) →
    ∃ ls, LabelsOk ls ∧ ls.length ≤ (realLabels p).length ∧ off2 = off + nameLen ls ∧
      log = memcpyLog off (labelBytes ls) := by
  intro fuel
  induction fuel with
  | zero => intro p off off2 log h; omega
  | succ fuel ih =>
    intro p off off2 log hfuel hq
    rw [qnameLoop] at hq
    by_cases hp : p = []
    · rw [if_pos hp] at hq
      simp only [Prod.mk.injEq, LoopExit.finished.injEq] at hq
      refine ⟨[], by simp [LabelsOk], by simp, ?_, ?_⟩
      · rw [← hq.1]; rfl
      · rw [← hq.2]; rfl
    rw [if_neg hp] at hq
    simp only [] at hq
    by_cases hbad : (labelOf p).length = 0 ∨ (labelOf p).length > 63
    · rw [if_pos hbad] at hq
      simp at hq
    rw [if_neg hbad] at hq
    by_cases hfit : off + 1 + (labelOf p).length + 1 + 4 > out_len
    · rw [if_pos hfit] at hq
      simp at hq
    rw [if_neg hfit] at hq
    have hmod : (labelOf p).length % 256 = (labelOf p).length := Nat.mod_eq_of_lt (by omega)
    rw [hmod] at hq
    have hreal := realLabels_unfold p (by omega)
    have hok1 : 1 ≤ (labelOf p).length ∧ (labelOf p).length ≤ 63 := by omega
    cases hdot : strchrDot p with
    | nil =>
      rw [hdot] at hq hreal
      simp only [Prod.mk.injEq, LoopExit.finished.injEq] at hq
      refine ⟨[labelOf p], by simp [LabelsOk, hok1], by rw [hreal], ?_, ?_⟩
      · rw [← hq.1, nameLen_cons]
        simp [nameLen]
        omega
      · rw [← hq.2]
        simp [labelBytes, memcpyLog]
    | cons d p1 =>
      rw [hdot] at hq hreal
      simp only [Prod.mk.injEq] at hq
      have hlen := strchrDot_tail_length p p1 d hdot
      obtain ⟨ls1, hok, hcount, hoff, hlog⟩ := ih p1 (off + 1 + (labelOf p).length) off2
        (qnameLoop out_len fuel p1 (off + 1 + (labelOf p).length)).2 (by omega)
        (Prod.ext hq.1 rfl)
      refine ⟨labelOf p :: ls1, (labelsOk_cons _ _).2 ⟨hok1, hok⟩, ?_, ?_, ?_⟩
      · rw [hreal]
        simp only [List.length_cons]
        omega
      · rw [hoff, nameLen_cons]
        omega
      · rw [← hq.2, hlog]
        simp only [labelBytes]
        rw [← memcpyLog_label]

/-- A query that was built holds the length-prefixed form of labels of 1 to
63 bytes, no more of them than the host name has non-empty labels, between
its header and its last five bytes. -/
theorem build_query_labels (out_len id : Nat) (host : List Nat) (n : Int) (log : WriteLog)
    (hbuild : dc_dns_build_query out_len id host = some (n, log)) (hn : 0 ≤ n) :
    ∃ ls, LabelsOk ls ∧ ls.length ≤ (realLabels host).length ∧
      n = ((12 + nameLen ls + 5 : Nat) : Int) ∧
      log = memcpyLog 0 (headerStored id ++ labelBytes ls ++ trailerBytes) := by
  unfold dc_dns_build_query at hbuild
  by_cases h12 : out_len < 12
  · rw [if_pos h12] at hbuild
    simp only [Option.some.injEq, Prod.mk.injEq] at hbuild
    omega
  rw [if_neg h12] at hbuild
  rcases hq : qnameLoop out_len (host.length + 1) host 12 with ⟨e, w⟩
  rw [hq] at hbuild
  cases e with
  | failed =>
    simp only [Option.some.injEq, Prod.mk.injEq] at hbuild
    omega
  | outOfFuel => simp at hbuild
  | finished off2 =>
    simp only [Option.some.injEq, Prod.mk.injEq] at hbuild
    obtain ⟨ls, hok, hcount, hoff, hlog⟩ := qnameLoop_labels out_len (host.length + 1) host 12
      off2 w (by omega) hq
    refine ⟨ls, hok, hcount, ?_, ?_⟩
    · rw [← hbuild.1, hoff]
    · rw [← hbuild.2, hlog, hoff, ← labelBytes_length, fullLog_eq]

/-- C28, as stated, fails: the host name `host64`, 64 labels `a` separated by
dots, is accepted by the encoder with the 512-byte buffer, which returns 145,
and `dc_dns_skip_name` applied to the message produced, of length 145, at the
cursor 12 fails and leaves the cursor at 12. -/
theorem skip_rejects_built_query :
    dc_dns_build_query DC_DNS_MAX_PACKET 7 host64 =
        some (145, memcpyLog 0 (headerStored 7 ++ labelBytes (List.replicate 64 [97]) ++
          trailerBytes)) ∧
      dc_dns_skip_name (applyWrites (List.replicate 512 0)
        (memcpyLog 0 (headerStored 7 ++ labelBytes (List.replicate 64 [97]) ++ trailerBytes)))
        145 12 = (-1, 12) := by
  refine ⟨by decide, by decide⟩

/-- C28, amended: for every host name with at most 63 non-empty labels and
every identifier for which `dc_dns_build_query` succeeds with the 512-byte
buffer and returns `n`, `dc_dns_skip_name` applied to the message produced,
of length `n`, at the cursor 12 succeeds and leaves the cursor at `n - 4`. -/
theorem skip_accepts_built_query (id : Nat) (host buf : List Nat) (n : Int) (log : WriteLog)
    (hbuf : buf.length = DC_DNS_MAX_PACKET)
    (hbuild : dc_dns_build_query DC_DNS_MAX_PACKET id host = some (n, log)) (hn : 0 ≤ n)
    (h63 : (realLabels host).length ≤ 63) :
    dc_dns_skip_name (applyWrites buf log) n.toNat 12 = (0, n.toNat - 4) := by
  obtain ⟨ls, hok, hcount, hnv, hlog⟩ := build_query_labels DC_DNS_MAX_PACKET id host n log
    hbuild hn
  obtain ⟨bytes, hroom, hc⟩ := build_query_cases DC_DNS_MAX_PACKET id host (by decide)
  have hh : (headerStored id).length = 12 := rfl
  have ht : trailerBytes.length = 5 := rfl
  have hle : 12 + nameLen ls + 5 ≤ 512 := by
    rcases hc with hc | ⟨hc, _⟩
    · rw [hc] at hbuild
      simp only [Option.some.injEq, Prod.mk.injEq] at hbuild
      omega
    · rw [hc] at hbuild
      simp only [Option.some.injEq, Prod.mk.injEq] at hbuild
      have hb := hbuild.1
      rw [hnv] at hb
      rcases hroom with hb2 | hb2
      · subst hb2
        simp only [List.length_nil] at hb
        omega
      · simp only [DC_DNS_MAX_PACKET] at hb2
        omega
  subst hnv hlog
  have hlen : (headerStored id ++ labelBytes ls ++ trailerBytes).length =
      12 + nameLen ls + 5 := by
    simp only [List.length_append, hh, ht, labelBytes_length]
  rw [applyWrites_seq _ _ (by rw [hlen, hbuf]; exact hle), Int.toNat_ofNat]
  have hmsg : headerStored id ++ labelBytes ls ++ trailerBytes ++
      buf.drop (headerStored id ++ labelBytes ls ++ trailerBytes).length =
      headerStored id ++ (labelBytes ls ++ NameEnd.zero.bytes ++
        ([0, 1, 0, 1] ++ buf.drop (headerStored id ++ labelBytes ls ++ trailerBytes).length)) := by
    simp [trailerBytes, NameEnd.bytes]
  have hnl : (labelBytes ls ++ NameEnd.zero.bytes).length = nameLen ls + 1 := by
    simp [NameEnd.bytes, labelBytes_length]
  have h := skipNameLoop_wire NameEnd.zero trivial ls (headerStored id)
    ([0, 1, 0, 1] ++ buf.drop (headerStored id ++ labelBytes ls ++ trailerBytes).length)
    (12 + nameLen ls + 5) 64 hok (by rw [hnl, hh]; omega)
  rw [if_pos (by omega), hnl, hh] at h
  unfold dc_dns_skip_name
  rw [hmsg, h]
  simp only [Prod.mk.injEq, true_and]
  omega

theorem skip_accepts_built_query_witness :
    dc_dns_skip_name (applyWrites (List.replicate 512 0)
      (memcpyLog 0 (headerStored 7 ++ [1, 97, 2, 98, 99] ++ trailerBytes)))
      (22 : Int).toNat 12 = (0, (22 : Int).toNat - 4) :=
  skip_accepts_built_query 7 strHostAbc (List.replicate 512 0) 22
    (memcpyLog 0 (headerStored 7 ++ [1, 97, 2, 98, 99] ++ trailerBytes))
    (List.length_replicate 512 0) (by decide) (by decide) (by decide)

/-- The skipper never moves the cursor backwards. -/
theorem skipNameLoop_ge (msg : List Nat) (msg_len : Nat) : ∀ (steps off off2 : Nat),
    skipNameLoop msg msg_len steps off = some off2 → off ≤ off2 := by
  intro steps
  induction steps with
  | zero => intro off off2 h; simp [skipNameLoop] at h
  | succ s ih =>
    intro off off2 h
    rw [skipNameLoop] at h
    by_cases hlt : off < msg_len
    · rw [if_pos hlt] at h
      simp only [] at h
      by_cases h0 : byteAt msg off = 0
      · rw [if_pos h0] at h
        simp only [Option.some.injEq] at h
        omega
      rw [if_neg h0] at h
      by_cases hp : byteAt msg off &&& 0xC0 = 0xC0
      · rw [if_pos hp] at h
        by_cases he : off + 1 ≥ msg_len
        · rw [if_pos he] at h
          simp at h
        · rw [if_neg he] at h
          simp only [Option.some.injEq] at h
          omega
      rw [if_neg hp] at h
      by_cases h63 : byteAt msg off > 63
      · rw [if_pos h63] at h
        simp at h
      rw [if_neg h63] at h
      by_cases hout : off + 1 + byteAt msg off > msg_len
      · rw [if_pos hout] at h
        simp at h
      rw [if_neg hout] at h
      have := ih _ _ h
      omega
    · rw [if_neg hlt] at h
      simp at h

theorem skip_name_snd_ge (msg : List Nat) (msg_len off : Nat) :
    off ≤ (dc_dns_skip_name msg msg_len off).2 := by
  unfold dc_dns_skip_name
  cases h : skipNameLoop msg msg_len 64 off with
  | none => exact Nat.le_refl _
  | some o => exact skipNameLoop_ge msg msg_len 64 off o h

/-- Two buffers that agree from the index `lo` on are skipped alike from every
cursor at or behind `lo`. -/
theorem skip_name_agree_from (msg msg2 : List Nat) (msg_len lo : Nat)
    (hagree : ∀ i, lo ≤ i → byteAt msg2 i = byteAt msg i) (off : Nat) (hoff : lo ≤ off) :
    dc_dns_skip_name msg2 msg_len off = dc_dns_skip_name msg msg_len off := by
  unfold dc_dns_skip_name
  rw [skipNameLoop_congr msg msg2 msg_len 64 off
    (fun i hi => hagree i (Nat.le_trans hoff (skipNameReads_ge msg msg_len 64 off i hi)))]

theorem skipQuestions_ge (pkt : List Nat) (r : Nat) : ∀ (n off off2 : Nat),
    skipQuestions pkt r n off = some off2 → off ≤ off2 := by
  intro n
  induction n with
  | zero =>
    intro off off2 h
    simp only [skipQuestions, Option.some.injEq] at h
    omega
  | succ n ih =>
    intro off off2 h
    rw [skipQuestions] at h
    by_cases h1 : (dc_dns_skip_name pkt r off).1 < 0
    · rw [if_pos h1] at h
      simp at h
    rw [if_neg h1] at h
    by_cases h2 : (dc_dns_skip_name pkt r off).2 + 4 > r
    · rw [if_pos h2] at h
      simp at h
    rw [if_neg h2] at h
    have h3 := ih _ _ h
    have h4 := skip_name_snd_ge pkt r off
    omega

theorem skipQuestions_agree_from (pkt pkt2 : List Nat) (r lo : Nat)
    (hagree : ∀ i, lo ≤ i → byteAt pkt2 i = byteAt pkt i) : ∀ (n off : Nat), lo ≤ off →
    skipQuestions pkt2 r n off = skipQuestions pkt r n off := by
  intro n
  induction n with
  | zero => intro off _; rfl
  | succ n ih =>
    intro off hoff
    have h4 := skip_name_snd_ge pkt r off
    rw [skipQuestions, skipQuestions, skip_name_agree_from pkt pkt2 r lo hagree off hoff,
      ih ((dc_dns_skip_name pkt r off).2 + 4) (by omega)]

theorem recordAt_agree_from (pkt pkt2 : List Nat) (r lo : Nat)
    (hagree : ∀ i, lo ≤ i → byteAt pkt2 i = byteAt pkt i) (off : Nat) (hoff : lo ≤ off) :
    recordAt pkt2 r off = recordAt pkt r off := by
  have h4 := skip_name_snd_ge pkt r off
  unfold recordAt
  rw [skip_name_agree_from pkt pkt2 r lo hagree off hoff]
  simp only []
  rw [hagree _ (Nat.le_trans hoff h4), hagree ((dc_dns_skip_name pkt r off).2 + 1) (by omega),
    hagree ((dc_dns_skip_name pkt r off).2 + 2) (by omega),
    hagree ((dc_dns_skip_name pkt r off).2 + 3) (by omega),
    hagree ((dc_dns_skip_name pkt r off).2 + 8) (by omega),
    hagree ((dc_dns_skip_name pkt r off).2 + 9) (by omega)]

theorem recordAt_dataOff_ge (pkt : List Nat) (r off : Nat) (v : RecView)
    (h : recordAt pkt r off = some v) : off + 10 ≤ v.dataOff := by
  have h4 := skip_name_snd_ge pkt r off
  unfold recordAt at h
  simp only [] at h
  split at h
  · simp at h
  · simp only [Option.some.injEq] at h
    rw [← h]
    simp only []
    omega

theorem answersLoop_agree_from (pkt pkt2 : List Nat) (r lo : Nat)
    (hagree : ∀ i, lo ≤ i → byteAt pkt2 i = byteAt pkt i) : ∀ (n off : Nat), lo ≤ off →
    answersLoop pkt2 r n off = answersLoop pkt r n off := by
  intro n
  induction n with
  | zero => intro off _; rfl
  | succ n ih =>
    intro off hoff
    rw [answersLoop_succ, answersLoop_succ, recordAt_agree_from pkt pkt2 r lo hagree off hoff]
    cases hv : recordAt pkt r off with
    | none => rfl
    | some v =>
      have hd := recordAt_dataOff_ge pkt r off v hv
      simp only []
      by_cases hin : v.dataOff + v.rdlen > r
      · rw [if_pos hin, if_pos hin]
      rw [if_neg hin, if_neg hin]
      by_cases hA : v.isA = true
      · rw [if_pos hA, if_pos hA]
        simp only [RecView.addr]
        rw [hagree v.dataOff (by omega), hagree (v.dataOff + 1) (by omega),
          hagree (v.dataOff + 2) (by omega), hagree (v.dataOff + 3) (by omega)]
      · rw [if_neg hA, if_neg hA, ih (v.dataOff + v.rdlen) (by omega)]

/-- The error code the parser tests is the low four bits of byte 3. -/
theorem flags_rcode (b2 b3 : Nat) (h2 : b2 < 256) (h3 : b3 < 256) :
    be16 b2 b3 &&& 0x000F = b3 % 16 := by
  rw [be16_bytes _ _ h2 h3]
  have := Nat.and_pow_two_sub_one_eq_mod (b2 * 256 + b3) 4
  simp only [Nat.reducePow, Nat.add_one_sub_one] at this
  omega

/-- C29: two messages that differ only in byte 2 or in the high four bits of
byte 3, the flag bits QR, opcode, AA, TC, RD, RA and Z, get the same result
and the same output address from the response parser, for every received
length, identifier and previous output address: both are accepted with the
same address or both are rejected. -/
theorem parse_ignores_flag_bits (pkt pkt2 : List Nat) (r : Int) (id : Nat) (out0 : List Nat)
    (hb2 : byteAt pkt 2 < 256) (hb3 : byteAt pkt 3 < 256)
    (hc2 : byteAt pkt2 2 < 256) (hc3 : byteAt pkt2 3 < 256)
    (hrcode : byteAt pkt2 3 % 16 = byteAt pkt 3 % 16)
    (hagree : ∀ i : Nat, i ≠ 2 → i ≠ 3 → byteAt pkt2 i = byteAt pkt i) :
    dc_dns_query_A_parse pkt2 r id out0 = dc_dns_query_A_parse pkt r id out0 := by
  have hfrom : ∀ i, 4 ≤ i → byteAt pkt2 i = byteAt pkt i :=
    fun i hi => hagree i (by omega) (by omega)
  unfold dc_dns_query_A_parse
  by_cases hr : r < 12
  · rw [if_pos hr, if_pos hr]
  rw [if_neg hr, if_neg hr]
  rw [hagree 0 (by omega) (by omega), hagree 1 (by omega) (by omega), hfrom 4 (by omega),
    hfrom 5 (by omega), hfrom 6 (by omega), hfrom 7 (by omega)]
  simp only [flags_rcode _ _ hb2 hb3, flags_rcode _ _ hc2 hc3, hrcode,
    skipQuestions_agree_from pkt pkt2 r.toNat 4 hfrom _ 12 (by omega)]
  cases hq : skipQuestions pkt r.toNat (be16 (byteAt pkt 4) (byteAt pkt 5)) 12 with
  | none => rfl
  | some off =>
    have hoff := skipQuestions_ge pkt r.toNat _ 12 off hq
    simp only [answersLoop_agree_from pkt pkt2 r.toNat 4 hfrom _ off (by omega)]

theorem parse_ignores_flag_bits_witness :
    dc_dns_query_A_parse truncatedQueryResponse.bytes (sampleResponse.bytes.length : Int)
        0x1234 [0, 0, 0, 0] = (0, [93, 184, 216, 34]) :=
  (parse_ignores_flag_bits sampleResponse.bytes truncatedQueryResponse.bytes
    (sampleResponse.bytes.length : Int) 0x1234 [0, 0, 0, 0]
    (by decide) (by decide) (by decide) (by decide) (by decide)
    (fun i h2 h3 => by
      by_cases h : i < sampleResponse.bytes.length
      · exact (by decide : ∀ j < sampleResponse.bytes.length, j ≠ 2 → j ≠ 3 →
          byteAt truncatedQueryResponse.bytes j = byteAt sampleResponse.bytes j) i h h2 h3
      · have hlen : truncatedQueryResponse.bytes.length = sampleResponse.bytes.length := by
          decide
        unfold byteAt
        rw [List.getD_eq_default _ _ (by omega), List.getD_eq_default _ _ (by omega)])).trans
    (by decide)

/-! ## The claim on the host-entry form of the resolver interface -/

/-- The parser stores an address on success only, and what it returns and
stores then does not depend on the previous content of the output address. -/
theorem parse_out_indep (pkt : List Nat) (r : Int) (id : Nat) (o1 o2 : List Nat) :
    dc_dns_query_A_parse pkt r id o2 =
      if (dc_dns_query_A_parse pkt r id o1).1 < 0 then (-1, o2)
      else dc_dns_query_A_parse pkt r id o1 := by
  unfold dc_dns_query_A_parse
  by_cases hr : r < 12
  · simp [hr]
  by_cases hid : ((byteAt pkt 0 <<< 8) ||| byteAt pkt 1) ≠ id
  · simp [hr, hid]
  by_cases hf : be16 (byteAt pkt 2) (byteAt pkt 3) &&& 0x000F ≠ 0
  · simp [hr, hid, hf]
  simp only [if_neg hr, if_neg hid, if_neg hf]
  cases skipQuestions pkt r.toNat (be16 (byteAt pkt 4) (byteAt pkt 5)) 12 with
  | none => simp
  | some off =>
    simp only []
    cases answersLoop pkt r.toNat (be16 (byteAt pkt 6) (byteAt pkt 7)) off with
    | none => simp
    | some a => simp

/-- A successful resolution attempt does not depend on the previous content
of the output address. -/
theorem query_A_out_indep (dev : Option (List Nat)) (env : NetEnv) (next_id : Nat)
    (host o1 o2 : List Nat) (q : QueryResult)
    (h : dc_dns_query_A dev env next_id host o1 = some q) (hq : ¬ q.ret < 0) :
    dc_dns_query_A dev env next_id host o2 = some q := by
  unfold dc_dns_query_A at h ⊢
  cases dev with
  | none =>
    simp only [Option.some.injEq] at h
    subst h
    exact absurd (show (-1 : Int) < 0 by decide) hq
  | some dns =>
    obtain ⟨n, log, hb⟩ := build_query_total DC_DNS_MAX_PACKET ((next_id + 1) % 65536) host
    simp only [hb] at h ⊢
    split at h
    · simp only [Option.some.injEq] at h
      subst h
      exact absurd (show (-1 : Int) < 0 by decide) hq
    rename_i hz
    rw [if_neg hz]
    split at h
    · simp only [Option.some.injEq] at h
      subst h
      exact absurd (show (-1 : Int) < 0 by decide) hq
    rename_i hn
    rw [if_neg hn]
    split at h
    · simp only [Option.some.injEq] at h
      subst h
      exact absurd (show (-1 : Int) < 0 by decide) hq
    rename_i hs
    rw [if_neg hs]
    split at h
    · simp only [Option.some.injEq] at h
      subst h
      exact absurd (show (-1 : Int) < 0 by decide) hq
    rename_i hsend
    rw [if_neg hsend]
    split at h
    · simp only [Option.some.injEq] at h
      subst h
      exact absurd (show (-1 : Int) < 0 by decide) hq
    rename_i hsel
    rw [if_neg hsel]
    simp only [Option.some.injEq] at h
    subst h
    have hp := parse_out_indep (recvfromStore env (applyWrites env.stack log)) (recvfromRet env)
      ((next_id + 1) % 65536) o1 o2
    rw [if_neg hq] at hp
    rw [hp]

/-- The address of a successful resolution of a node is the address of every
successful call of `dc_getaddrinfo_impl` for that node, and such a call
succeeds when the service and the hints are absent and both allocations
succeed. -/
theorem getaddrinfo_addr_of_resolve (E : GaiEnv) (next_id : Nat) (node : Option (List Nat))
    (q : QueryResult) (hres : resolveNode E next_id node = some q) (hq : 0 ≤ q.ret) :
    (∀ service hints r, dc_getaddrinfo_impl E next_id node service hints true = some r →
      r.ret = 0 → ∃ ai, r.res = some [ai] ∧ ai.ai_addr.sin_addr = q.out_addr) ∧
    (E.calloc_ai = true → E.calloc_sin = true →
      ∃ r ai, dc_getaddrinfo_impl E next_id node none none true = some r ∧ r.ret = 0 ∧
        r.res = some [ai] ∧ ai.ai_addr.sin_addr = q.out_addr) := by
  constructor
  · intro service hints r hr hr0
    rcases getaddrinfo_cases E next_id node service hints true r hr with
      ⟨h, _⟩ | ⟨_, _, h⟩ | ⟨_, _, q2, hq2, _, hres2⟩
    · exact absurd h (by decide)
    · rw [hr0] at h
      rcases h with h | h | h | h
      · exact absurd h (by decide)
      · exact absurd h (by decide)
      · exact absurd h (by decide)
      · exact absurd h (by decide)
    · rw [hres] at hq2
      simp only [Option.some.injEq] at hq2
      subst hq2
      exact ⟨_, hres2, rfl⟩
  · intro h1 h2
    obtain ⟨ai, hai, _, _, _, haddr, _⟩ := getaddrinfo_ok E next_id node none none q
      (Or.inl rfl) (fun h => absurd h (by decide)) hres hq ⟨h1, h2⟩
    exact ⟨_, ai, hai, rfl, rfl, haddr⟩

/-- C26: `dc_gethostbyname_impl` always returns; it fails, returning no record,
exactly when the name is absent or empty, or `inet_aton` refuses the name and
the resolution attempt fails, and it then sets `h_errno` to `HOST_NOT_FOUND`.
In every other case it sets `h_errno` to 0 and returns a record with the
name of the caller as `h_name`, no alias, the address type `AF_INET`, the
address length 4 and an address list of exactly one element; that address is
the address in the entry of every successful call of `dc_getaddrinfo_impl`
for the same host with the same device, network answers and identifier
counter, and such a call succeeds when service and hints are absent and both
allocations succeed. -/
theorem gethostbyname_contract (E : GaiEnv) (next_id : Nat) (dc_he_addr : List Nat)
    (name : Option (List Nat)) :
    ∃ g, dc_gethostbyname_impl E next_id dc_he_addr name = some g ∧
      (g.ret = none ↔
        (name = none ∨ name = some [] ∨
          ∃ n, name = some n ∧ E.inet_aton n = none ∧
            ∃ q, dc_dns_query_A E.dev E.net next_id n dc_he_addr = some q ∧ q.ret < 0)) ∧
      (g.ret = none → g.h_errno = HOST_NOT_FOUND) ∧
      (∀ h, g.ret = some h → g.h_errno = 0 ∧
        ∃ n a, name = some n ∧ h = ⟨n, [], AF_INET, 4, [a]⟩ ∧
          (∀ service hints r,
            dc_getaddrinfo_impl E next_id name service hints true = some r → r.ret = 0 →
            ∃ ai, r.res = some [ai] ∧ ai.ai_addr.sin_addr = a) ∧
          (E.calloc_ai = true → E.calloc_sin = true →
            ∃ r ai, dc_getaddrinfo_impl E next_id name none none true = some r ∧ r.ret = 0 ∧
              r.res = some [ai] ∧ ai.ai_addr.sin_addr = a)) := by
  unfold dc_gethostbyname_impl
  cases name with
  | none =>
    refine ⟨_, rfl, ⟨fun _ => Or.inl rfl, fun _ => rfl⟩, fun _ => rfl, ?_⟩
    intro h hh
    simp at hh
  | some n =>
    simp only []
    by_cases hn : n = []
    · rw [if_pos hn]
      refine ⟨_, rfl, ⟨fun _ => Or.inr (Or.inl (by rw [hn])), fun _ => rfl⟩, fun _ => rfl, ?_⟩
      intro h hh
      simp at hh
    rw [if_neg hn]
    cases hin : E.inet_aton n with
    | some a =>
      simp only []
      refine ⟨_, rfl, ⟨fun h => by simp at h, ?_⟩, fun h => by simp at h, ?_⟩
      · rintro (h | h | ⟨n2, h, hnone, _⟩)
        · simp at h
        · simp only [Option.some.injEq] at h
          exact absurd h hn
        · simp only [Option.some.injEq] at h
          subst h
          rw [hin] at hnone
          simp at hnone
      · intro h hh
        simp only [Option.some.injEq] at hh
        subst hh
        refine ⟨rfl, n, a, rfl, rfl, ?_⟩
        exact getaddrinfo_addr_of_resolve E next_id (some n) ⟨0, a, next_id, []⟩
          (resolveNode_numeric E next_id n a hin) (Int.le_refl 0)
    | none =>
      simp only []
      obtain ⟨q, hq⟩ := query_A_total E.dev E.net next_id n dc_he_addr
      rw [hq]
      simp only []
      by_cases hneg : q.ret < 0
      · rw [if_pos hneg]
        refine ⟨_, rfl, ⟨fun _ => Or.inr (Or.inr ⟨n, rfl, hin, q, hq, hneg⟩), fun _ => rfl⟩,
          fun _ => rfl, ?_⟩
        intro h hh
        simp at hh
      · rw [if_neg hneg]
        refine ⟨_, rfl, ⟨fun h => by simp at h, ?_⟩, fun h => by simp at h, ?_⟩
        · rintro (h | h | ⟨n2, h, _, q2, hq2, hneg2⟩)
          · simp at h
          · simp only [Option.some.injEq] at h
            exact absurd h hn
          · simp only [Option.some.injEq] at h
            subst h
            rw [hq] at hq2
            simp only [Option.some.injEq] at hq2
            subst hq2
            exact absurd hneg2 hneg
        · intro h hh
          simp only [Option.some.injEq] at hh
          subst hh
          refine ⟨rfl, n, q.out_addr, rfl, rfl, ?_⟩
          have hres : resolveNode E next_id (some n) = some q := by
            rw [resolveNode_query E next_id n hin]
            exact query_A_out_indep E.dev E.net next_id n dc_he_addr E.addr0 q hq hneg
          exact getaddrinfo_addr_of_resolve E next_id (some n) q hres (by omega)

theorem gethostbyname_contract_witness :
    ∃ g, dc_gethostbyname_impl sampleGaiEnvNet 0x1233 [9, 9, 9, 9] (some strHostAbc) = some g ∧
      (g.ret = none ↔
        (some strHostAbc = none ∨ some strHostAbc = some [] ∨
          ∃ n, some strHostAbc = some n ∧ sampleGaiEnvNet.inet_aton n = none ∧
            ∃ q, dc_dns_query_A sampleGaiEnvNet.dev sampleGaiEnvNet.net 0x1233 n [9, 9, 9, 9] =
              some q ∧ q.ret < 0)) ∧
      (g.ret = none → g.h_errno = HOST_NOT_FOUND) ∧
      (∀ h, g.ret = some h → g.h_errno = 0 ∧
        ∃ n a, some strHostAbc = some n ∧ h = ⟨n, [], AF_INET, 4, [a]⟩ ∧
          (∀ service hints r,
            dc_getaddrinfo_impl sampleGaiEnvNet 0x1233 (some strHostAbc) service hints true =
              some r → r.ret = 0 →
            ∃ ai, r.res = some [ai] ∧ ai.ai_addr.sin_addr = a) ∧
          (sampleGaiEnvNet.calloc_ai = true → sampleGaiEnvNet.calloc_sin = true →
            ∃ r ai, dc_getaddrinfo_impl sampleGaiEnvNet 0x1233 (some strHostAbc) none none true =
                some r ∧ r.ret = 0 ∧
              r.res = some [ai] ∧ ai.ai_addr.sin_addr = a)) :=
  gethostbyname_contract sampleGaiEnvNet 0x1233 [9, 9, 9, 9] (some strHostAbc)

end DnsShim
